import Mathlib

/-!
# mamo: idle-expiry reference-counted containers

A shallow embedding of `map.go`, `mamo.go`, `timer.go` and the constructor of
`mapex.go`.

Modelling conventions.

* Entries are heap objects reached through pointers (`*mamoEntry[V]`): the
  model keeps every entry that was ever stored in the map in `heap`, and a
  pointer is an index into it.  The `sync.Map` is the function `m` from keys to
  pointers.
* `int32` and `uint32` fields are integers and naturals reduced with the
  wrap-around of the Go atomics (`addInt32`, `addUint32`).
* A call either returns, panics, or does not return (`Outcome`); the state
  reached is always given.  Wait loops that yield with `runtime.Gosched` and
  the `goto BEGIN` retry take a `fuel` bound on their number of iterations.
* Operations run one at a time: every operation runs to its end before the
  next one starts, and the reaper loop handles an event as soon as it is
  handed over on the unbuffered channel.
* Fields marked *ghost* are not in the program; they log what the program did
  (finalizer calls, deletions, `createValue` calls, closures returned).
-/

namespace mamo

/-! ## Outcomes -/

/-- Diagnostics of the panics raised by the package (and by the Go runtime). -/
inductive PanicMsg where
  /-- Raised by `releaseEntry`: `bad refcnt %d`. -/
  | badRefcnt (cnt : Int)
  /-- Raised by `ensureAlive`: `operating a died MamoMap`. -/
  | diedMamoMap
  /-- Raised by the runtime on `*entry.value` when `value` is nil, or on a dangling pointer. -/
  | nilDeref
  /-- Raised by `MapExResult.Value`: `invalid attempt to get value from errored MapExResult`. -/
  | erroredResult
  deriving DecidableEq, Repr

/-- How a call ends: it returns `a`, it panics, or it does not return
(it waits for something that no step of the call itself brings about, or the
fuel of a wait loop ran out). -/
inductive Outcome (α : Type) where
  | ret (a : α)
  | panics (msg : PanicMsg)
  | blocks
  deriving DecidableEq, Repr

/-- Whether the call returned. -/
def Outcome.returned {α : Type} : Outcome α → Bool
  | .ret _ => true
  | _ => false

/-! ## Machine integers -/

/-- The value of an unbounded integer as an `int32` (two's complement wrap-around). -/
def wrapInt32 (x : Int) : Int := (x + 2147483648) % 4294967296 - 2147483648

/-- The `int32` addition of `atomic.AddInt32` and of `++`/`--` on an `int32`. -/
def addInt32 (x d : Int) : Int := wrapInt32 (x + d)

/-- The `uint32` addition of `atomic.AddUint32`. -/
def addUint32 (x d : Nat) : Nat := (x + d) % 4294967296

/-! ## timer.go -/

/-- The one-shot timer: `inner` tells whether `t.inner != nil`, i.e. whether
the timer is armed (a tick can be received from `c()` only then). -/
structure timer where
  inner : Bool
  duration : Int
  deriving DecidableEq, Repr

/-- Source: `newTimer`. -/
def newTimer (duration : Int) : timer := { inner := false, duration := duration }

/-- Source: `timer.start`. -/
def timer.start (t : timer) : timer :=
  if t.inner = false then { t with inner := true } else t

/-- Source: `timer.stop`. -/
def timer.stop (t : timer) : timer :=
  if t.inner = true then { t with inner := false } else t

/-! ## map.go: data -/

/-- Source: `mamoEntryFlag` and its constants. -/
inductive mamoEntryFlag where
  | mefUnknown
  | mefInitializing
  | mefReady
  | mefDeleting
  | mefDeleted
  deriving DecidableEq, Repr

open mamoEntryFlag

/-- Source: `mamoEntry[V]`; `value` is `none` for a nil pointer. -/
structure mamoEntry (V : Type) where
  cnt : Int
  ver : Nat
  flag : mamoEntryFlag
  value : Option V
  deriving DecidableEq, Repr

/-- Source: `mamoMapIdleEventPayload[K, V]`; `entry` is a pointer. -/
structure mamoMapIdleEventPayload (K : Type) where
  key : K
  entry : Nat
  prevVer : Nat
  deriving DecidableEq, Repr

/-- A release closure `func() { m.releaseEntry(key, entry) }`: the key and the
entry pointer it has captured. -/
structure ReleaseFunc (K : Type) where
  key : K
  entry : Nat
  deriving DecidableEq, Repr

/-- A call that `createValue` makes on the `Entry` handle it is given. -/
inductive EntryCall where
  | acquire
  | release
  deriving DecidableEq, Repr

/-- A `createValue func(Entry) V` callback: the calls it makes on its `Entry`
handle before it returns, in order, and the value it returns. -/
structure Creator (V : Type) where
  calls : List EntryCall
  value : V
  deriving DecidableEq, Repr

/-- Source: `MamoMap[K, V]` together with the locals of its `loop` goroutine
(`toCheck`, `toDelete`, `timer`).  `died` tells whether `diedCh` is closed and
`once` whether `m.once` has fired.  The last four fields are ghost. -/
structure MamoMap (K V : Type) where
  m : K → Option Nat
  heap : List (mamoEntry V)
  ttl : Int
  died : Bool
  once : Bool
  isFinalizable : Bool
  isFastDelete : Bool
  toCheck : List (mamoMapIdleEventPayload K)
  toDelete : List (mamoMapIdleEventPayload K)
  timer : timer
  /-- Ghost: the calls of `MamoFinalize`: the entry and its fields at the call. -/
  finalized : List (Nat × mamoEntry V)
  /-- Ghost: the deletions done by `tryDelete`: the entry and its fields when it was removed. -/
  deleted : List (Nat × mamoEntry V)
  /-- Ghost: the keys `createValue` was invoked for. -/
  createCalls : List K
  /-- Ghost: the release closures returned so far, each with the number of times it was called. -/
  closures : List (ReleaseFunc K × Nat)

variable {K V : Type} [DecidableEq K]

set_option linter.unusedSectionVars false

/-- Source: `NewMap`.  `isFinalizable` stands for `isFinalizable[V]()`, a
property of the value type. -/
def NewMap (ttl : Int) (isFinalizable : Bool) : MamoMap K V :=
  { m := fun _ => none
    heap := []
    ttl := ttl
    died := false
    once := false
    isFinalizable := isFinalizable
    isFastDelete := ttl == 0
    toCheck := []
    toDelete := []
    timer := newTimer ttl
    finalized := []
    deleted := []
    createCalls := []
    closures := [] }

/-- Writes the entry behind pointer `p`. -/
def MamoMap.setEntry (s : MamoMap K V) (p : Nat) (e : mamoEntry V) : MamoMap K V :=
  { s with heap := s.heap.set p e }

/-- Whether the `loop` goroutine is running and receiving on `m.q`. -/
def MamoMap.loopRunning (s : MamoMap K V) : Bool :=
  !s.isFastDelete && s.once && !s.died

/-- Source: `mamoEntry.untouchedSince`. -/
def mamoEntry.untouchedSince (e : mamoEntry V) (ver : Nat) : Bool :=
  e.cnt == 0 && e.ver == ver

/-- The loop `for atomic.LoadUint32(&e.flag) == mefInitializing { runtime.Gosched() }`
run for at most `fuel` iterations while nothing else writes the flag: whether it is left. -/
def spinInitializing (e : mamoEntry V) : Nat → Bool
  | 0 => e.flag != mefInitializing
  | fuel + 1 => if e.flag == mefInitializing then spinInitializing e fuel else true

/-- How `DELETING_LOOP` is left. -/
inductive DeletingExit where
  | ready
  | deleted
  deriving DecidableEq, Repr

/-- The loop `DELETING_LOOP` run for at most `fuel` iterations while nothing
else writes the flag; `none` when it is not left. -/
def deletingLoop (e : mamoEntry V) : Nat → Option DeletingExit
  | 0 => none
  | fuel + 1 =>
    match e.flag with
    | mefReady => some .ready
    | mefDeleted => some .deleted
    | _ => deletingLoop e fuel

/-- Source: `mamoEntry.acquire`. -/
def mamoEntry.acquire (fuel : Nat) (e : mamoEntry V) : Outcome Bool × mamoEntry V :=
  let e1 := { e with cnt := addInt32 e.cnt 1 }
  let bump : Outcome Bool × mamoEntry V := (.ret true, { e1 with ver := addUint32 e1.ver 1 })
  match e1.flag with
  | mefInitializing => if spinInitializing e1 fuel then bump else (.blocks, e1)
  | mefReady => bump
  | mefDeleting =>
    match deletingLoop e1 fuel with
    | some .ready => bump
    | some .deleted => (.ret false, e1)
    | none => (.blocks, e1)
  | mefDeleted => (.ret false, e1)
  | mefUnknown => bump

/-- Source: `MamoMap.tryDelete`. -/
def tryDelete (key : K) (p : Nat) (ver : Nat) (s : MamoMap K V) : MamoMap K V :=
  match s.heap[p]? with
  | none => s
  | some e =>
    if e.untouchedSince ver && e.flag == mefReady then
      let e1 := { e with flag := mefDeleting }
      if e1.untouchedSince ver then
        let fin := match e1.value with
          | some _ => if s.isFinalizable then s.finalized ++ [(p, e1)] else s.finalized
          | none => s.finalized
        let e2 := { e1 with value := none }
        { s with
          m := fun k => if k = key then none else s.m k
          heap := s.heap.set p { e2 with flag := mefDeleted }
          finalized := fin
          deleted := s.deleted ++ [(p, e1)] }
      else
        s.setEntry p { e1 with flag := mefReady }
    else s

/-- Calls `tryDelete` on every payload of a list, in order
(`for _, payload := range ... { m.tryDelete(payload.key, payload.entry, payload.prevVer) }`). -/
def tryDeleteAll (ps : List (mamoMapIdleEventPayload K)) (s : MamoMap K V) : MamoMap K V :=
  ps.foldl (fun s payload => tryDelete payload.key payload.entry payload.prevVer s) s

/-- Source: `MamoMap.loop`, case `mmekIdle`. -/
def loopIdle (payload : mamoMapIdleEventPayload K) (s : MamoMap K V) : MamoMap K V :=
  { s with toCheck := s.toCheck ++ [payload], timer := s.timer.start }

/-- Source: `MamoMap.loop`, case `mmekQuit`, with the deferred `timer.stop()`.  No
sender waits on `m.q` while the loop drains it, so the drain receives nothing. -/
def loopQuit (s : MamoMap K V) : MamoMap K V :=
  let s1 := { s with died := true }
  let s2 := tryDeleteAll s1.toDelete s1
  let s3 := tryDeleteAll s2.toCheck s2
  { s3 with timer := s3.timer.stop }

/-- The test `entry.untouchedSince(payload.prevVer)` that the loop makes on a
payload of `toCheck`. -/
def payloadUntouched (s : MamoMap K V) (payload : mamoMapIdleEventPayload K) : Bool :=
  match s.heap[payload.entry]? with
  | some e => e.untouchedSince payload.prevVer
  | none => false

/-- Source: `MamoMap.loop`, case `mmekTick`. -/
def loopTick (s : MamoMap K V) : MamoMap K V :=
  if s.toDelete.length = 0 ∧ s.toCheck.length = 0 then
    { s with timer := s.timer.stop }
  else
    let s1 := tryDeleteAll s.toDelete s
    { s1 with
      toDelete := s1.toCheck.filter (payloadUntouched s1)
      toCheck := []
      timer := s1.timer.stop.start }

/-- Source: `MamoMap.releaseEntry`. -/
def releaseEntry (key : K) (p : Nat) (s : MamoMap K V) : Outcome Unit × MamoMap K V :=
  match s.heap[p]? with
  | none => (.panics .nilDeref, s)
  | some e =>
    let ver := addUint32 e.ver 1
    let cnt := addInt32 e.cnt (-1)
    let s1 := s.setEntry p { e with ver := ver, cnt := cnt }
    if cnt < 0 then (.panics (.badRefcnt cnt), s1)
    else if cnt = 0 then
      if s1.isFastDelete then (.ret (), tryDelete key p ver s1)
      else if s1.died then (.ret (), tryDelete key p ver s1)
      else if s1.loopRunning then (.ret (), loopIdle ⟨key, p, ver⟩ s1)
      else (.blocks, s1)
    else (.ret (), s1)

/-- Source: `MamoMap.Loop`. -/
def Loop (s : MamoMap K V) : MamoMap K V :=
  if s.isFastDelete then s
  else if s.once then s else { s with once := true }

/-- Source: `MamoMap.ensureAlive`. -/
def ensureAlive (s : MamoMap K V) : Outcome Unit × MamoMap K V :=
  let s1 := Loop s
  if s1.died then (.panics .diedMamoMap, s1) else (.ret (), s1)

/-- Source: `MamoMap.Quit`. -/
def Quit (s : MamoMap K V) : Outcome Unit × MamoMap K V :=
  if s.isFastDelete then
    (.ret (), if s.once then s else { s with once := true, died := true })
  else
    let s1 := Loop s
    if s1.died then (.ret (), s1) else (.ret (), loopQuit s1)

/-- The calls `createValue` makes on its `Entry` handle (`newEntry(m, key, entry)`):
`Acquire` is `entry.acquire`, `Release` is `m.releaseEntry(key, entry)`. -/
def runEntryCalls (fuel : Nat) (key : K) (p : Nat) :
    List EntryCall → MamoMap K V → Outcome Unit × MamoMap K V
  | [], s => (.ret (), s)
  | .acquire :: rest, s =>
    match s.heap[p]? with
    | none => (.panics .nilDeref, s)
    | some e =>
      match e.acquire fuel with
      | (.ret _, e1) => runEntryCalls fuel key p rest (s.setEntry p e1)
      | (.panics msg, e1) => (.panics msg, s.setEntry p e1)
      | (.blocks, e1) => (.blocks, s.setEntry p e1)
  | .release :: rest, s =>
    match releaseEntry key p s with
    | (.ret _, s1) => runEntryCalls fuel key p rest s1
    | (.panics msg, s1) => (.panics msg, s1)
    | (.blocks, s1) => (.blocks, s1)

/-- What `AcquireOrStore` returns: `ret`, `created`, `release`. -/
abbrev StoreResult (K V : Type) := V × Bool × ReleaseFunc K

/-- The end of `AcquireOrStore`: `atomic.AddUint32(&entry.ver, 1)` and the
`return *entry.value, created, func() { m.releaseEntry(key, entry) }`. -/
def finishAcquireOrStore (key : K) (p : Nat) (created : Bool) (s : MamoMap K V) :
    Outcome (StoreResult K V) × MamoMap K V :=
  match s.heap[p]? with
  | none => (.panics .nilDeref, s)
  | some e =>
    let s1 := s.setEntry p { e with ver := addUint32 e.ver 1 }
    match e.value with
    | none => (.panics .nilDeref, s1)
    | some v =>
      (.ret (v, created, ⟨key, p⟩), { s1 with closures := s1.closures ++ [(⟨key, p⟩, 0)] })

/-- One pass of `AcquireOrStore` from the label `BEGIN`; the outcome is `none`
when the pass ends in `goto BEGIN`. -/
def attemptAcquireOrStore (fuel : Nat) (key : K) (createValue : Creator V) (s : MamoMap K V) :
    Option (Outcome (StoreResult K V)) × MamoMap K V :=
  match s.m key with
  | some p =>
    match s.heap[p]? with
    | none => (some (.panics .nilDeref), s)
    | some e =>
      let e1 := { e with cnt := addInt32 e.cnt 1 }
      let s1 := s.setEntry p e1
      let finish : Option (Outcome (StoreResult K V)) × MamoMap K V :=
        ((finishAcquireOrStore key p false s1).1, (finishAcquireOrStore key p false s1).2)
      match e1.flag with
      | mefInitializing => if spinInitializing e1 fuel then finish else (some .blocks, s1)
      | mefReady => finish
      | mefDeleting =>
        match deletingLoop e1 fuel with
        | some .ready => finish
        | some .deleted => (none, s1)
        | none => (some .blocks, s1)
      | mefDeleted => (none, s1)
      | mefUnknown => finish
  | none =>
    let p := s.heap.length
    let s1 : MamoMap K V :=
      { s with
        heap := s.heap ++ [{ cnt := 1, ver := 0, flag := mefInitializing, value := none }]
        m := fun k => if k = key then some p else s.m k
        createCalls := s.createCalls ++ [key] }
    match runEntryCalls fuel key p createValue.calls s1 with
    | (.ret _, s2) =>
      match s2.heap[p]? with
      | none => (some (.panics .nilDeref), s2)
      | some e =>
        let s3 := s2.setEntry p { e with value := some createValue.value, flag := mefReady }
        ((finishAcquireOrStore key p true s3).1, (finishAcquireOrStore key p true s3).2)
    | (.panics msg, s2) => (some (.panics msg), s2)
    | (.blocks, s2) => (some .blocks, s2)

/-- The retry loop of `AcquireOrStore` (`goto BEGIN`), at most `fuel` retries. -/
def retryAcquireOrStore (key : K) (createValue : Creator V) :
    Nat → MamoMap K V → Outcome (StoreResult K V) × MamoMap K V
  | 0, s =>
    match attemptAcquireOrStore 0 key createValue s with
    | (some o, s1) => (o, s1)
    | (none, s1) => (.blocks, s1)
  | fuel + 1, s =>
    match attemptAcquireOrStore (fuel + 1) key createValue s with
    | (some o, s1) => (o, s1)
    | (none, s1) => retryAcquireOrStore key createValue fuel s1

/-- Source: `MamoMap.AcquireOrStore`. -/
def AcquireOrStore (fuel : Nat) (key : K) (createValue : Creator V) (s : MamoMap K V) :
    Outcome (StoreResult K V) × MamoMap K V :=
  match ensureAlive s with
  | (.ret _, s1) => retryAcquireOrStore key createValue fuel s1
  | (.panics msg, s1) => (.panics msg, s1)
  | (.blocks, s1) => (.blocks, s1)

/-- What `Acquire` returns: `ret` (`none` is the zero value), `acquired`, and
`release` (`none` is `releaseNoop`). -/
abbrev AcquireResult (K V : Type) := Option V × Bool × Option (ReleaseFunc K)

/-- Source: `MamoMap.Acquire`. -/
def Acquire (fuel : Nat) (key : K) (s : MamoMap K V) :
    Outcome (AcquireResult K V) × MamoMap K V :=
  match ensureAlive s with
  | (.ret _, s1) =>
    match s1.m key with
    | none => (.ret (none, false, none), s1)
    | some p =>
      match s1.heap[p]? with
      | none => (.panics .nilDeref, s1)
      | some e =>
        match e.acquire fuel with
        | (.ret false, e1) => (.ret (none, false, none), s1.setEntry p e1)
        | (.ret true, e1) =>
          match e1.value with
          | none => (.panics .nilDeref, s1.setEntry p e1)
          | some v =>
            (.ret (some v, true, some ⟨key, p⟩),
              { s1.setEntry p e1 with closures := s1.closures ++ [(⟨key, p⟩, 0)] })
        | (.panics msg, e1) => (.panics msg, s1.setEntry p e1)
        | (.blocks, e1) => (.blocks, s1.setEntry p e1)
  | (.panics msg, s1) => (.panics msg, s1)
  | (.blocks, s1) => (.blocks, s1)

/-- Source: `MamoMap.Release`. -/
def Release (key : K) (s : MamoMap K V) : Outcome Unit × MamoMap K V :=
  match s.m key with
  | none => (.ret (), s)
  | some p => releaseEntry key p s

/-! ## Sequences of operations on a Map -/

/-- Calls the release closure that was returned as the `i`-th one (counting
from 0); nothing happens when fewer closures have been returned. -/
def callRelease (i : Nat) (s : MamoMap K V) : Outcome Unit × MamoMap K V :=
  match s.closures[i]? with
  | none => (.ret (), s)
  | some (r, n) => releaseEntry r.key r.entry { s with closures := s.closures.set i (r, n + 1) }

/-- The timer of the reaper loop fires: the loop handles `mmekTick`.  A tick can
be received only while the loop runs and the timer is armed. -/
def Tick (s : MamoMap K V) : MamoMap K V :=
  if s.loopRunning && s.timer.inner then loopTick s else s

/-- An operation on a Map: the public calls, a call of a returned release
closure, and a tick of the reaper timer.  The callback of `acquireOrStore`
returns `value` and does not use its `Entry` handle. -/
inductive Op (K V : Type) where
  | acquireOrStore (key : K) (value : V)
  | acquire (key : K)
  | callRelease (i : Nat)
  | release (key : K)
  | tick
  | quit
  deriving DecidableEq, Repr

/-- The state after an operation (after a panic: the state the panic leaves). -/
def step (fuel : Nat) (op : Op K V) (s : MamoMap K V) : MamoMap K V :=
  match op with
  | .acquireOrStore key value => (AcquireOrStore fuel key ⟨[], value⟩ s).2
  | .acquire key => (Acquire fuel key s).2
  | .callRelease i => (callRelease i s).2
  | .release key => (Release key s).2
  | .tick => Tick s
  | .quit => (Quit s).2

/-- The state after a sequence of operations. -/
def run (fuel : Nat) (ops : List (Op K V)) (s : MamoMap K V) : MamoMap K V :=
  ops.foldl (fun s op => step fuel op s) s

/-! ## Well-formed Map states -/

/-- The key and the entry of a release closure, or of an idle payload, belong
together: the entry is allocated and, as long as it is `mefReady`, it is the
entry stored under the key. -/
def Tied (s : MamoMap K V) (key : K) (p : Nat) : Prop :=
  ∃ e, s.heap[p]? = some e ∧ (e.flag = mefReady → s.m key = some p)

/-- The state `tryDelete` leaves when it deletes entry `p`, whose fields were `e`. -/
def destroy (key : K) (p : Nat) (e : mamoEntry V) (s : MamoMap K V) : MamoMap K V :=
  { s with
    m := fun k => if k = key then none else s.m k
    heap := s.heap.set p { e with flag := mefDeleted, value := none }
    finalized :=
      if s.isFinalizable = true ∧ e.value.isSome = true then
        s.finalized ++ [(p, { e with flag := mefDeleting })]
      else s.finalized
    deleted := s.deleted ++ [(p, { e with flag := mefDeleting })] }

/-- What holds of a Map between two operations.  Every entry in the map is
`mefReady` and holds a value, every other entry is `mefDeleted` and holds none;
no entry is stored under two keys; closures and payloads are `Tied`; the ghost
logs record deletions and finalizer calls made at `cnt == 0` under
`mefDeleting`, one finalizer call per deleted entry of a finalizable map; and
every entry comes from one `createValue` call. -/
structure WF (s : MamoMap K V) : Prop where
  map_ready : ∀ k p, s.m k = some p → ∃ e, s.heap[p]? = some e ∧ e.flag = mefReady
  inj : ∀ k k' p, s.m k = some p → s.m k' = some p → k = k'
  flags : ∀ (p : Nat) (e : mamoEntry V), s.heap[p]? = some e →
    (e.flag = mefReady ∧ e.value.isSome = true) ∨ (e.flag = mefDeleted ∧ e.value = none)
  closures : ∀ x ∈ s.closures, Tied s x.1.key x.1.entry
  toCheck : ∀ x ∈ s.toCheck, Tied s x.key x.entry
  toDelete : ∀ x ∈ s.toDelete, Tied s x.key x.entry
  deleted : ∀ x ∈ s.deleted, x.2.cnt = 0 ∧ x.2.flag = mefDeleting
  finalized : ∀ x ∈ s.finalized,
    x.2.cnt = 0 ∧ x.2.flag = mefDeleting ∧ x.2.value.isSome = true
  finCount : ∀ p, (s.finalized.map Prod.fst).count p =
    match s.heap[p]? with
    | some e => if s.isFinalizable = true ∧ e.flag = mefDeleted then 1 else 0
    | none => 0
  creates : s.createCalls.length = s.heap.length

/-- The state a successful acquire of the `mefReady` entry `p` (fields `e`)
leaves: one more reference, the next version, one more closure returned. -/
def acquired (key : K) (p : Nat) (e : mamoEntry V) (s : MamoMap K V) : MamoMap K V :=
  { s with
    heap := s.heap.set p { e with cnt := addInt32 e.cnt 1, ver := addUint32 e.ver 1 }
    closures := s.closures ++ [(⟨key, p⟩, 0)] }

/-- The state `AcquireOrStore` leaves when it stores a new entry for `key`
whose `createValue` returned `v` without using its handle. -/
def stored (key : K) (v : V) (s : MamoMap K V) : MamoMap K V :=
  { s with
    heap := s.heap ++ [{ cnt := 1, ver := 1, flag := mefReady, value := some v }]
    m := fun k => if k = key then some s.heap.length else s.m k
    createCalls := s.createCalls ++ [key]
    closures := s.closures ++ [(⟨key, s.heap.length⟩, 0)] }

/-! ## mapex.go -/

/-- Source: `itemExState` and its constants. -/
inductive itemExState where
  | iesUnknown
  | iesUninitialized
  | iesInitializing
  | iesCallReady
  | iesReady
  | iesRevoking
  deriving DecidableEq, Repr

/-- The `error` of a call: the error `createValue` returned, or the
`PanicError` built from the value it panicked with. -/
inductive CallError where
  | returned (code : Nat)
  | panicError (value : Nat)
  deriving DecidableEq, Repr

/-- Source: `call[V]`; `done` tells whether the wait group has been released. -/
structure call (V : Type) where
  done : Bool
  value : Option V
  ver : Nat
  err : Option CallError
  deriving DecidableEq, Repr

/-- Source: `itemEx[V]`; `call` is a pointer into the calls of the map, `none` for nil. -/
structure itemEx (V : Type) where
  state : itemExState
  ver : Nat
  call : Option Nat
  deriving DecidableEq, Repr

/-- Source: `MamoMapEx[K, V]`: the inner `MamoMap[K, *itemEx[V]]`, whose values
are pointers into `items`, with the items and the call records allocated so far. -/
structure MamoMapEx (K V : Type) where
  m : MamoMap K Nat
  items : List (itemEx V)
  calls : List (call V)

/-- Source: `NewMapEx`.  The inner value type `*itemEx[V]` has no `MamoFinalize`
method, so `isFinalizable` is false for the inner map. -/
def NewMapEx (ttl : Int) : MamoMapEx K V :=
  { m := NewMap ttl false, items := [], calls := [] }

/-- What one invocation of a `createValue func() (V, error)` callback does: it
returns a value with a nil error, returns a non-nil error, or panics. -/
inductive CreateOutcome (V : Type) where
  | value (v : V)
  | error (code : Nat)
  | panic (value : Nat)
  deriving DecidableEq, Repr

/-- Source: `MapExResult[V]`: pointers to the call and to the item, `none` for a nil item. -/
structure MapExResult where
  call : Nat
  item : Option Nat
  deriving DecidableEq, Repr

/-- Source: `newItemEx`. -/
def newItemEx : itemEx V :=
  { state := .iesUninitialized, ver := 0, call := none }

/-- Source: `itemEx.revoke`. -/
def itemEx.revoke (item : itemEx V) (ver : Nat) : itemEx V :=
  if item.state = .iesReady then
    let item1 : itemEx V := { item with state := .iesRevoking }
    if ver ≠ item1.ver then { item1 with state := .iesReady }
    else { item1 with ver := addUint32 item1.ver 1, call := none, state := .iesUninitialized }
  else item

/-- Source: `itemEx.do`, on the item behind pointer `ip`, with what this
invocation of `createValue` does.  The result is the pointer to the new call, or
`none` for nil.  When `createValue` panics the deferred function recovers,
records the `PanicError` in the call and stores `iesUninitialized`, and `do`,
whose result is unnamed, returns the zero value nil: `return c` is not reached. -/
def itemEx_do (createValue : CreateOutcome V) (ip : Nat) (s : MamoMapEx K V) :
    Option Nat × MamoMapEx K V :=
  match s.items[ip]? with
  | none => (none, s)
  | some i =>
    if i.state = .iesUninitialized then
      let cp := s.calls.length
      let c : call V := { done := false, value := none, ver := i.ver, err := none }
      let i1 : itemEx V := { i with call := some cp }
      match createValue with
      | .value v =>
        (some cp,
          { s with
            items := s.items.set ip { i1 with state := .iesReady }
            calls := s.calls ++ [{ c with value := some v, done := true }] })
      | .error code =>
        (some cp,
          { s with
            items := s.items.set ip { i1 with state := .iesUninitialized }
            calls := s.calls ++ [{ c with err := some (.returned code), done := true }] })
      | .panic value =>
        (none,
          { s with
            items := s.items.set ip { i1 with state := .iesUninitialized }
            calls := s.calls ++ [{ c with err := some (.panicError value), done := true }] })
    else (none, s)

/-- Source: `MapExResult.IsError`. -/
def MapExResult.IsError (r : MapExResult) (s : MamoMapEx K V) : Bool :=
  match s.calls[r.call]? with
  | some c => c.err.isSome
  | none => false

/-- Source: `MapExResult.Err`. -/
def MapExResult.Err (r : MapExResult) (s : MamoMapEx K V) : Option CallError :=
  match s.calls[r.call]? with
  | some c => c.err
  | none => none

/-- Source: `MapExResult.Value`; the value `none` is the zero value of `V`. -/
def MapExResult.Value (r : MapExResult) (s : MamoMapEx K V) : Outcome (Option V) :=
  match s.calls[r.call]? with
  | some c => if c.err.isSome then .panics .erroredResult else .ret c.value
  | none => .panics .nilDeref

/-- Source: `MapExResult.Revoke`. -/
def MapExResult.Revoke (r : MapExResult) (s : MamoMapEx K V) : MamoMapEx K V :=
  match r.item, s.calls[r.call]? with
  | some ip, some c =>
    if c.err = none then
      match s.items[ip]? with
      | some item => { s with items := s.items.set ip (item.revoke c.ver) }
      | none => s
    else s
  | _, _ => s

/-- Source: `MapExResult.IsRevoked`. -/
def MapExResult.IsRevoked (r : MapExResult) (s : MamoMapEx K V) : Bool :=
  match r.item with
  | none => true
  | some ip =>
    match s.calls[r.call]?, s.items[ip]? with
    | some c, some item => c.ver != item.ver
    | _, _ => true

/-- What `MamoMapEx.AcquireOrStore` returns: `res`, `created`, and `release`
(`none` is `releaseNoop`). -/
abbrev ExStoreResult (K : Type) := MapExResult × Bool × Option (ReleaseFunc K)

/-- The `switch` at the label `LOAD_STATE` of `MamoMapEx.AcquireOrStore`, on the
item loaded: the call `c` (`none` for nil), the number of invocations of
`createValue` by this call so far, `created`, and the state.  `createValue n` is
what the callback does at its `n`-th invocation by this call (counting from 0). -/
def switchLoadState (createValue : Nat → CreateOutcome V) (ip : Nat) (invoked : Nat)
    (created : Bool) (item : itemEx V) (s : MamoMapEx K V) :
    Option Nat × Nat × Bool × MamoMapEx K V :=
  match item.state with
  | .iesUninitialized =>
    ((itemEx_do (createValue invoked) ip s).1, invoked + 1,
      created || (itemEx_do (createValue invoked) ip s).1.isSome,
      (itemEx_do (createValue invoked) ip s).2)
  | .iesCallReady => (item.call, invoked, created, s)
  | .iesReady => (item.call, invoked, created, s)
  | _ => (none, invoked, created, s)

/-- The statements of `MamoMapEx.AcquireOrStore` between the `switch` and the
test of `c.err`: `none` when they end in `goto LOAD_STATE`, `ret (c, created)`
when they get to the test of `c.err`; `c.wg.Wait()` blocks when it waits for a
call that nothing will finish. -/
def awaitCall (ip : Nat) (c : Option Nat) (created : Bool) (s : MamoMapEx K V) :
    Option (Outcome (Nat × Bool)) :=
  match c with
  | none => none
  | some cp =>
    match s.calls[cp]?, s.items[ip]? with
    | some c, some item =>
      if !c.done then some .blocks
      else if c.ver ≠ item.ver then none
      else some (.ret (cp, created))
    | _, _ => some (.panics .nilDeref)

/-- One pass of `MamoMapEx.AcquireOrStore` from the label `LOAD_STATE` to the
test of `c.err`: the outcome (`none` for `goto LOAD_STATE`), the number of
invocations of `createValue` so far, `created`, and the state. -/
def attemptLoadState (createValue : Nat → CreateOutcome V) (ip : Nat) (invoked : Nat)
    (created : Bool) (s : MamoMapEx K V) :
    Option (Outcome (Nat × Bool)) × Nat × Bool × MamoMapEx K V :=
  match s.items[ip]? with
  | none => (some (.panics .nilDeref), invoked, created, s)
  | some item =>
    (awaitCall ip (switchLoadState createValue ip invoked created item s).1
        (switchLoadState createValue ip invoked created item s).2.2.1
        (switchLoadState createValue ip invoked created item s).2.2.2,
      (switchLoadState createValue ip invoked created item s).2.1,
      (switchLoadState createValue ip invoked created item s).2.2.1,
      (switchLoadState createValue ip invoked created item s).2.2.2)

/-- The loop of `MamoMapEx.AcquireOrStore` (`goto LOAD_STATE`), at most `fuel` retries. -/
def loadState (createValue : Nat → CreateOutcome V) (ip : Nat) :
    Nat → Nat → Bool → MamoMapEx K V → Outcome (Nat × Bool) × MamoMapEx K V
  | 0, invoked, created, s =>
    match attemptLoadState createValue ip invoked created s with
    | (some o, _, _, s1) => (o, s1)
    | (none, _, _, s1) => (.blocks, s1)
  | fuel + 1, invoked, created, s =>
    match attemptLoadState createValue ip invoked created s with
    | (some o, _, _, s1) => (o, s1)
    | (none, n, cr, s1) => loadState createValue ip fuel n cr s1

/-- Calls the release closure that the inner map returned last
(`release()` in `MamoMapEx.AcquireOrStore` and `MamoMapEx.Acquire`). -/
def releaseLast (s : MamoMapEx K V) : Outcome Unit × MamoMapEx K V :=
  ((callRelease (s.m.closures.length - 1) s.m).1,
    { s with m := (callRelease (s.m.closures.length - 1) s.m).2 })

/-- The statements `release()` and `return res, false, releaseNoop` of
`MamoMapEx.AcquireOrStore` and `MamoMapEx.Acquire`. -/
def releaseAndReturn {α : Type} (res : α) (s : MamoMapEx K V) :
    Outcome (α × Bool × Option (ReleaseFunc K)) × MamoMapEx K V :=
  match releaseLast s with
  | (.ret _, s1) => (.ret (res, false, none), s1)
  | (.panics msg, s1) => (.panics msg, s1)
  | (.blocks, s1) => (.blocks, s1)

/-- Source: `MamoMapEx.AcquireOrStore`.  The inner `createValue` is `newItemEx`:
when the inner map stores a new entry, its value is the pointer to a new item. -/
def MamoMapEx.AcquireOrStore (fuel : Nat) (key : K) (createValue : Nat → CreateOutcome V)
    (s : MamoMapEx K V) : Outcome (ExStoreResult K) × MamoMapEx K V :=
  match mamo.AcquireOrStore fuel key ⟨[], s.items.length⟩ s.m with
  | (.ret (ip, created, release), m1) =>
    let s1 : MamoMapEx K V :=
      { s with m := m1, items := if created then s.items ++ [newItemEx] else s.items }
    match loadState createValue ip fuel 0 created s1 with
    | (.ret (cp, created1), s2) =>
      match s2.calls[cp]? with
      | none => (.panics .nilDeref, s2)
      | some c =>
        if c.err.isSome then releaseAndReturn ⟨cp, none⟩ s2
        else (.ret (⟨cp, some ip⟩, created1, some release), s2)
    | (.panics msg, s2) => (.panics msg, s2)
    | (.blocks, s2) => (.blocks, s2)
  | (.panics msg, m1) => (.panics msg, { s with m := m1 })
  | (.blocks, m1) => (.blocks, { s with m := m1 })

/-- The statements of `MamoMapEx.Acquire` after its `switch` has loaded the call
`cp` of `item`: `none` when they end in `goto LOAD_STATE`, `ret none` when they
end in `release()` and the return of `nil, false, releaseNoop`, `ret (some cp)`
when the call is returned. -/
def checkCall (item : itemEx V) (cp : Nat) (s : MamoMapEx K V) : Option (Outcome (Option Nat)) :=
  match s.calls[cp]? with
  | none => some (.panics .nilDeref)
  | some c =>
    if c.ver ≠ item.ver then none
    else if !c.done then some .blocks
    else if c.err.isSome then some (.ret none)
    else some (.ret (some cp))

/-- One pass of `MamoMapEx.Acquire` from the label `LOAD_STATE`, with the same
outcomes as `checkCall`. -/
def attemptLoadStateAcquire (ip : Nat) (s : MamoMapEx K V) : Option (Outcome (Option Nat)) :=
  match s.items[ip]? with
  | none => some (.panics .nilDeref)
  | some item =>
    match item.state with
    | .iesUninitialized => some (.ret none)
    | .iesCallReady =>
      match item.call with
      | none => none
      | some cp => checkCall item cp s
    | .iesReady =>
      match item.call with
      | none => none
      | some cp => checkCall item cp s
    | _ => none

/-- The loop of `MamoMapEx.Acquire` (`goto LOAD_STATE`), at most `fuel` retries. -/
def loadStateAcquire (ip : Nat) : Nat → MamoMapEx K V → Outcome (Option Nat)
  | 0, s =>
    match attemptLoadStateAcquire ip s with
    | some o => o
    | none => .blocks
  | fuel + 1, s =>
    match attemptLoadStateAcquire ip s with
    | some o => o
    | none => loadStateAcquire ip fuel s

/-- What `MamoMapEx.Acquire` returns: `res` (`none` is nil), `acquired`, and
`release` (`none` is `releaseNoop`). -/
abbrev ExAcquireResult (K : Type) := Option MapExResult × Bool × Option (ReleaseFunc K)

/-- Source: `MamoMapEx.Acquire`. -/
def MamoMapEx.Acquire (fuel : Nat) (key : K) (s : MamoMapEx K V) :
    Outcome (ExAcquireResult K) × MamoMapEx K V :=
  match mamo.Acquire fuel key s.m with
  | (.ret (item, acquired, release), m1) =>
    let s1 : MamoMapEx K V := { s with m := m1 }
    if !acquired then (.ret (none, false, none), s1)
    else
      match item with
      | none => (.panics .nilDeref, s1)
      | some ip =>
        match loadStateAcquire ip fuel s1 with
        | .ret (some cp) => (.ret (some ⟨cp, some ip⟩, true, release), s1)
        | .ret none => releaseAndReturn none s1
        | .panics msg => (.panics msg, s1)
        | .blocks => (.blocks, s1)
  | (.panics msg, m1) => (.panics msg, { s with m := m1 })
  | (.blocks, m1) => (.blocks, { s with m := m1 })

/-- Source: `MamoMapEx.Release`. -/
def MamoMapEx.Release (key : K) (s : MamoMapEx K V) : Outcome Unit × MamoMapEx K V :=
  ((mamo.Release key s.m).1, { s with m := (mamo.Release key s.m).2 })

/-- Source: `MamoMapEx.Loop`. -/
def MamoMapEx.Loop (s : MamoMapEx K V) : MamoMapEx K V :=
  { s with m := mamo.Loop s.m }

/-- Source: `MamoMapEx.Quit`. -/
def MamoMapEx.Quit (s : MamoMapEx K V) : Outcome Unit × MamoMapEx K V :=
  ((mamo.Quit s.m).1, { s with m := (mamo.Quit s.m).2 })

/-! ## mamo.go: the Tracker -/

/-- Source: `mamoEvent` and its constants. -/
inductive mamoEvent where
  | meUnknown
  | meAcquire
  | meRelease
  | meTick
  | meQuit
  deriving DecidableEq, Repr

open mamoEvent

/-- Ghost record of one call of the notifier: the loop variables at the call,
the number of references held by users, whether no Acquire or Release had been
handled since the Release that brought `counter` to zero (or since the last
notifier call that returned false), and what the notifier answered. -/
structure NotifierCall where
  counter : Int
  ver : Int
  prevVer : Int
  held : Int
  quiet : Bool
  answer : Bool
  deriving DecidableEq, Repr

/-- Source: `Mamo` together with the locals of its `loop` goroutine (`counter`,
`ver`, `prevVer`, `timer`).  `died` tells whether `diedCh` is closed and
`loopOnce` whether the loop has been started.  The last three fields are ghost:
`held` is the number of user Acquires minus the number of user Releases handed
to the loop, `quiet` is as in `NotifierCall`, `notified` logs the notifier calls. -/
structure Mamo where
  counter : Int
  ver : Int
  prevVer : Int
  timer : timer
  ttl : Int
  loopOnce : Bool
  died : Bool
  held : Int
  quiet : Bool
  notified : List NotifierCall
  deriving DecidableEq, Repr

/-- Source: `New`, with the initial values of the locals of `loop`. -/
def New (ttl : Int) : Mamo :=
  { counter := 1, ver := 0, prevVer := 0, timer := newTimer ttl, ttl := ttl,
    loopOnce := false, died := false, held := 0, quiet := false, notified := [] }

/-- The deferred function of `loop`: `timer.stop()`, `m.notifier = nil`, `close(m.diedCh)`. -/
def Mamo.exit (s : Mamo) : Mamo :=
  { s with timer := s.timer.stop, died := true }

/-- Source: `Mamo.loop`, one pass through the `switch` on a path that reaches
the `select` or returns.  `notifier n` is what the notifier answers when it is
called for the `n`-th time (counting from 0). -/
def Mamo.handleOnce (notifier : Nat → Bool) (event : mamoEvent) (s : Mamo) : Mamo :=
  match event with
  | meAcquire =>
    { s with counter := addInt32 s.counter 1, ver := addInt32 s.ver 1, timer := s.timer.stop,
             quiet := false }
  | meRelease =>
    let counter := addInt32 s.counter (-1)
    let ver := addInt32 s.ver 1
    if counter = 0 then
      { s with counter := counter, ver := ver, prevVer := ver, timer := s.timer.stop.start,
               quiet := true }
    else
      { s with counter := counter, ver := ver, quiet := false }
  | meQuit => s.exit
  | meTick =>
    let answer := notifier s.notified.length
    let s1 : Mamo := { s with notified := s.notified ++
      [{ counter := s.counter, ver := s.ver, prevVer := s.prevVer, held := s.held,
         quiet := s.quiet, answer := answer }] }
    if !answer then
      { s1 with prevVer := s1.ver, timer := s1.timer.stop, quiet := true }
    else
      s1.exit
  | meUnknown => s

/-- Source: `Mamo.loop`, from the top of the `for` with `event` to the next
`select` (or to the return).  On a `meTick` with `ver != prevVer` the loop
executes `continue LOOP`, which starts the next pass with the same event;
`fuel` bounds the number of such passes and `none` means the `select` was not
reached. -/
def Mamo.handle (notifier : Nat → Bool) : Nat → mamoEvent → Mamo → Option Mamo
  | 0, event, s =>
    if event = meTick ∧ s.ver ≠ s.prevVer then none else some (s.handleOnce notifier event)
  | fuel + 1, event, s =>
    if event = meTick ∧ s.ver ≠ s.prevVer then Mamo.handle notifier fuel event s
    else some (s.handleOnce notifier event)

/-- Source: `Mamo.Loop`: the first call starts `loop`, which handles its initial
`meRelease` before it waits in the `select`. -/
def Mamo.Loop (notifier : Nat → Bool) (fuel : Nat) (s : Mamo) : Option Mamo :=
  if s.loopOnce then some s else Mamo.handle notifier fuel meRelease { s with loopOnce := true }

/-- Source: `Mamo.send`; `none` when the loop never receives the event. -/
def Mamo.send (notifier : Nat → Bool) (fuel : Nat) (e : mamoEvent) (s : Mamo) :
    Option (Bool × Mamo) :=
  match s.Loop notifier fuel with
  | none => none
  | some s1 =>
    if s1.died then some (false, s1)
    else
      let held : Int := match e with
        | meAcquire => s1.held + 1
        | meRelease => s1.held - 1
        | _ => s1.held
      (Mamo.handle notifier fuel e { s1 with held := held }).map fun s2 => (true, s2)

/-- Source: `Mamo.Acquire`. -/
def Mamo.Acquire (notifier : Nat → Bool) (fuel : Nat) (s : Mamo) : Option (Bool × Mamo) :=
  s.send notifier fuel meAcquire

/-- Source: `Mamo.Release`. -/
def Mamo.Release (notifier : Nat → Bool) (fuel : Nat) (s : Mamo) : Option (Bool × Mamo) :=
  s.send notifier fuel meRelease

/-- Source: `Mamo.Quit`. -/
def Mamo.Quit (notifier : Nat → Bool) (fuel : Nat) (s : Mamo) : Option Mamo :=
  (s.send notifier fuel meQuit).map Prod.snd

/-- The armed timer of a running loop fires and the loop handles `meTick`; a
tick cannot be received otherwise. -/
def Mamo.Tick (notifier : Nat → Bool) (fuel : Nat) (s : Mamo) : Option Mamo :=
  if s.loopOnce && !s.died && s.timer.inner then Mamo.handle notifier fuel meTick s else some s

/-- An event of a Tracker run: a user call or a tick of the timer. -/
inductive TrackerOp where
  | acquire
  | release
  | quit
  | loop
  | tick
  deriving DecidableEq, Repr

/-- The state after one event; `none` when the loop never gets to the next `select`. -/
def Mamo.step (notifier : Nat → Bool) (fuel : Nat) (op : TrackerOp) (s : Mamo) : Option Mamo :=
  match op with
  | .acquire => (s.Acquire notifier fuel).map Prod.snd
  | .release => (s.Release notifier fuel).map Prod.snd
  | .quit => s.Quit notifier fuel
  | .loop => s.Loop notifier fuel
  | .tick => s.Tick notifier fuel

/-- The state after a sequence of events. -/
def Mamo.run (notifier : Nat → Bool) (fuel : Nat) : List TrackerOp → Mamo → Option Mamo
  | [], s => some s
  | op :: ops, s =>
    match s.step notifier fuel op with
    | none => none
    | some s1 => Mamo.run notifier fuel ops s1

/-- Whether every Release of the sequence is matched by an earlier Acquire that
no earlier Release has used, `held` being the number of unmatched Acquires so far. -/
def matched : Nat → List TrackerOp → Bool
  | _, [] => true
  | held, .acquire :: ops => matched (held + 1) ops
  | 0, .release :: _ => false
  | held + 1, .release :: ops => matched held ops
  | held, _ :: ops => matched held ops

/-- Whether the number of references held stays below `bound` along the
sequence, `held` being the number held so far. -/
def heldBelow (bound : Nat) : Nat → List TrackerOp → Bool
  | held, [] => held < bound
  | held, .acquire :: ops => held < bound && heldBelow bound (held + 1) ops
  | held, .release :: ops => held < bound && heldBelow bound (held - 1) ops
  | held, _ :: ops => held < bound && heldBelow bound held ops

/-- The configuration of `s'` is that of `s`. -/
def sameConfig (s s' : MamoMap K V) : Prop :=
  s'.isFastDelete = s.isFastDelete ∧ s'.isFinalizable = s.isFinalizable ∧ s'.ttl = s.ttl

/-- The number of release closures returned for entry `p` that have not been called yet. -/
def outstanding (p : Nat) (s : MamoMap K V) : Nat :=
  s.closures.countP fun x => x.1.entry == p && x.2 == 0

/-- The closures called by a sequence of operations, in order. -/
def releaseIndices : List (Op K V) → List Nat
  | [] => []
  | .callRelease i :: ops => i :: releaseIndices ops
  | _ :: ops => releaseIndices ops

/-- Whether a sequence consists of `AcquireOrStore`, `Acquire` and calls of
release closures, with ticks of the reaper timer and `Quit` in between: every
operation but `Release(key)`, which takes a reference without a closure. -/
def handleOps : List (Op K V) → Bool
  | [] => true
  | .release _ :: _ => false
  | _ :: ops => handleOps ops

/-- Every entry's `cnt` is the `int32` value of the number of closures returned
for it that have not been called yet. -/
def Counted (s : MamoMap K V) : Prop :=
  ∀ (p : Nat) (e : mamoEntry V), s.heap[p]? = some e → e.cnt = wrapInt32 (outstanding p s)

/-- None of the closures with the indices `is` has been called. -/
def Uncalled (s : MamoMap K V) (is : List Nat) : Prop :=
  ∀ i ∈ is, ∀ (r : ReleaseFunc K) (n : Nat), s.closures[i]? = some (r, n) → n = 0

/-- What holds of a Tracker whenever its loop waits in the `select` (or has not
been started, or has returned): the loop variables are `int32` values; while
the timer is armed the loop is alive, `counter + ver - prevVer` is zero as an
`int32`, `counter` is zero and `ver == prevVer` if no Acquire or Release was
handled since the timer was armed, and `counter` is not zero otherwise; before
the loop starts the variables have their initial values; once it has started
`counter` is the `int32` value of the number of references held; and every
notifier call so far was made with `counter == 0`, `ver == prevVer` and no
Acquire or Release handled since the Release that brought `counter` to zero. -/
structure TrackerInv (s : Mamo) : Prop where
  range : (-2147483648 ≤ s.counter ∧ s.counter < 2147483648) ∧
    (-2147483648 ≤ s.ver ∧ s.ver < 2147483648) ∧
    (-2147483648 ≤ s.prevVer ∧ s.prevVer < 2147483648)
  armed_alive : s.timer.inner = true → s.loopOnce = true ∧ s.died = false
  armed_sum : s.timer.inner = true → wrapInt32 (s.counter + s.ver - s.prevVer) = 0
  armed_quiet : s.timer.inner = true → s.quiet = true → s.counter = 0 ∧ s.ver = s.prevVer
  armed_loud : s.timer.inner = true → s.quiet = false → s.counter ≠ 0
  seed : s.loopOnce = false →
    s.counter = 1 ∧ s.ver = 0 ∧ s.prevVer = 0 ∧ s.held = 0 ∧ s.died = false
  counted : s.loopOnce = true → s.counter = wrapInt32 s.held
  calls : ∀ c ∈ s.notified, c.counter = 0 ∧ c.quiet = true ∧ c.ver = c.prevVer

/-- What holds of a Tracker along a sequence of events in which every Release
is matched and fewer than 2^32 references are held: `held` is the number `h` of
references the sequence holds so far, the timer is armed only while no Acquire
or Release was handled since the Release that brought `counter` to zero, and
every notifier call so far was made while no reference was held. -/
structure Calm (h : Nat) (s : Mamo) : Prop where
  inv : TrackerInv s
  held : s.died = false → s.held = h
  armed : s.timer.inner = true → s.quiet = true
  calls : ∀ c ∈ s.notified, c.held = 0

/-- The Tracker with ttl 100 after its loop has started and handled `n + 1`
Acquires, none of them released. -/
def afterAcquires (n : Nat) : Mamo :=
  { counter := wrapInt32 (1 + n), ver := wrapInt32 (2 + n), prevVer := 1,
    timer := { inner := false, duration := 100 }, ttl := 100, loopOnce := true, died := false,
    held := 1 + n, quiet := false, notified := [] }

/-- The map holds for `key` the `mefReady` entry `p` with fields `e`, whose value
is the item `ip` with fields `item`, in state `iesUninitialized`. -/
def UninitAt (s : MamoMapEx K V) (key : K) (p : Nat) (e : mamoEntry Nat) (ip : Nat)
    (item : itemEx V) : Prop :=
  s.m.m key = some p ∧ s.m.heap[p]? = some e ∧ e.flag = mefReady ∧ e.value = some ip ∧
    s.items[ip]? = some item ∧ item.state = .iesUninitialized

/-- The MapEx with ttl 100 after `n` calls `AcquireOrStore(1, create)` whose
`create` returns 7, none of the references released. -/
@[irreducible]
def afterStores (n : Nat) : MamoMapEx Nat Nat :=
  Nat.iterate (fun s => (MamoMapEx.AcquireOrStore 0 1 (fun _ => .value 7) s).2) n (NewMapEx 100)

/-- On a MapEx with keys and values in `Nat`: `AcquireOrStore(1, create)` with a
`create` that returns 7, followed by `Revoke()` of the result returned. -/
def storeAndRevoke (s : MamoMapEx Nat Nat) : MamoMapEx Nat Nat :=
  match MamoMapEx.AcquireOrStore 0 1 (fun _ => .value 7) s with
  | (.ret (res, _, _), s1) => res.Revoke s1
  | (_, s1) => s1

/-- The MapEx with ttl 100 after `n` rounds of `storeAndRevoke`. -/
@[irreducible]
def afterRevokes (n : Nat) : MamoMapEx Nat Nat :=
  Nat.iterate storeAndRevoke n (NewMapEx 100)

/-- What holds after `n ≥ 1` rounds of `storeAndRevoke`: the map is not quit,
key 1 has the `mefReady` entry 0, whose item 0 is `iesUninitialized` with `ver`
equal to `n` modulo 2^32 and no call, and call 0, of the first round, holds 7
with version 0. -/
def RevokedInv (n : Nat) (s : MamoMapEx Nat Nat) : Prop :=
  s.m.died = false ∧ s.m.m 1 = some 0 ∧
  (∃ cnt ver, s.m.heap[0]? = some { cnt := cnt, ver := ver, flag := mefReady, value := some 0 }) ∧
  s.items = [{ state := .iesUninitialized, ver := n % 4294967296, call := none }] ∧
  s.calls[0]? = some { done := true, value := some 7, ver := 0, err := none }

/-! ## The reaper loop with a ghost clock -/

/-- Ghost record of one call of `tryDelete` made by the loop on a Tick: the
time of the Tick, the payload, the time at which the loop had received the
payload, and the duration of the timer that fired. -/
structure ReapCall (K : Type) where
  time : Int
  payload : mamoMapIdleEventPayload K
  arrived : Int
  interval : Int
  deriving DecidableEq, Repr

/-- A Map with a ghost clock: the time `now`, the time `armedAt` at which the
timer was started last (`time.NewTimer(t.duration)` fires at `armedAt +
duration`), the times at which the payloads of `toCheck` and of `toDelete` were
received, in the order of the payloads, and the log of the `tryDelete` calls
made on Ticks. -/
structure Clocked (K V : Type) where
  map : MamoMap K V
  now : Int
  armedAt : Int
  checkAt : List Int
  deleteAt : List Int
  reaped : List (ReapCall K)

/-- The new Map at time 0. -/
def Clocked.new (ttl : Int) (isFinalizable : Bool) : Clocked K V :=
  { map := NewMap ttl isFinalizable, now := 0, armedAt := 0, checkAt := [], deleteAt := [],
    reaped := [] }

/-- The loop handles `mmekTick` at time `now`, with the ghost fields: every
payload of `toDelete` is passed to `tryDelete`, the payloads of `toCheck` that
pass the test move to `toDelete` with their times, and the timer is started
again at `now`. -/
def Clocked.tick (now : Int) (c : Clocked K V) : Clocked K V :=
  if c.map.toDelete.length = 0 ∧ c.map.toCheck.length = 0 then
    { c with map := loopTick c.map, now := now }
  else
    { map := loopTick c.map
      now := now
      armedAt := now
      checkAt := []
      deleteAt :=
        ((c.map.toCheck.zip c.checkAt).filter fun x =>
          payloadUntouched (tryDeleteAll c.map.toDelete c.map) x.1).map Prod.snd
      reaped := c.reaped ++ (c.map.toDelete.zip c.deleteAt).map fun x =>
        { time := now, payload := x.1, arrived := x.2, interval := c.map.timer.duration } }

/-- One event, `delay` time units after the previous one.  A Tick is received
only if the loop runs and the armed timer has fired, that is, `duration` has
passed since it was started.  Any other operation is `step`; the payload it
sends to the loop, if any, is received now, and a timer that it starts is
started now. -/
def Clocked.step (fuel : Nat) (delay : Nat) (op : Op K V) (c : Clocked K V) : Clocked K V :=
  match op with
  | .tick =>
    if c.map.loopRunning && c.map.timer.inner &&
        decide (c.armedAt + c.map.timer.duration ≤ c.now + delay) then
      c.tick (c.now + delay)
    else { c with now := c.now + delay }
  | op =>
    { c with
      map := mamo.step fuel op c.map
      now := c.now + delay
      armedAt := if c.map.timer.inner then c.armedAt else c.now + delay
      checkAt := c.checkAt ++
        List.replicate ((mamo.step fuel op c.map).toCheck.length - c.map.toCheck.length)
          (c.now + delay) }

/-- The state after a sequence of events, each with its delay. -/
def Clocked.run (fuel : Nat) (events : List (Nat × Op K V)) (c : Clocked K V) : Clocked K V :=
  events.foldl (fun c ev => c.step fuel ev.1 ev.2) c

/-- What the ghost clock keeps: the timer was started in the past, the payloads
of `toCheck` were received in the past and those of `toDelete` before the timer
was started last, and every `tryDelete` call on a Tick was made at least one
timer interval after its payload was received. -/
structure ClockInv (c : Clocked K V) : Prop where
  armed : c.armedAt ≤ c.now
  check : ∀ a ∈ c.checkAt, a ≤ c.now
  delete : ∀ a ∈ c.deleteAt, a ≤ c.armedAt
  reaped : ∀ r ∈ c.reaped, r.arrived + r.interval ≤ r.time

/-- The ghost times are aligned with the payloads: one time per payload. -/
def Aligned (c : Clocked K V) : Prop :=
  c.checkAt.length = c.map.toCheck.length ∧ c.deleteAt.length = c.map.toDelete.length

/-- The Map with ttl 100 and its ghost clock after `AcquireOrStore(1, ...)` and
`Release(1)` at time 0, the Tick at time 100, and `n + 1` rounds of `Acquire(1)`
and `Release(1)`, all at time 199. -/
@[irreducible]
def afterPairs (n : Nat) : Clocked Nat Nat :=
  Nat.iterate (fun c => (c.step 0 0 (.acquire 1)).step 0 0 (.release 1)) n
    (Clocked.run 0
      [(0, .acquireOrStore 1 7), (0, .release 1), (100, .tick), (99, .acquire 1),
        (0, .release 1)]
      (Clocked.new 100 false))

/-- What holds of `afterPairs n`: at time 199 the entry of key 1 is `mefReady`
with `cnt == 0` and `ver` equal to `4 + 2 n` modulo 2^32, the payload of the
first release, received at time 0, is in `toDelete`, the payload of the last
release, received at time 199, is the last one of `toCheck`, and the timer,
started at time 100, is armed. -/
def PairsInv (n : Nat) (c : Clocked Nat Nat) : Prop :=
  c.map.died = false ∧ c.map.once = true ∧ c.map.isFastDelete = false ∧
  c.map.m 1 = some 0 ∧
  c.map.heap =
    [{ cnt := 0, ver := (4 + 2 * n) % 4294967296, flag := mefReady, value := some 7 }] ∧
  c.map.toDelete = [{ key := 1, entry := 0, prevVer := 2 }] ∧
  c.map.timer = { inner := true, duration := 100 } ∧
  c.now = 199 ∧ c.armedAt = 100 ∧ c.deleteAt = [0] ∧ c.reaped = [] ∧
  (∃ l, c.map.toCheck = l ++ [{ key := 1, entry := 0, prevVer := (4 + 2 * n) % 4294967296 }]) ∧
  ∃ l, c.checkAt = l ++ [199]

/-! ## Concurrent callers of `MamoMapEx.AcquireOrStore` on one key -/

/-- Where a caller of `MamoMapEx.AcquireOrStore` stands, between two of its
atomic steps: before the call of the inner `AcquireOrStore`; at the label
`LOAD_STATE`; in `item.do` after the `CompareAndSwap` to `iesInitializing`; in
`item.do` while `createValue()` runs, the call `c` allocated and
`iesCallReady` stored; at `c.wg.Wait()`; returned, with the result and
`created`. -/
inductive CallerPc where
  | enter
  | loadState
  | doInit
  | creating (c : Nat)
  | waiting (c : Nat)
  | returned (res : MapExResult) (created : Bool)
  deriving DecidableEq, Repr

/-- A caller: where it stands, and its local variable `created`. -/
structure Caller where
  pc : CallerPc
  created : Bool
  deriving DecidableEq, Repr

/-- Concurrent callers of `MamoMapEx.AcquireOrStore` on one key, each with a
`createValue` that returns `value`: whether the inner map holds the entry of the
key, the item of that entry (pointer 0), the calls allocated, the number of
invocations of `createValue`, and the callers. -/
structure Flight (V : Type) where
  stored : Bool
  item : itemEx V
  calls : List (call V)
  creates : Nat
  value : V
  callers : List Caller
  deriving DecidableEq, Repr

/-- The callers at the start: `n` callers about to call, for a key without
entry (`stored` false) or with an entry whose item is `iesUninitialized`. -/
def Flight.new (stored : Bool) (value : V) (n : Nat) : Flight V :=
  { stored := stored, item := newItemEx, calls := [], creates := 0, value := value,
    callers := List.replicate n { pc := .enter, created := false } }

/-- The next atomic step of a caller; the caller and the shared state after it.
A caller that waits (for the state to change at `LOAD_STATE`, or in
`c.wg.Wait()`) or has returned leaves everything as it is.
`enter`: the inner `AcquireOrStore(key, newItemEx)`, which stores the entry with
a new item and returns `created` true for the caller that finds no entry, and
returns `created` false for one that finds it.
`loadState`: the `switch` on `item.state`; on `iesUninitialized` the
`CompareAndSwap` of `item.do` succeeds.
`doInit`: `c := &call{...}`, `i.call = c`, the store of `iesCallReady`, and the
call of `createValue`.
`creating`: `createValue` returns; the deferred function stores the value and
`iesReady` and releases the wait group; `do` returns `c` and the caller sets
`created = true`.
`waiting`: `c.wg.Wait()`, the comparison of `c.ver` with `item.ver`, and the
return of `&MapExResult{c, item}, created, release`. -/
def Caller.step (t : Caller) (s : Flight V) : Caller × Flight V :=
  match t.pc with
  | .enter =>
    if s.stored then ({ pc := .loadState, created := false }, s)
    else ({ pc := .loadState, created := true }, { s with stored := true, item := newItemEx })
  | .loadState =>
    match s.item.state with
    | .iesUninitialized =>
      ({ t with pc := .doInit }, { s with item := { s.item with state := .iesInitializing } })
    | .iesCallReady =>
      match s.item.call with
      | some c => ({ t with pc := .waiting c }, s)
      | none => (t, s)
    | .iesReady =>
      match s.item.call with
      | some c => ({ t with pc := .waiting c }, s)
      | none => (t, s)
    | _ => (t, s)
  | .doInit =>
    ({ t with pc := .creating s.calls.length },
      { s with
        item := { s.item with call := some s.calls.length, state := .iesCallReady }
        calls := s.calls ++ [{ done := false, value := none, ver := s.item.ver, err := none }]
        creates := s.creates + 1 })
  | .creating c =>
    match s.calls[c]? with
    | some cl =>
      ({ pc := .waiting c, created := true },
        { s with
          item := { s.item with state := .iesReady }
          calls := s.calls.set c { cl with value := some s.value, done := true } })
    | none => (t, s)
  | .waiting c =>
    match s.calls[c]? with
    | some cl =>
      if !cl.done then (t, s)
      else if cl.ver ≠ s.item.ver then ({ t with pc := .loadState }, s)
      else ({ t with pc := .returned ⟨c, some 0⟩ t.created }, s)
    | none => (t, s)
  | .returned _ _ => (t, s)

/-- The scheduler lets caller `i` take its next step. -/
def Flight.step (i : Nat) (s : Flight V) : Flight V :=
  match s.callers[i]? with
  | none => s
  | some t => { (t.step s).2 with callers := (t.step s).2.callers.set i (t.step s).1 }

/-- The state after a schedule, the list of the callers that step, in order. -/
def Flight.run (schedule : List Nat) (s : Flight V) : Flight V :=
  schedule.foldl (fun s i => s.step i) s

/-- What a caller may be doing in each phase of the item, for callers on a key
whose entry exists: nobody has `created` true before the item is `iesReady`,
and a caller that has returned has returned call 0 with its `created`. -/
def CallerOk (state : itemExState) (t : Caller) : Prop :=
  match state with
  | .iesUninitialized => (t.pc = .enter ∨ t.pc = .loadState) ∧ t.created = false
  | .iesInitializing => (t.pc = .enter ∨ t.pc = .loadState ∨ t.pc = .doInit) ∧ t.created = false
  | .iesCallReady =>
    (t.pc = .enter ∨ t.pc = .loadState ∨ t.pc = .creating 0 ∨ t.pc = .waiting 0) ∧
      t.created = false
  | .iesReady =>
    (t.pc = .enter ∧ t.created = false) ∨ t.pc = .loadState ∨ t.pc = .waiting 0 ∨
      t.pc = .returned ⟨0, some 0⟩ t.created
  | _ => False

/-- What holds, under every schedule, of concurrent callers on a key whose entry
exists with an item that was `iesUninitialized`: the item goes through
`iesInitializing` (one caller in `item.do`), `iesCallReady` (that caller runs
`createValue`, invoked once, on call 0) and `iesReady` (call 0 holds the value,
exactly one caller has `created` true). -/
def FlightInv (value : V) (s : Flight V) : Prop :=
  s.stored = true ∧ s.value = value ∧ s.item.ver = 0 ∧
  (∀ t ∈ s.callers, CallerOk s.item.state t) ∧
  ((s.item.state = .iesUninitialized ∧ s.calls = [] ∧ s.creates = 0) ∨
   (s.item.state = .iesInitializing ∧ s.calls = [] ∧ s.creates = 0 ∧
      s.callers.countP (fun t => t.pc == .doInit) = 1) ∨
   (s.item.state = .iesCallReady ∧ s.item.call = some 0 ∧
      s.calls = [{ done := false, value := none, ver := 0, err := none }] ∧ s.creates = 1 ∧
      s.callers.countP (fun t => t.pc == .creating 0) = 1) ∨
   (s.item.state = .iesReady ∧ s.item.call = some 0 ∧
      s.calls = [{ done := true, value := some value, ver := 0, err := none }] ∧
      s.creates = 1 ∧ s.callers.countP (fun t => t.created) = 1))

/-! # Theorems -/

/-! ## Well-formedness is kept by every operation -/

theorem tryDelete_none (key : K) (p ver : Nat) (s : MamoMap K V) (h : s.heap[p]? = none) :
    tryDelete key p ver s = s := by
  simp [tryDelete, h]

theorem tryDelete_skip (key : K) (p ver : Nat) (s : MamoMap K V) (e : mamoEntry V)
    (h : s.heap[p]? = some e) (hn : ¬ (e.cnt = 0 ∧ e.ver = ver ∧ e.flag = mefReady)) :
    tryDelete key p ver s = s := by
  simp only [tryDelete, h, mamoEntry.untouchedSince]
  rw [if_neg]
  simp only [Bool.and_eq_true, beq_iff_eq, not_and] at *
  exact fun ⟨h1, h2⟩ => hn h1 h2

theorem tryDelete_destroy (key : K) (p ver : Nat) (s : MamoMap K V) (e : mamoEntry V)
    (h : s.heap[p]? = some e) (hc : e.cnt = 0) (hv : e.ver = ver) (hf : e.flag = mefReady) :
    tryDelete key p ver s = destroy key p e s := by
  simp only [tryDelete, h, mamoEntry.untouchedSince, destroy]
  simp only [hc, hv, hf, beq_self_eq_true, Bool.and_self, if_true]
  cases hval : e.value <;> simp


theorem heap_setEntry (s : MamoMap K V) (p q : Nat) (e e' : mamoEntry V)
    (he : s.heap[p]? = some e) :
    (s.setEntry p e').heap[q]? = if q = p then some e' else s.heap[q]? := by
  have hlt : p < s.heap.length := (List.getElem?_eq_some.mp he).1
  simp only [MamoMap.setEntry, List.getElem?_set]
  by_cases hq : q = p
  · subst hq
    simp [hlt]
  · have : ¬ p = q := fun h => hq h.symm
    simp [hq, this]

theorem tied_setEntry {s : MamoMap K V} {key : K} {p q : Nat} {e e' : mamoEntry V}
    (h : Tied s key q) (he : s.heap[p]? = some e) (hf : e'.flag = e.flag) :
    Tied (s.setEntry p e') key q := by
  obtain ⟨x, hx, hm⟩ := h
  by_cases hq : q = p
  · subst hq
    refine ⟨e', by rw [heap_setEntry s q q e e' he]; simp, ?_⟩
    intro hr
    rw [he] at hx
    cases hx
    exact hm (hf ▸ hr)
  · exact ⟨x, by rw [heap_setEntry s p q e e' he]; simp [hq, hx], hm⟩

theorem wf_setEntry {s : MamoMap K V} (h : WF s) {p : Nat} {e e' : mamoEntry V}
    (he : s.heap[p]? = some e) (hf : e'.flag = e.flag) (hv : e'.value = e.value) :
    WF (s.setEntry p e') := by
  have key : ∀ (q : Nat) (x' : mamoEntry V), (s.setEntry p e').heap[q]? = some x' →
      ∃ x, s.heap[q]? = some x ∧ x'.flag = x.flag ∧ x'.value = x.value := by
    intro q x' hq
    rw [heap_setEntry s p q e e' he] at hq
    by_cases hqp : q = p
    · subst hqp
      simp at hq
      subst hq
      exact ⟨e, he, hf, hv⟩
    · simp [hqp] at hq
      exact ⟨x', hq, rfl, rfl⟩
  refine ⟨?_, h.inj, ?_, ?_, ?_, ?_, h.deleted, h.finalized, ?_, ?_⟩
  · intro k q hk
    obtain ⟨x, hx, hr⟩ := h.map_ready k q hk
    by_cases hqp : q = p
    · subst hqp
      refine ⟨e', by rw [heap_setEntry s q q e e' he]; simp, ?_⟩
      rw [he] at hx
      cases hx
      rw [hf, hr]
    · exact ⟨x, by rw [heap_setEntry s p q e e' he]; simp [hqp, hx], hr⟩
  · intro q x' hq
    obtain ⟨x, hx, h1, h2⟩ := key q x' hq
    rw [h1, h2]
    exact h.flags q x hx
  · intro x hx
    exact tied_setEntry (h.closures x hx) he hf
  · intro x hx
    exact tied_setEntry (h.toCheck x hx) he hf
  · intro x hx
    exact tied_setEntry (h.toDelete x hx) he hf
  · intro q
    have hc := h.finCount q
    rw [heap_setEntry s p q e e' he]
    by_cases hqp : q = p
    · subst hqp
      rw [he] at hc
      simp only [if_true]
      show _ = if s.isFinalizable = true ∧ e'.flag = mefDeleted then 1 else 0
      rw [hf]
      exact hc
    · simp only [hqp, if_false]
      exact hc
  · show s.createCalls.length = (s.heap.set p e').length
    rw [List.length_set]
    exact h.creates


theorem heap_destroy (s : MamoMap K V) (key : K) (p q : Nat) (e : mamoEntry V)
    (he : s.heap[p]? = some e) :
    (destroy key p e s).heap[q]? =
      if q = p then some { e with flag := mefDeleted, value := none } else s.heap[q]? :=
  heap_setEntry s p q e _ he

theorem tied_destroy {s : MamoMap K V} {key k : K} {p q : Nat} {e : mamoEntry V}
    (he : s.heap[p]? = some e) (hm : s.m key = some p) (ht : Tied s k q) :
    Tied (destroy key p e s) k q := by
  obtain ⟨x, hx, hxm⟩ := ht
  by_cases hq : q = p
  · subst hq
    refine ⟨{ e with flag := mefDeleted, value := none },
      by rw [heap_destroy s key q q e he]; simp, ?_⟩
    intro hr
    cases hr
  · refine ⟨x, by rw [heap_destroy s key p q e he]; simp [hq, hx], ?_⟩
    intro hr
    have hk := hxm hr
    have hne : k ≠ key := by
      intro hkk
      subst hkk
      rw [hm] at hk
      exact hq (Option.some.inj hk).symm
    show (if k = key then none else s.m k) = some q
    rw [if_neg hne]
    exact hk

theorem wf_destroy {s : MamoMap K V} (h : WF s) {key : K} {p : Nat} {e : mamoEntry V}
    (he : s.heap[p]? = some e) (hc : e.cnt = 0) (hf : e.flag = mefReady)
    (hm : s.m key = some p) : WF (destroy key p e s) := by
  have hval : e.value.isSome = true := by
    rcases h.flags p e he with ⟨_, hv⟩ | ⟨hd, _⟩
    · exact hv
    · rw [hf] at hd
      cases hd
  refine ⟨?_, ?_, ?_, ?_, ?_, ?_, ?_, ?_, ?_, ?_⟩
  · intro k q hk
    have hk' : (if k = key then none else s.m k) = some q := hk
    by_cases hkk : k = key
    · simp [hkk] at hk'
    · rw [if_neg hkk] at hk'
      obtain ⟨x, hx, hr⟩ := h.map_ready k q hk'
      have hq : q ≠ p := by
        intro hqp
        subst hqp
        exact hkk (h.inj k key q hk' hm)
      exact ⟨x, by rw [heap_destroy s key p q e he]; simp [hq, hx], hr⟩
  · intro k k' q hk hk'
    have h1 : (if k = key then none else s.m k) = some q := hk
    have h2 : (if k' = key then none else s.m k') = some q := hk'
    by_cases hkk : k = key
    · simp [hkk] at h1
    · by_cases hkk' : k' = key
      · simp [hkk'] at h2
      · rw [if_neg hkk] at h1
        rw [if_neg hkk'] at h2
        exact h.inj k k' q h1 h2
  · intro q x hq
    rw [heap_destroy s key p q e he] at hq
    by_cases hqp : q = p
    · simp [hqp] at hq
      subst hq
      exact Or.inr ⟨rfl, rfl⟩
    · simp [hqp] at hq
      exact h.flags q x hq
  · intro x hx
    exact tied_destroy he hm (h.closures x hx)
  · intro x hx
    exact tied_destroy he hm (h.toCheck x hx)
  · intro x hx
    exact tied_destroy he hm (h.toDelete x hx)
  · intro x hx
    have hx' : x ∈ s.deleted ++ [(p, { e with flag := mefDeleting })] := hx
    rcases List.mem_append.mp hx' with hx1 | hx1
    · exact h.deleted x hx1
    · simp at hx1
      subst hx1
      exact ⟨hc, rfl⟩
  · intro x hx
    have hx' : x ∈ (if s.isFinalizable = true ∧ e.value.isSome = true then
        s.finalized ++ [(p, { e with flag := mefDeleting })] else s.finalized) := hx
    by_cases hfin : s.isFinalizable = true ∧ e.value.isSome = true
    · rw [if_pos hfin] at hx'
      rcases List.mem_append.mp hx' with hx1 | hx1
      · exact h.finalized x hx1
      · simp at hx1
        subst hx1
        exact ⟨hc, rfl, hval⟩
    · rw [if_neg hfin] at hx'
      exact h.finalized x hx'
  · intro q
    have hcq := h.finCount q
    have hfz : (mamo.destroy key p e s).isFinalizable = s.isFinalizable := rfl
    rw [heap_destroy s key p q e he, hfz]
    show List.count q (List.map Prod.fst (if s.isFinalizable = true ∧ e.value.isSome = true then
        s.finalized ++ [(p, { e with flag := mefDeleting })] else s.finalized)) = _
    by_cases hqp : q = p
    · subst hqp
      rw [he] at hcq
      simp only [hf] at hcq
      simp only [if_true]
      by_cases hfin : s.isFinalizable = true
      · simp [hfin, hval, List.count_append, hcq]
      · simp [hfin, hcq]
    · simp only [hqp, if_false]
      by_cases hfin : s.isFinalizable = true ∧ e.value.isSome = true
      · rw [if_pos hfin, List.map_append, List.count_append, hcq]
        have : ¬ p = q := fun h => hqp h.symm
        simp [List.count_singleton, this]
      · rw [if_neg hfin]
        exact hcq
  · show s.createCalls.length = (s.heap.set p _).length
    rw [List.length_set]
    exact h.creates

theorem wf_tryDelete {s : MamoMap K V} (h : WF s) {key : K} {p : Nat} (ver : Nat)
    (ht : Tied s key p) : WF (tryDelete key p ver s) := by
  obtain ⟨e, he, hm⟩ := ht
  by_cases hcond : e.cnt = 0 ∧ e.ver = ver ∧ e.flag = mefReady
  · rw [tryDelete_destroy key p ver s e he hcond.1 hcond.2.1 hcond.2.2]
    exact wf_destroy h he hcond.1 hcond.2.2 (hm hcond.2.2)
  · rw [tryDelete_skip key p ver s e he hcond]
    exact h


theorem wf_relist {s s' : MamoMap K V} (h : WF s) (h1 : s'.m = s.m) (h2 : s'.heap = s.heap)
    (h3 : s'.deleted = s.deleted) (h4 : s'.finalized = s.finalized)
    (h5 : s'.isFinalizable = s.isFinalizable) (h6 : s'.createCalls = s.createCalls)
    (hc : ∀ x ∈ s'.closures, Tied s x.1.key x.1.entry)
    (hk : ∀ x ∈ s'.toCheck, Tied s x.key x.entry)
    (hd : ∀ x ∈ s'.toDelete, Tied s x.key x.entry) : WF s' := by
  have ht : ∀ (k : K) (p : Nat), Tied s k p → Tied s' k p := by
    intro k p ⟨e, he, hm⟩
    exact ⟨e, by rw [h2]; exact he, by rw [h1]; exact hm⟩
  refine ⟨?_, ?_, ?_, ?_, ?_, ?_, ?_, ?_, ?_, ?_⟩
  · rw [h1, h2]; exact h.map_ready
  · rw [h1]; exact h.inj
  · rw [h2]; exact h.flags
  · exact fun x hx => ht _ _ (hc x hx)
  · exact fun x hx => ht _ _ (hk x hx)
  · exact fun x hx => ht _ _ (hd x hx)
  · rw [h3]; exact h.deleted
  · rw [h4]; exact h.finalized
  · rw [h4, h2, h5]; exact h.finCount
  · rw [h6, h2]; exact h.creates

theorem tryDelete_cases (key : K) (p ver : Nat) (s : MamoMap K V) :
    tryDelete key p ver s = s ∨
      ∃ e, s.heap[p]? = some e ∧ e.cnt = 0 ∧ e.ver = ver ∧ e.flag = mefReady ∧
        tryDelete key p ver s = destroy key p e s := by
  cases he : s.heap[p]? with
  | none => exact Or.inl (tryDelete_none key p ver s he)
  | some e =>
    by_cases hcond : e.cnt = 0 ∧ e.ver = ver ∧ e.flag = mefReady
    · exact Or.inr ⟨e, rfl, hcond.1, hcond.2.1, hcond.2.2,
        tryDelete_destroy key p ver s e he hcond.1 hcond.2.1 hcond.2.2⟩
    · exact Or.inl (tryDelete_skip key p ver s e he hcond)

theorem tryDelete_frame (key : K) (p ver : Nat) (s : MamoMap K V) :
    (tryDelete key p ver s).toCheck = s.toCheck ∧ (tryDelete key p ver s).toDelete = s.toDelete ∧
    (tryDelete key p ver s).closures = s.closures ∧ (tryDelete key p ver s).died = s.died ∧
    (tryDelete key p ver s).once = s.once ∧ (tryDelete key p ver s).timer = s.timer ∧
    (tryDelete key p ver s).isFastDelete = s.isFastDelete ∧
    (tryDelete key p ver s).isFinalizable = s.isFinalizable ∧
    (tryDelete key p ver s).ttl = s.ttl ∧
    (tryDelete key p ver s).createCalls = s.createCalls := by
  rcases tryDelete_cases key p ver s with h | ⟨e, _, _, _, _, h⟩ <;> rw [h] <;>
    exact ⟨rfl, rfl, rfl, rfl, rfl, rfl, rfl, rfl, rfl, rfl⟩

theorem tryDeleteAll_frame (ps : List (mamoMapIdleEventPayload K)) (s : MamoMap K V) :
    (tryDeleteAll ps s).toCheck = s.toCheck ∧ (tryDeleteAll ps s).toDelete = s.toDelete ∧
    (tryDeleteAll ps s).closures = s.closures ∧ (tryDeleteAll ps s).died = s.died ∧
    (tryDeleteAll ps s).once = s.once ∧ (tryDeleteAll ps s).timer = s.timer ∧
    (tryDeleteAll ps s).isFastDelete = s.isFastDelete ∧
    (tryDeleteAll ps s).isFinalizable = s.isFinalizable ∧
    (tryDeleteAll ps s).ttl = s.ttl ∧
    (tryDeleteAll ps s).createCalls = s.createCalls := by
  induction ps generalizing s with
  | nil => exact ⟨rfl, rfl, rfl, rfl, rfl, rfl, rfl, rfl, rfl, rfl⟩
  | cons x xs ih =>
    have h1 := tryDelete_frame x.key x.entry x.prevVer s
    have h2 := ih (tryDelete x.key x.entry x.prevVer s)
    simp only [tryDeleteAll, List.foldl_cons] at h2 ⊢
    obtain ⟨a1, a2, a3, a4, a5, a6, a7, a8, a9, a10⟩ := h1
    obtain ⟨b1, b2, b3, b4, b5, b6, b7, b8, b9, b10⟩ := h2
    exact ⟨b1.trans a1, b2.trans a2, b3.trans a3, b4.trans a4, b5.trans a5, b6.trans a6,
      b7.trans a7, b8.trans a8, b9.trans a9, b10.trans a10⟩

theorem wf_tryDeleteAll (ps : List (mamoMapIdleEventPayload K)) (s : MamoMap K V) (h : WF s)
    (hps : ∀ x ∈ ps, x ∈ s.toDelete ∨ x ∈ s.toCheck) : WF (tryDeleteAll ps s) := by
  induction ps generalizing s with
  | nil => exact h
  | cons x xs ih =>
    have hx : Tied s x.key x.entry := by
      rcases hps x (List.mem_cons_self x xs) with hx | hx
      · exact h.toDelete x hx
      · exact h.toCheck x hx
    have hf := tryDelete_frame x.key x.entry x.prevVer s
    have h1 := ih (tryDelete x.key x.entry x.prevVer s) (wf_tryDelete h x.prevVer hx) (by
      intro y hy
      rw [hf.1, hf.2.1]
      exact hps y (List.mem_cons_of_mem x hy))
    simpa only [tryDeleteAll, List.foldl_cons] using h1

theorem wf_loopIdle {s : MamoMap K V} (h : WF s) (payload : mamoMapIdleEventPayload K)
    (ht : Tied s payload.key payload.entry) : WF (loopIdle payload s) := by
  refine wf_relist h rfl rfl rfl rfl rfl rfl h.closures ?_ h.toDelete
  intro x hx
  have hx' : x ∈ s.toCheck ++ [payload] := hx
  rcases List.mem_append.mp hx' with hx1 | hx1
  · exact h.toCheck x hx1
  · simp at hx1
    subst hx1
    exact ht

theorem wf_loopTick {s : MamoMap K V} (h : WF s) : WF (loopTick s) := by
  unfold loopTick
  split
  · exact wf_relist h rfl rfl rfl rfl rfl rfl h.closures h.toCheck h.toDelete
  · have h1 : WF (tryDeleteAll s.toDelete s) := wf_tryDeleteAll s.toDelete s h (fun x hx => Or.inl hx)
    refine wf_relist h1 rfl rfl rfl rfl rfl rfl h1.closures ?_ ?_
    · intro x hx
      cases hx
    · intro x hx
      exact h1.toCheck x (List.mem_of_mem_filter hx)

theorem wf_loopQuit {s : MamoMap K V} (h : WF s) : WF (loopQuit s) := by
  unfold loopQuit
  have h0 : WF ({ s with died := true } : MamoMap K V) :=
    wf_relist h rfl rfl rfl rfl rfl rfl h.closures h.toCheck h.toDelete
  have h1 := wf_tryDeleteAll s.toDelete _ h0 (fun x hx => Or.inl hx)
  have h2 := wf_tryDeleteAll (tryDeleteAll s.toDelete { s with died := true }).toCheck _ h1
    (fun x hx => Or.inr hx)
  exact wf_relist h2 rfl rfl rfl rfl rfl rfl h2.closures h2.toCheck h2.toDelete

theorem wf_Loop {s : MamoMap K V} (h : WF s) : WF (Loop s) := by
  unfold Loop
  split
  · exact h
  · split
    · exact h
    · exact wf_relist h rfl rfl rfl rfl rfl rfl h.closures h.toCheck h.toDelete

theorem wf_Quit {s : MamoMap K V} (h : WF s) : WF (Quit s).2 := by
  unfold Quit
  split
  · split
    · exact h
    · exact wf_relist h rfl rfl rfl rfl rfl rfl h.closures h.toCheck h.toDelete
  · show WF (if (Loop s).died = true then ((Outcome.ret (), Loop s) : Outcome Unit × MamoMap K V)
      else (Outcome.ret (), loopQuit (Loop s))).2
    split
    · exact wf_Loop h
    · exact wf_loopQuit (wf_Loop h)

theorem wf_Tick {s : MamoMap K V} (h : WF s) : WF (Tick s) := by
  unfold Tick
  split
  · exact wf_loopTick h
  · exact h

theorem wf_releaseEntry {s : MamoMap K V} (h : WF s) {key : K} {p : Nat}
    (ht : Tied s key p) : WF (releaseEntry key p s).2 := by
  obtain ⟨e, he, hm⟩ := ht
  have hs1 : WF (s.setEntry p { e with ver := addUint32 e.ver 1, cnt := addInt32 e.cnt (-1) }) :=
    wf_setEntry h he rfl rfl
  have ht1 : Tied (s.setEntry p { e with ver := addUint32 e.ver 1, cnt := addInt32 e.cnt (-1) })
      key p := tied_setEntry ⟨e, he, hm⟩ he rfl
  simp only [mamo.releaseEntry, he]
  split
  · exact hs1
  · split
    · split
      · exact wf_tryDelete hs1 _ ht1
      · split
        · exact wf_tryDelete hs1 _ ht1
        · split
          · exact wf_loopIdle hs1 ⟨key, p, _⟩ ht1
          · exact hs1
    · exact hs1

theorem wf_Release {s : MamoMap K V} (h : WF s) (key : K) : WF (Release key s).2 := by
  unfold Release
  split
  · exact h
  · rename_i p hp
    obtain ⟨e, he, _⟩ := h.map_ready key p hp
    exact wf_releaseEntry h ⟨e, he, fun _ => hp⟩

theorem wf_callRelease {s : MamoMap K V} (h : WF s) (i : Nat) : WF (callRelease i s).2 := by
  unfold callRelease
  split
  · exact h
  · rename_i r n hi
    have hmem : (r, n) ∈ s.closures := List.getElem?_mem hi
    have ht : Tied s r.key r.entry := h.closures (r, n) hmem
    have h1 : WF ({ s with closures := s.closures.set i (r, n + 1) } : MamoMap K V) := by
      refine wf_relist h rfl rfl rfl rfl rfl rfl ?_ h.toCheck h.toDelete
      intro x hx
      rcases List.mem_or_eq_of_mem_set hx with hx1 | hx1
      · exact h.closures x hx1
      · subst hx1
        exact ht
    exact wf_releaseEntry h1 ht


theorem Loop_frame (s : MamoMap K V) :
    (Loop s).m = s.m ∧ (Loop s).heap = s.heap ∧ (Loop s).died = s.died ∧
    (Loop s).closures = s.closures ∧ (Loop s).createCalls = s.createCalls ∧
    (Loop s).finalized = s.finalized ∧ (Loop s).deleted = s.deleted ∧
    (Loop s).isFastDelete = s.isFastDelete ∧ (Loop s).isFinalizable = s.isFinalizable ∧
    (Loop s).toCheck = s.toCheck ∧ (Loop s).toDelete = s.toDelete ∧ (Loop s).ttl = s.ttl := by
  unfold Loop
  split
  · exact ⟨rfl, rfl, rfl, rfl, rfl, rfl, rfl, rfl, rfl, rfl, rfl, rfl⟩
  · split <;> exact ⟨rfl, rfl, rfl, rfl, rfl, rfl, rfl, rfl, rfl, rfl, rfl, rfl⟩

theorem ensureAlive_died (s : MamoMap K V) (h : s.died = true) :
    ensureAlive s = (.panics .diedMamoMap, Loop s) := by
  simp [ensureAlive, (Loop_frame s).2.2.1, h]

theorem ensureAlive_alive (s : MamoMap K V) (h : s.died = false) :
    ensureAlive s = (.ret (), Loop s) := by
  simp [ensureAlive, (Loop_frame s).2.2.1, h]

theorem Acquire_died (fuel : Nat) (key : K) (s : MamoMap K V) (h : s.died = true) :
    Acquire fuel key s = (.panics .diedMamoMap, Loop s) := by
  simp [Acquire, ensureAlive_died s h]

theorem Acquire_missing (fuel : Nat) (key : K) (s : MamoMap K V) (h : s.died = false)
    (hm : s.m key = none) : Acquire fuel key s = (.ret (none, false, none), Loop s) := by
  have hm1 : (Loop s).m key = none := by rw [(Loop_frame s).1]; exact hm
  simp [Acquire, ensureAlive_alive s h, hm1]

theorem acquire_ready (fuel : Nat) (e : mamoEntry V) (hf : e.flag = mefReady) :
    e.acquire fuel = (.ret true, { e with cnt := addInt32 e.cnt 1, ver := addUint32 e.ver 1 }) := by
  simp [mamoEntry.acquire, hf]

theorem Acquire_ready (fuel : Nat) (key : K) (s : MamoMap K V) (p : Nat) (e : mamoEntry V) (v : V)
    (h : s.died = false) (hm : s.m key = some p) (he : s.heap[p]? = some e)
    (hf : e.flag = mefReady) (hv : e.value = some v) :
    Acquire fuel key s = (.ret (some v, true, some ⟨key, p⟩), acquired key p e (Loop s)) := by
  have hm1 : (Loop s).m key = some p := by rw [(Loop_frame s).1]; exact hm
  have he1 : (Loop s).heap[p]? = some e := by rw [(Loop_frame s).2.1]; exact he
  simp [Acquire, ensureAlive_alive s h, hm1, he1, acquire_ready fuel e hf, hv, acquired,
    MamoMap.setEntry]

theorem attempt_stored (fuel : Nat) (key : K) (v : V) (s : MamoMap K V) (hm : s.m key = none) :
    attemptAcquireOrStore fuel key ⟨[], v⟩ s =
      (some (.ret (v, true, ⟨key, s.heap.length⟩)), stored key v s) := by
  simp [attemptAcquireOrStore, hm, runEntryCalls, finishAcquireOrStore, MamoMap.setEntry, stored,
    addUint32]

theorem attempt_loaded (fuel : Nat) (key : K) (c : Creator V) (s : MamoMap K V) (p : Nat)
    (e : mamoEntry V) (w : V) (hm : s.m key = some p) (he : s.heap[p]? = some e)
    (hf : e.flag = mefReady) (hv : e.value = some w) :
    attemptAcquireOrStore fuel key c s =
      (some (.ret (w, false, ⟨key, p⟩)), acquired key p e s) := by
  have hlt : p < s.heap.length := (List.getElem?_eq_some.mp he).1
  simp [attemptAcquireOrStore, hm, he, hf, finishAcquireOrStore, MamoMap.setEntry, hv, acquired,
    hlt]

theorem retry_of_attempt (fuel : Nat) (key : K) (c : Creator V) (s s1 : MamoMap K V)
    (o : Outcome (StoreResult K V))
    (h : ∀ f, attemptAcquireOrStore f key c s = (some o, s1)) :
    retryAcquireOrStore key c fuel s = (o, s1) := by
  cases fuel with
  | zero => simp [retryAcquireOrStore, h 0]
  | succ n => simp [retryAcquireOrStore, h (n + 1)]

theorem AcquireOrStore_died (fuel : Nat) (key : K) (c : Creator V) (s : MamoMap K V)
    (h : s.died = true) : AcquireOrStore fuel key c s = (.panics .diedMamoMap, Loop s) := by
  simp [AcquireOrStore, ensureAlive_died s h]

theorem AcquireOrStore_stored (fuel : Nat) (key : K) (v : V) (s : MamoMap K V)
    (h : s.died = false) (hm : s.m key = none) :
    AcquireOrStore fuel key ⟨[], v⟩ s =
      (.ret (v, true, ⟨key, s.heap.length⟩), stored key v (Loop s)) := by
  have hm1 : (Loop s).m key = none := by rw [(Loop_frame s).1]; exact hm
  have hl : (Loop s).heap.length = s.heap.length := by rw [(Loop_frame s).2.1]
  simp only [AcquireOrStore, ensureAlive_alive s h]
  rw [retry_of_attempt fuel key ⟨[], v⟩ (Loop s) _ _ (fun f => attempt_stored f key v (Loop s) hm1)]
  rw [hl]

theorem AcquireOrStore_loaded (fuel : Nat) (key : K) (c : Creator V) (s : MamoMap K V) (p : Nat)
    (e : mamoEntry V) (w : V) (h : s.died = false) (hm : s.m key = some p)
    (he : s.heap[p]? = some e) (hf : e.flag = mefReady) (hv : e.value = some w) :
    AcquireOrStore fuel key c s = (.ret (w, false, ⟨key, p⟩), acquired key p e (Loop s)) := by
  have hm1 : (Loop s).m key = some p := by rw [(Loop_frame s).1]; exact hm
  have he1 : (Loop s).heap[p]? = some e := by rw [(Loop_frame s).2.1]; exact he
  simp only [AcquireOrStore, ensureAlive_alive s h]
  exact retry_of_attempt fuel key c (Loop s) _ _
    (fun f => attempt_loaded f key c (Loop s) p e w hm1 he1 hf hv)


theorem wf_acquired {s : MamoMap K V} (h : WF s) {key : K} {p : Nat} {e : mamoEntry V}
    (he : s.heap[p]? = some e) (hm : s.m key = some p) : WF (acquired key p e s) := by
  have h1 : WF (s.setEntry p { e with cnt := addInt32 e.cnt 1, ver := addUint32 e.ver 1 }) :=
    wf_setEntry h he rfl rfl
  refine wf_relist h1 rfl rfl rfl rfl rfl rfl ?_ h1.toCheck h1.toDelete
  intro x hx
  have hx' : x ∈ s.closures ++ [(⟨key, p⟩, 0)] := hx
  rcases List.mem_append.mp hx' with hx1 | hx1
  · exact h1.closures x hx1
  · simp at hx1
    subst hx1
    exact tied_setEntry ⟨e, he, fun _ => hm⟩ he rfl

theorem heap_stored (s : MamoMap K V) (key : K) (v : V) (q : Nat) :
    (stored key v s).heap[q]? =
      if q = s.heap.length then some { cnt := 1, ver := 1, flag := mefReady, value := some v }
      else s.heap[q]? := by
  show (s.heap ++ [_])[q]? = _
  rw [List.getElem?_append]
  by_cases hq : q < s.heap.length
  · simp [hq, Nat.ne_of_lt hq]
  · by_cases hq2 : q = s.heap.length
    · simp [hq2]
    · have h3 : s.heap.length < q := by omega
      have h4 : s.heap[q]? = none := List.getElem?_eq_none (by omega)
      have h5 : 0 < q - s.heap.length := by omega
      simp [hq, hq2, h4]
      omega

theorem tied_stored {s : MamoMap K V} {key k : K} {v : V} {q : Nat}
    (hm : s.m key = none) (ht : Tied s k q) : Tied (stored key v s) k q := by
  obtain ⟨x, hx, hxm⟩ := ht
  have hlt : q < s.heap.length := (List.getElem?_eq_some.mp hx).1
  refine ⟨x, by rw [heap_stored]; simp [Nat.ne_of_lt hlt, hx], ?_⟩
  intro hr
  have hk := hxm hr
  have hne : k ≠ key := by
    intro hkk
    subst hkk
    rw [hm] at hk
    cases hk
  show (if k = key then some s.heap.length else s.m k) = some q
  rw [if_neg hne]
  exact hk

theorem wf_stored {s : MamoMap K V} (h : WF s) (key : K) (v : V) (hm : s.m key = none) :
    WF (stored key v s) := by
  have hfresh : ∀ k, s.m k ≠ some s.heap.length := by
    intro k hk
    obtain ⟨x, hx, _⟩ := h.map_ready k _ hk
    have := (List.getElem?_eq_some.mp hx).1
    omega
  refine ⟨?_, ?_, ?_, ?_, ?_, ?_, h.deleted, h.finalized, ?_, ?_⟩
  · intro k q hk
    have hk' : (if k = key then some s.heap.length else s.m k) = some q := hk
    by_cases hkk : k = key
    · rw [if_pos hkk] at hk'
      cases hk'
      exact ⟨{ cnt := 1, ver := 1, flag := mefReady, value := some v },
        by rw [heap_stored]; simp, rfl⟩
    · rw [if_neg hkk] at hk'
      obtain ⟨x, hx, hr⟩ := h.map_ready k q hk'
      have hlt : q < s.heap.length := (List.getElem?_eq_some.mp hx).1
      exact ⟨x, by rw [heap_stored]; simp [Nat.ne_of_lt hlt, hx], hr⟩
  · intro k k' q hk hk'
    have h1 : (if k = key then some s.heap.length else s.m k) = some q := hk
    have h2 : (if k' = key then some s.heap.length else s.m k') = some q := hk'
    by_cases hkk : k = key
    · by_cases hkk' : k' = key
      · rw [hkk, hkk']
      · rw [if_pos hkk] at h1
        rw [if_neg hkk'] at h2
        cases h1
        exact absurd h2 (hfresh k')
    · by_cases hkk' : k' = key
      · rw [if_neg hkk] at h1
        rw [if_pos hkk'] at h2
        cases h2
        exact absurd h1 (hfresh k)
      · rw [if_neg hkk] at h1
        rw [if_neg hkk'] at h2
        exact h.inj k k' q h1 h2
  · intro q x hq
    rw [heap_stored] at hq
    by_cases hql : q = s.heap.length
    · simp [hql] at hq
      subst hq
      exact Or.inl ⟨rfl, rfl⟩
    · simp [hql] at hq
      exact h.flags q x hq
  · intro x hx
    have hx' : x ∈ s.closures ++ [(⟨key, s.heap.length⟩, 0)] := hx
    rcases List.mem_append.mp hx' with hx1 | hx1
    · exact tied_stored hm (h.closures x hx1)
    · simp at hx1
      subst hx1
      refine ⟨{ cnt := 1, ver := 1, flag := mefReady, value := some v },
        by rw [heap_stored]; simp, ?_⟩
      intro _
      show (if key = key then some s.heap.length else s.m key) = some s.heap.length
      simp
  · intro x hx
    exact tied_stored hm (h.toCheck x hx)
  · intro x hx
    exact tied_stored hm (h.toDelete x hx)
  · intro q
    have hcq := h.finCount q
    rw [heap_stored]
    show List.count q (List.map Prod.fst s.finalized) = _
    by_cases hql : q = s.heap.length
    · subst hql
      have hn : s.heap[s.heap.length]? = none := List.getElem?_eq_none (Nat.le_refl _)
      rw [hn] at hcq
      simp [hcq]
    · simp only [hql, if_false]
      exact hcq
  · show (s.createCalls ++ [key]).length =
      (s.heap ++ [({ cnt := 1, ver := 1, flag := mefReady, value := some v } : mamoEntry V)]).length
    simp [h.creates]

theorem wf_Acquire {s : MamoMap K V} (h : WF s) (fuel : Nat) (key : K) :
    WF (Acquire fuel key s).2 := by
  cases hd : s.died with
  | true =>
    rw [Acquire_died fuel key s hd]
    exact wf_Loop h
  | false =>
    cases hm : s.m key with
    | none =>
      rw [Acquire_missing fuel key s hd hm]
      exact wf_Loop h
    | some p =>
      obtain ⟨e, he, hf⟩ := h.map_ready key p hm
      have hv : e.value.isSome = true := by
        rcases h.flags p e he with ⟨_, hv⟩ | ⟨hdel, _⟩
        · exact hv
        · rw [hf] at hdel
          cases hdel
      obtain ⟨v, hv'⟩ := Option.isSome_iff_exists.mp hv
      rw [Acquire_ready fuel key s p e v hd hm he hf hv']
      have hL := Loop_frame s
      exact wf_acquired (wf_Loop h) (by rw [hL.2.1]; exact he) (by rw [hL.1]; exact hm)

theorem wf_AcquireOrStore {s : MamoMap K V} (h : WF s) (fuel : Nat) (key : K) (v : V) :
    WF (AcquireOrStore fuel key ⟨[], v⟩ s).2 := by
  cases hd : s.died with
  | true =>
    rw [AcquireOrStore_died fuel key _ s hd]
    exact wf_Loop h
  | false =>
    have hL := Loop_frame s
    cases hm : s.m key with
    | none =>
      rw [AcquireOrStore_stored fuel key v s hd hm]
      exact wf_stored (wf_Loop h) key v (by rw [hL.1]; exact hm)
    | some p =>
      obtain ⟨e, he, hf⟩ := h.map_ready key p hm
      have hv : e.value.isSome = true := by
        rcases h.flags p e he with ⟨_, hv⟩ | ⟨hdel, _⟩
        · exact hv
        · rw [hf] at hdel
          cases hdel
      obtain ⟨w, hv'⟩ := Option.isSome_iff_exists.mp hv
      rw [AcquireOrStore_loaded fuel key _ s p e w hd hm he hf hv']
      exact wf_acquired (wf_Loop h) (by rw [hL.2.1]; exact he) (by rw [hL.1]; exact hm)

theorem wf_NewMap (ttl : Int) (fin : Bool) : WF (NewMap ttl fin : MamoMap K V) := by
  refine ⟨?_, ?_, ?_, ?_, ?_, ?_, ?_, ?_, ?_, ?_⟩ <;> simp [NewMap]

theorem wf_step {s : MamoMap K V} (h : WF s) (fuel : Nat) (op : Op K V) : WF (step fuel op s) := by
  cases op with
  | acquireOrStore key value => exact wf_AcquireOrStore h fuel key value
  | acquire key => exact wf_Acquire h fuel key
  | callRelease i => exact wf_callRelease h i
  | release key => exact wf_Release h key
  | tick => exact wf_Tick h
  | quit => exact wf_Quit h

theorem wf_run (fuel : Nat) (ops : List (Op K V)) {s : MamoMap K V} (h : WF s) :
    WF (run fuel ops s) := by
  induction ops generalizing s with
  | nil => exact h
  | cons op ops ih => exact ih (wf_step h fuel op)

/-! ## C8: construction accepts every ttl -/

/-- C8 (counterexample): `NewMap` and `NewMapEx` with the negative ttl `-1` are
not rejected: they return a live container with that ttl and fast-delete off,
and the Map is usable (`AcquireOrStore` on it stores and returns the value). -/
theorem C8_negative_ttl_is_accepted :
    (NewMap (-1) false : MamoMap Nat Nat).ttl = -1 ∧
    (NewMap (-1) false : MamoMap Nat Nat).died = false ∧
    (NewMap (-1) false : MamoMap Nat Nat).isFastDelete = false ∧
    (AcquireOrStore 0 5 ⟨[], 7⟩ (NewMap (-1) false : MamoMap Nat Nat)).1 = .ret (7, true, ⟨5, 0⟩) ∧
    (NewMapEx (-1) : MamoMapEx Nat Nat).m.ttl = -1 ∧
    (NewMapEx (-1) : MamoMapEx Nat Nat).m.died = false ∧
    (NewMapEx (-1) : MamoMapEx Nat Nat).m.isFastDelete = false := by
  decide

/-- C8 (amended): `NewMap` and `NewMapEx` accept every ttl, negative ones
included: the container returned has that ttl, is alive and empty, and is in
fast-delete mode exactly when the ttl is zero (so a negative and a positive ttl
both give fast-delete off); `AcquireOrStore` on the new Map stores its value. -/
theorem C8_NewMap_accepts_every_ttl (ttl : Int) (fin : Bool) (fuel : Nat) (key : K) (v : V) :
    (NewMap ttl fin : MamoMap K V).ttl = ttl ∧
    (NewMap ttl fin : MamoMap K V).died = false ∧
    ((NewMap ttl fin : MamoMap K V).isFastDelete = true ↔ ttl = 0) ∧
    (∀ k, (NewMap ttl fin : MamoMap K V).m k = none) ∧
    (AcquireOrStore fuel key ⟨[], v⟩ (NewMap ttl fin : MamoMap K V)).1 = .ret (v, true, ⟨key, 0⟩) ∧
    (NewMapEx ttl : MamoMapEx K V).m.ttl = ttl ∧
    (NewMapEx ttl : MamoMapEx K V).m.died = false ∧
    ((NewMapEx ttl : MamoMapEx K V).m.isFastDelete = true ↔ ttl = 0) ∧
    (∀ k, (NewMapEx ttl : MamoMapEx K V).m.m k = none) := by
  refine ⟨rfl, rfl, ?_, fun _ => rfl, ?_, rfl, rfl, ?_, fun _ => rfl⟩
  · simp [NewMap]
  · rw [AcquireOrStore_stored fuel key v _ rfl rfl]
    rfl
  · simp [NewMapEx, NewMap]

/-! ## C7: operations after Quit -/

theorem releaseEntry_not_died (key : K) (p : Nat) (s : MamoMap K V) :
    (releaseEntry key p s).1 ≠ .panics .diedMamoMap := by
  unfold releaseEntry
  split
  · simp
  · dsimp only
    split
    · simp
    · split
      · split
        · simp
        · split
          · simp
          · split <;> simp
      · simp

/-- C7 (counterexample): on a Map with ttl 10 and on a fast-delete Map, after
`AcquireOrStore(1, ...)` and `Quit()` the died signal is set, and yet calling
the release closure obtained before the Quit returns normally (and deletes the
entry), and so does `Release(1)`: neither panics. -/
theorem C7_release_after_quit_returns :
    (run 0 [.acquireOrStore 1 7, .quit] (NewMap 10 true : MamoMap Nat Nat)).died = true ∧
    (callRelease 0 (run 0 [.acquireOrStore 1 7, .quit] (NewMap 10 true : MamoMap Nat Nat))).1
      = .ret () ∧
    (callRelease 0 (run 0 [.acquireOrStore 1 7, .quit]
      (NewMap 10 true : MamoMap Nat Nat))).2.heap = [⟨0, 2, mefDeleted, none⟩] ∧
    (Release 1 (run 0 [.acquireOrStore 1 7, .quit] (NewMap 10 true : MamoMap Nat Nat))).1
      = .ret () ∧
    (run 0 [.acquireOrStore 1 7, .quit] (NewMap 0 true : MamoMap Nat Nat)).died = true ∧
    (callRelease 0 (run 0 [.acquireOrStore 1 7, .quit] (NewMap 0 true : MamoMap Nat Nat))).1
      = .ret () ∧
    (Release 1 (run 0 [.acquireOrStore 1 7, .quit] (NewMap 0 true : MamoMap Nat Nat))).1
      = .ret () := by
  decide

/-- C7 (amended): once the died signal is set, in fast-delete and
non-fast-delete mode alike, `AcquireOrStore` and `Acquire` panic with the died
diagnostic and change no entry; `Release(key)` and a release closure do not
raise that diagnostic: they run `releaseEntry` as before, and a release that
brings `cnt` of an entry to zero returns after calling `tryDelete` inline. -/
theorem C7_after_quit (s : MamoMap K V) (hdied : s.died = true) (fuel : Nat) (key : K)
    (createValue : Creator V) :
    (AcquireOrStore fuel key createValue s).1 = .panics .diedMamoMap ∧
    (AcquireOrStore fuel key createValue s).2.heap = s.heap ∧
    (Acquire fuel key s).1 = .panics .diedMamoMap ∧
    (Acquire fuel key s).2.heap = s.heap ∧
    (Release key s).1 ≠ .panics .diedMamoMap ∧
    (∀ p, (releaseEntry key p s).1 ≠ .panics .diedMamoMap) ∧
    (∀ i, (callRelease i s).1 ≠ .panics .diedMamoMap) ∧
    (∀ p e, s.heap[p]? = some e → addInt32 e.cnt (-1) = 0 →
      releaseEntry key p s =
        (.ret (), tryDelete key p (addUint32 e.ver 1)
          (s.setEntry p { e with ver := addUint32 e.ver 1, cnt := addInt32 e.cnt (-1) }))) := by
  refine ⟨?_, ?_, ?_, ?_, ?_, ?_, ?_, ?_⟩
  · rw [AcquireOrStore_died fuel key createValue s hdied]
  · rw [AcquireOrStore_died fuel key createValue s hdied]
    exact (Loop_frame s).2.1
  · rw [Acquire_died fuel key s hdied]
  · rw [Acquire_died fuel key s hdied]
    exact (Loop_frame s).2.1
  · unfold Release
    split
    · simp
    · exact releaseEntry_not_died key _ s
  · exact fun p => releaseEntry_not_died key p s
  · intro i
    unfold callRelease
    split
    · simp
    · exact releaseEntry_not_died _ _ _
  · intro p e he hz
    simp only [releaseEntry, he, hz, lt_self_iff_false, if_false, if_true]
    split
    · rfl
    · exact if_pos hdied

/-- Witness of `C7_after_quit`: the Map with ttl 10 after `AcquireOrStore(1, ...)` and `Quit()`. -/
theorem C7_after_quit_witness :
    (run 0 [.acquireOrStore 1 7, .quit] (NewMap 10 true : MamoMap Nat Nat)).died = true ∧
    (AcquireOrStore 0 1 ⟨[], 8⟩
      (run 0 [.acquireOrStore 1 7, .quit] (NewMap 10 true : MamoMap Nat Nat))).1
        = .panics .diedMamoMap ∧
    (Release 1 (run 0 [.acquireOrStore 1 7, .quit] (NewMap 10 true : MamoMap Nat Nat))).1
      ≠ .panics .diedMamoMap :=
  ⟨by decide,
   (C7_after_quit (run 0 [.acquireOrStore 1 7, .quit] (NewMap 10 true : MamoMap Nat Nat))
      (by decide) 0 1 ⟨[], 8⟩).1,
   (C7_after_quit (run 0 [.acquireOrStore 1 7, .quit] (NewMap 10 true : MamoMap Nat Nat))
      (by decide) 0 1 ⟨[], 8⟩).2.2.2.2.1⟩

/-! ## C6: calling a release closure again -/

theorem tryDelete_cnt_ver (key : K) (p ver q : Nat) (s : MamoMap K V) :
    ((tryDelete key p ver s).heap[q]?).map (fun e => (e.cnt, e.ver)) =
      (s.heap[q]?).map (fun e => (e.cnt, e.ver)) := by
  rcases tryDelete_cases key p ver s with h | ⟨e, he, _, _, _, h⟩
  · rw [h]
  · rw [h, heap_destroy s key p q e he]
    by_cases hq : q = p
    · subst hq
      simp [he]
    · simp [hq]

theorem releaseEntry_entry (key : K) (p : Nat) (s : MamoMap K V) (e : mamoEntry V)
    (he : s.heap[p]? = some e) :
    ((releaseEntry key p s).2.heap[p]?).map (fun e => (e.cnt, e.ver)) =
      some (addInt32 e.cnt (-1), addUint32 e.ver 1) := by
  have h1 : ((s.setEntry p { e with ver := addUint32 e.ver 1, cnt := addInt32 e.cnt (-1) }).heap[p]?).map
      (fun e => (e.cnt, e.ver)) = some (addInt32 e.cnt (-1), addUint32 e.ver 1) := by
    rw [heap_setEntry s p p e _ he]
    simp
  simp only [releaseEntry, he]
  split
  · exact h1
  · split
    · split
      · rw [tryDelete_cnt_ver]
        exact h1
      · split
        · rw [tryDelete_cnt_ver]
          exact h1
        · split
          · exact h1
          · exact h1
    · exact h1

theorem addInt32_pred_ne (x : Int) : addInt32 x (-1) ≠ x := by
  unfold addInt32 wrapInt32
  omega

/-- C6 (counterexample): a release closure is not idempotent.  With two
references on the entry of key 1, one call of the first closure leaves
`cnt == 1` and a second call of the same closure leaves `cnt == 0` and a newer
`ver`; with one reference, the second call of the closure panics with
`bad refcnt -1`. -/
theorem C6_second_release_has_an_effect :
    (run 0 [.acquireOrStore 1 7, .acquireOrStore 1 7, .callRelease 0]
      (NewMap 10 false : MamoMap Nat Nat)).heap = [⟨1, 3, mefReady, some 7⟩] ∧
    (run 0 [.acquireOrStore 1 7, .acquireOrStore 1 7, .callRelease 0, .callRelease 0]
      (NewMap 10 false : MamoMap Nat Nat)).heap = [⟨0, 4, mefReady, some 7⟩] ∧
    (callRelease 0 (run 0 [.acquireOrStore 1 7, .callRelease 0]
      (NewMap 10 false : MamoMap Nat Nat))).1 = .panics (.badRefcnt (-1)) ∧
    (callRelease 0 (run 0 [.acquireOrStore 1 7, .callRelease 0]
      (NewMap 0 false : MamoMap Nat Nat))).1 = .panics (.badRefcnt (-1)) := by
  decide

/-- C6 (amended): a release closure is not idempotent.  Every call of it,
whatever the number `n` of earlier calls of the same closure, runs
`releaseEntry(key, entry)` once more: it adds 1 to the entry's `ver` and
subtracts 1 from its `cnt` (so `cnt` never stays as it was), and it panics
with `bad refcnt` when that brings `cnt` below zero. -/
theorem C6_every_release_call_counts (s : MamoMap K V) (i n : Nat) (r : ReleaseFunc K)
    (e : mamoEntry V) (hi : s.closures[i]? = some (r, n)) (he : s.heap[r.entry]? = some e) :
    ∃ e', (callRelease i s).2.heap[r.entry]? = some e' ∧
      e'.ver = addUint32 e.ver 1 ∧ e'.cnt = addInt32 e.cnt (-1) ∧ e'.cnt ≠ e.cnt ∧
      (addInt32 e.cnt (-1) < 0 →
        (callRelease i s).1 = .panics (.badRefcnt (addInt32 e.cnt (-1)))) := by
  have hcall : callRelease i s =
      releaseEntry r.key r.entry { s with closures := s.closures.set i (r, n + 1) } := by
    simp [callRelease, hi]
  have h1 := releaseEntry_entry r.key r.entry
    ({ s with closures := s.closures.set i (r, n + 1) } : MamoMap K V) e he
  rw [← hcall] at h1
  cases hx : (callRelease i s).2.heap[r.entry]? with
  | none => rw [hx] at h1; cases h1
  | some e' =>
    rw [hx] at h1
    simp only [Option.map_some', Option.some.injEq, Prod.mk.injEq] at h1
    refine ⟨e', rfl, h1.2, h1.1, ?_, ?_⟩
    · rw [h1.1]
      exact addInt32_pred_ne e.cnt
    · intro hneg
      rw [hcall]
      have he' : ({ s with closures := s.closures.set i (r, n + 1) } : MamoMap K V).heap[r.entry]?
          = some e := he
      simp only [releaseEntry, he', hneg, if_true]

/-- Witness of `C6_every_release_call_counts`: the second call of the closure
returned by `AcquireOrStore(1, ...)`, the first call having brought `cnt` to zero. -/
theorem C6_every_release_call_counts_witness :
    (run 0 [.acquireOrStore 1 7, .callRelease 0]
      (NewMap 10 false : MamoMap Nat Nat)).closures[0]? = some (⟨1, 0⟩, 1) ∧
    (run 0 [.acquireOrStore 1 7, .callRelease 0]
      (NewMap 10 false : MamoMap Nat Nat)).heap[0]? = some ⟨0, 2, mefReady, some 7⟩ ∧
    ∃ e', (callRelease 0 (run 0 [.acquireOrStore 1 7, .callRelease 0]
        (NewMap 10 false : MamoMap Nat Nat))).2.heap[0]? = some e' ∧
      e'.ver = addUint32 2 1 ∧ e'.cnt = addInt32 0 (-1) ∧ e'.cnt ≠ 0 ∧
      (addInt32 0 (-1) < 0 →
        (callRelease 0 (run 0 [.acquireOrStore 1 7, .callRelease 0]
          (NewMap 10 false : MamoMap Nat Nat))).1 = .panics (.badRefcnt (addInt32 0 (-1)))) :=
  ⟨by decide, by decide,
   C6_every_release_call_counts
     (run 0 [.acquireOrStore 1 7, .callRelease 0] (NewMap 10 false : MamoMap Nat Nat))
     0 1 ⟨1, 0⟩ ⟨0, 2, mefReady, some 7⟩ (by decide) (by decide)⟩

/-! ## C9: the Entry handle inside createValue -/

theorem spinInitializing_stuck (e : mamoEntry V) (hf : e.flag = mefInitializing) (fuel : Nat) :
    spinInitializing e fuel = false := by
  induction fuel with
  | zero => simp [spinInitializing, hf]
  | succ n ih => simp [spinInitializing, hf, ih]

theorem acquire_initializing (fuel : Nat) (e : mamoEntry V) (hf : e.flag = mefInitializing) :
    e.acquire fuel = (.blocks, { e with cnt := addInt32 e.cnt 1 }) := by
  have h := spinInitializing_stuck ({ e with cnt := addInt32 e.cnt 1 } : mamoEntry V) hf fuel
  rw [hf] at h
  simp [mamoEntry.acquire, hf, h]

theorem attempt_acquire_in_create (fuel : Nat) (key : K) (rest : List EntryCall) (v : V)
    (s : MamoMap K V) (hm : s.m key = none) :
    attemptAcquireOrStore fuel key ⟨.acquire :: rest, v⟩ s =
      (some .blocks,
        { s with
          heap := s.heap ++ [{ cnt := 2, ver := 0, flag := mefInitializing, value := none }]
          m := fun k => if k = key then some s.heap.length else s.m k
          createCalls := s.createCalls ++ [key] }) := by
  simp [attemptAcquireOrStore, hm, runEntryCalls, acquire_initializing, MamoMap.setEntry,
    addInt32, wrapInt32]

theorem AcquireOrStore_acquire_in_create (fuel : Nat) (key : K) (rest : List EntryCall) (v : V)
    (s : MamoMap K V) (halive : s.died = false) (hm : s.m key = none) :
    AcquireOrStore fuel key ⟨.acquire :: rest, v⟩ s =
      (.blocks,
        { Loop s with
          heap := (Loop s).heap ++ [{ cnt := 2, ver := 0, flag := mefInitializing, value := none }]
          m := fun k => if k = key then some (Loop s).heap.length else (Loop s).m k
          createCalls := (Loop s).createCalls ++ [key] }) := by
  have hm1 : (Loop s).m key = none := by rw [(Loop_frame s).1]; exact hm
  simp only [AcquireOrStore, ensureAlive_alive s halive]
  exact retry_of_attempt fuel key _ _ _ _
    (fun f => attempt_acquire_in_create f key rest v (Loop s) hm1)

/-- C9 (counterexample): with a `createValue` that calls `Acquire()` on its
`Entry` handle, `AcquireOrStore(1, createValue)` on a new Map does not return,
whatever the number of iterations granted to the wait loop. -/
theorem C9_acquire_inside_create_never_returns :
    ¬ ∃ fuel : Nat,
      (AcquireOrStore fuel 1 ⟨[.acquire], 7⟩ (NewMap 10 false : MamoMap Nat Nat)).1.returned
        = true := by
  rintro ⟨fuel, h⟩
  rw [AcquireOrStore_acquire_in_create fuel 1 [] 7 _ rfl rfl] at h
  cases h

/-- C9 (amended): when `createValue` calls `Acquire()` on its `Entry` handle
while still inside `createValue`, the call adds 1 to `cnt` and then waits for
the flag to leave `mefInitializing`, which is written only after `createValue`
has returned: neither that call nor `AcquireOrStore` returns, and the entry
stays `mefInitializing` with `cnt == 2`.  When the handle's `Acquire()` is
called after `AcquireOrStore` has returned, it returns true at once and leaves
the entry `mefReady` with two references. -/
theorem C9_handle_acquire (fuel : Nat) (key : K) (rest : List EntryCall) (v : V)
    (s : MamoMap K V) (halive : s.died = false) (hm : s.m key = none) :
    (AcquireOrStore fuel key ⟨.acquire :: rest, v⟩ s).1 = .blocks ∧
    (AcquireOrStore fuel key ⟨.acquire :: rest, v⟩ s).2.heap[s.heap.length]? =
      some ⟨2, 0, mefInitializing, none⟩ ∧
    (AcquireOrStore fuel key ⟨[], v⟩ s).1 = .ret (v, true, ⟨key, s.heap.length⟩) ∧
    (runEntryCalls fuel key s.heap.length [.acquire] (AcquireOrStore fuel key ⟨[], v⟩ s).2).1
      = .ret () ∧
    (runEntryCalls fuel key s.heap.length [.acquire]
      (AcquireOrStore fuel key ⟨[], v⟩ s).2).2.heap[s.heap.length]? =
        some ⟨2, 2, mefReady, some v⟩ := by
  have hm1 : (Loop s).m key = none := by rw [(Loop_frame s).1]; exact hm
  have hl : (Loop s).heap = s.heap := (Loop_frame s).2.1
  have h1 := AcquireOrStore_acquire_in_create fuel key rest v s halive hm
  have h2 := AcquireOrStore_stored fuel key v s halive hm
  have h3 : (stored key v (Loop s)).heap[s.heap.length]? =
      some ⟨1, 1, mefReady, some v⟩ := by
    rw [heap_stored, hl]
    simp
  refine ⟨?_, ?_, ?_, ?_, ?_⟩
  · rw [h1]
  · rw [h1]
    show ((Loop s).heap ++ [_])[s.heap.length]? = _
    rw [hl]
    simp
  · rw [h2]
  · rw [h2]
    simp [runEntryCalls, h3, acquire_ready]
  · rw [h2]
    have hlen : s.heap.length < (stored key v (Loop s)).heap.length := by
      show _ < ((Loop s).heap ++ [_]).length
      rw [hl]
      simp
    simp [runEntryCalls, h3, acquire_ready, MamoMap.setEntry, hlen, addInt32, wrapInt32,
      addUint32]

/-- Witness of `C9_handle_acquire`: key 1 on a new Map with ttl 10. -/
theorem C9_handle_acquire_witness :
    (NewMap 10 false : MamoMap Nat Nat).died = false ∧
    (NewMap 10 false : MamoMap Nat Nat).m 1 = none ∧
    (AcquireOrStore 3 1 ⟨[.acquire], 7⟩ (NewMap 10 false : MamoMap Nat Nat)).1 = .blocks ∧
    (AcquireOrStore 3 1 ⟨[], 7⟩ (NewMap 10 false : MamoMap Nat Nat)).1 = .ret (7, true, ⟨1, 0⟩) :=
  ⟨rfl, rfl,
   (C9_handle_acquire 3 1 [] 7 (NewMap 10 false : MamoMap Nat Nat) rfl rfl).1,
   (C9_handle_acquire 3 1 [] 7 (NewMap 10 false : MamoMap Nat Nat) rfl rfl).2.2.1⟩

/-! ## The configuration of a Map never changes -/

theorem sameConfig_refl (s : MamoMap K V) : sameConfig s s := ⟨rfl, rfl, rfl⟩

theorem sameConfig_trans {s s1 s2 : MamoMap K V} (h1 : sameConfig s s1) (h2 : sameConfig s1 s2) :
    sameConfig s s2 :=
  ⟨h2.1.trans h1.1, h2.2.1.trans h1.2.1, h2.2.2.trans h1.2.2⟩

theorem sameConfig_tryDelete (key : K) (p ver : Nat) (s : MamoMap K V) :
    sameConfig s (tryDelete key p ver s) := by
  have h := tryDelete_frame key p ver s
  exact ⟨h.2.2.2.2.2.2.1, h.2.2.2.2.2.2.2.1, h.2.2.2.2.2.2.2.2.1⟩

theorem sameConfig_tryDeleteAll (ps : List (mamoMapIdleEventPayload K)) (s : MamoMap K V) :
    sameConfig s (tryDeleteAll ps s) := by
  have h := tryDeleteAll_frame ps s
  exact ⟨h.2.2.2.2.2.2.1, h.2.2.2.2.2.2.2.1, h.2.2.2.2.2.2.2.2.1⟩

theorem sameConfig_Loop (s : MamoMap K V) : sameConfig s (Loop s) := by
  have hL := Loop_frame s
  exact ⟨hL.2.2.2.2.2.2.2.1, hL.2.2.2.2.2.2.2.2.1, hL.2.2.2.2.2.2.2.2.2.2.2⟩

theorem sameConfig_releaseEntry (key : K) (p : Nat) (s : MamoMap K V) :
    sameConfig s (releaseEntry key p s).2 := by
  unfold releaseEntry
  split
  · exact sameConfig_refl s
  · dsimp only
    split
    · exact sameConfig_refl s
    · split
      · split
        · exact sameConfig_trans (show sameConfig s (s.setEntry p _) from ⟨rfl, rfl, rfl⟩)
            (sameConfig_tryDelete _ _ _ _)
        · split
          · exact sameConfig_trans (show sameConfig s (s.setEntry p _) from ⟨rfl, rfl, rfl⟩)
              (sameConfig_tryDelete _ _ _ _)
          · split <;> exact ⟨rfl, rfl, rfl⟩
      · exact ⟨rfl, rfl, rfl⟩

theorem sameConfig_loopQuit (s : MamoMap K V) : sameConfig s (loopQuit s) := by
  have h1 := sameConfig_tryDeleteAll s.toDelete ({ s with died := true } : MamoMap K V)
  have h2 := sameConfig_tryDeleteAll
    (tryDeleteAll s.toDelete ({ s with died := true } : MamoMap K V)).toCheck
    (tryDeleteAll s.toDelete ({ s with died := true } : MamoMap K V))
  exact ⟨h2.1.trans h1.1, h2.2.1.trans h1.2.1, h2.2.2.trans h1.2.2⟩

theorem sameConfig_step {s : MamoMap K V} (h : WF s) (fuel : Nat) (op : Op K V) :
    sameConfig s (step fuel op s) := by
  have hLc := sameConfig_Loop s
  cases op with
  | acquireOrStore key value =>
    show sameConfig s (AcquireOrStore fuel key ⟨[], value⟩ s).2
    cases hd : s.died with
    | true => rw [AcquireOrStore_died fuel key _ s hd]; exact hLc
    | false =>
      cases hm : s.m key with
      | none => rw [AcquireOrStore_stored fuel key value s hd hm]; exact hLc
      | some p =>
        obtain ⟨e, he, hf⟩ := h.map_ready key p hm
        have hv : e.value.isSome = true := by
          rcases h.flags p e he with ⟨_, hv⟩ | ⟨hdel, _⟩
          · exact hv
          · rw [hf] at hdel; cases hdel
        obtain ⟨w, hv'⟩ := Option.isSome_iff_exists.mp hv
        rw [AcquireOrStore_loaded fuel key _ s p e w hd hm he hf hv']
        exact hLc
  | acquire key =>
    show sameConfig s (Acquire fuel key s).2
    cases hd : s.died with
    | true => rw [Acquire_died fuel key s hd]; exact hLc
    | false =>
      cases hm : s.m key with
      | none => rw [Acquire_missing fuel key s hd hm]; exact hLc
      | some p =>
        obtain ⟨e, he, hf⟩ := h.map_ready key p hm
        have hv : e.value.isSome = true := by
          rcases h.flags p e he with ⟨_, hv⟩ | ⟨hdel, _⟩
          · exact hv
          · rw [hf] at hdel; cases hdel
        obtain ⟨w, hv'⟩ := Option.isSome_iff_exists.mp hv
        rw [Acquire_ready fuel key s p e w hd hm he hf hv']
        exact hLc
  | callRelease i =>
    show sameConfig s (callRelease i s).2
    unfold callRelease
    split
    · exact sameConfig_refl s
    · exact sameConfig_trans (show sameConfig s { s with closures := _ } from ⟨rfl, rfl, rfl⟩)
        (sameConfig_releaseEntry _ _ _)
  | release key =>
    show sameConfig s (Release key s).2
    unfold Release
    split
    · exact sameConfig_refl s
    · exact sameConfig_releaseEntry _ _ _
  | tick =>
    show sameConfig s (Tick s)
    unfold Tick
    split
    · unfold loopTick
      split
      · exact ⟨rfl, rfl, rfl⟩
      · exact sameConfig_trans (sameConfig_tryDeleteAll s.toDelete s) ⟨rfl, rfl, rfl⟩
    · exact sameConfig_refl s
  | quit =>
    show sameConfig s (Quit s).2
    unfold Quit
    split
    · split
      · exact sameConfig_refl s
      · exact ⟨rfl, rfl, rfl⟩
    · show sameConfig s (if (Loop s).died = true then
        ((Outcome.ret (), Loop s) : Outcome Unit × MamoMap K V)
        else (Outcome.ret (), loopQuit (Loop s))).2
      split
      · exact hLc
      · exact sameConfig_trans hLc (sameConfig_loopQuit (Loop s))

theorem sameConfig_run (fuel : Nat) (ops : List (Op K V)) {s : MamoMap K V} (h : WF s) :
    sameConfig s (run fuel ops s) := by
  induction ops generalizing s with
  | nil => exact sameConfig_refl s
  | cons op ops ih => exact sameConfig_trans (sameConfig_step h fuel op) (ih (wf_step h fuel op))

/-! ## C3: AcquireOrStore creates exactly when the key has no entry -/

theorem wf_value {s : MamoMap K V} (h : WF s) {p : Nat} {e : mamoEntry V}
    (he : s.heap[p]? = some e) (hf : e.flag = mefReady) : ∃ v, e.value = some v := by
  rcases h.flags p e he with ⟨_, hv⟩ | ⟨hdel, _⟩
  · exact Option.isSome_iff_exists.mp hv
  · rw [hf] at hdel
    cases hdel

/-- C3 (counterexample): on a Map that has been quit, which holds no entry for
key 1, `AcquireOrStore(1, createValue)` panics with the died diagnostic: it
does not invoke `createValue` and returns nothing.  And on a new Map, with a
`createValue` that calls `Acquire()` on its handle, `AcquireOrStore` invokes
`createValue` but never returns. -/
theorem C3_no_create_on_a_quit_map :
    (run 0 [.quit] (NewMap 10 false : MamoMap Nat Nat)).m 1 = none ∧
    (AcquireOrStore 0 1 ⟨[], 7⟩ (run 0 [.quit] (NewMap 10 false : MamoMap Nat Nat))).1
      = .panics .diedMamoMap ∧
    (AcquireOrStore 0 1 ⟨[], 7⟩
      (run 0 [.quit] (NewMap 10 false : MamoMap Nat Nat))).2.createCalls = [] ∧
    ¬ ∃ fuel : Nat,
      (AcquireOrStore fuel 2 ⟨[.acquire], 7⟩ (NewMap 10 false : MamoMap Nat Nat)).1.returned
        = true := by
  refine ⟨by decide, by decide, by decide, ?_⟩
  rintro ⟨fuel, h⟩
  rw [AcquireOrStore_acquire_in_create fuel 2 [] 7 _ rfl rfl] at h
  cases h

/-- C3 (amended): in every state `s` a Map reaches that has not been quit, with a
`createValue` that does not use its handle: if the map holds no entry for
`key`, `AcquireOrStore(key, createValue)` invokes `createValue` exactly once,
stores a `mefReady` entry with the value created and returns that value with
`created == true`; if the map holds an entry for `key`, that entry is
`mefReady` and holds a value, `createValue` is not invoked, and the call
returns the stored value with `created == false`, the entry keeping its value.
So `createValue` is invoked, and `created` is true, exactly when the map holds
no entry for `key`, and the value returned is the value the entry holds after
the call. -/
theorem C3_create_iff_no_live_entry (fuel0 : Nat) (ops : List (Op K V)) (ttl : Int) (fin : Bool)
    (s : MamoMap K V) (hs : s = run fuel0 ops (NewMap ttl fin)) (halive : s.died = false)
    (fuel : Nat) (key : K) (createValue : Creator V) (hpure : createValue.calls = []) :
    (s.m key = none →
      (AcquireOrStore fuel key createValue s).1 =
        .ret (createValue.value, true, ⟨key, s.heap.length⟩) ∧
      (AcquireOrStore fuel key createValue s).2.createCalls = s.createCalls ++ [key] ∧
      (AcquireOrStore fuel key createValue s).2.m key = some s.heap.length ∧
      (AcquireOrStore fuel key createValue s).2.heap[s.heap.length]? =
        some ⟨1, 1, mefReady, some createValue.value⟩) ∧
    (∀ p, s.m key = some p →
      ∃ e w, s.heap[p]? = some e ∧ e.flag = mefReady ∧ e.value = some w ∧
        (AcquireOrStore fuel key createValue s).1 = .ret (w, false, ⟨key, p⟩) ∧
        (AcquireOrStore fuel key createValue s).2.createCalls = s.createCalls ∧
        (AcquireOrStore fuel key createValue s).2.m key = some p ∧
        (AcquireOrStore fuel key createValue s).2.heap[p]? =
          some ⟨addInt32 e.cnt 1, addUint32 e.ver 1, mefReady, some w⟩) := by
  have hwf : WF s := by rw [hs]; exact wf_run fuel0 ops (wf_NewMap ttl fin)
  have hL := Loop_frame s
  obtain ⟨calls, v⟩ := createValue
  simp only at hpure
  subst hpure
  constructor
  · intro hm
    rw [AcquireOrStore_stored fuel key v s halive hm]
    refine ⟨rfl, ?_, ?_, ?_⟩
    · show (Loop s).createCalls ++ [key] = _
      rw [hL.2.2.2.2.1]
    · show (if key = key then some (Loop s).heap.length else (Loop s).m key) = _
      rw [hL.2.1]
      simp
    · rw [heap_stored, hL.2.1]
      simp
  · intro p hm
    obtain ⟨e, he, hf⟩ := hwf.map_ready key p hm
    obtain ⟨w, hv⟩ := wf_value hwf he hf
    refine ⟨e, w, he, hf, hv, ?_⟩
    rw [AcquireOrStore_loaded fuel key _ s p e w halive hm he hf hv]
    refine ⟨rfl, hL.2.2.2.2.1, ?_, ?_⟩
    · show (Loop s).m key = some p
      rw [hL.1]
      exact hm
    · have he1 : (Loop s).heap[p]? = some e := by rw [hL.2.1]; exact he
      show ((Loop s).setEntry p _).heap[p]? = _
      rw [heap_setEntry (Loop s) p p e _ he1]
      simp [hf, hv]

/-- Witness of `C3_create_iff_no_live_entry`: the Map with ttl 10 after
`AcquireOrStore(1, ...)`; key 1 has an entry, key 2 has none. -/
theorem C3_create_iff_no_live_entry_witness :
    (run 0 [.acquireOrStore 1 7] (NewMap 10 false : MamoMap Nat Nat)).died = false ∧
    (run 0 [.acquireOrStore 1 7] (NewMap 10 false : MamoMap Nat Nat)).m 2 = none ∧
    (AcquireOrStore 0 2 ⟨[], 8⟩ (run 0 [.acquireOrStore 1 7]
      (NewMap 10 false : MamoMap Nat Nat))).1 = .ret (8, true, ⟨2, 1⟩) :=
  ⟨by decide, by decide,
   ((C3_create_iff_no_live_entry 0 [.acquireOrStore 1 7] 10 false
      (run 0 [.acquireOrStore 1 7] (NewMap 10 false : MamoMap Nat Nat)) rfl (by decide)
      0 2 ⟨[], 8⟩ rfl).1 (by decide)).1⟩

/-! ## C2: fast-delete -/

theorem releaseEntry_fast_zero (key : K) (p : Nat) (s : MamoMap K V) (e : mamoEntry V)
    (he : s.heap[p]? = some e) (hz : addInt32 e.cnt (-1) = 0) (hfast : s.isFastDelete = true)
    (hflag : e.flag = mefReady) :
    releaseEntry key p s =
      (.ret (), destroy key p ⟨0, addUint32 e.ver 1, e.flag, e.value⟩
        (s.setEntry p ⟨0, addUint32 e.ver 1, e.flag, e.value⟩)) := by
  simp only [releaseEntry, he, hz, lt_self_iff_false, if_false, if_true]
  split
  · congr 1
    apply tryDelete_destroy
    · rw [heap_setEntry _ _ _ e _ he]
      simp
    · rfl
    · rfl
    · exact hflag
  · rename_i hn
    exact absurd hfast hn

/-- C2 (counterexample): on a Map built with ttl 0, `AcquireOrStore(1, ...)`,
then `Quit()`, then the release closure, as in `TestMapFastDelete`: the
release returns after the entry has been destroyed and finalized and its key
removed, but a following `Acquire(1)` panics with the died diagnostic instead
of returning `acquired == false`, and a following `AcquireOrStore(1, ...)`
panics too, without invoking `createValue` again. -/
theorem C2_following_calls_panic_after_quit :
    (callRelease 0 (run 0 [.acquireOrStore 1 7, .quit] (NewMap 0 true : MamoMap Nat Nat))).1
      = .ret () ∧
    (callRelease 0 (run 0 [.acquireOrStore 1 7, .quit]
      (NewMap 0 true : MamoMap Nat Nat))).2.heap = [⟨0, 2, mefDeleted, none⟩] ∧
    (callRelease 0 (run 0 [.acquireOrStore 1 7, .quit]
      (NewMap 0 true : MamoMap Nat Nat))).2.finalized.length = 1 ∧
    (callRelease 0 (run 0 [.acquireOrStore 1 7, .quit]
      (NewMap 0 true : MamoMap Nat Nat))).2.m 1 = none ∧
    (Acquire 0 1 (callRelease 0 (run 0 [.acquireOrStore 1 7, .quit]
      (NewMap 0 true : MamoMap Nat Nat))).2).1 = .panics .diedMamoMap ∧
    (AcquireOrStore 0 1 ⟨[], 8⟩ (callRelease 0 (run 0 [.acquireOrStore 1 7, .quit]
      (NewMap 0 true : MamoMap Nat Nat))).2).1 = .panics .diedMamoMap ∧
    (AcquireOrStore 0 1 ⟨[], 8⟩ (callRelease 0 (run 0 [.acquireOrStore 1 7, .quit]
      (NewMap 0 true : MamoMap Nat Nat))).2).2.createCalls = [1] := by
  decide

/-- C2 (amended): on a Map built with ttl 0, in every state it reaches: calling a
release closure whose entry is live (`mefReady`) with `cnt == 1` returns after
the entry has been destroyed: the key is absent from the map, the entry is
`mefDeleted` with its value cleared and, when the value type is finalizable,
the finalizer has been called once more, on that entry, under `mefDeleting`.
On a Map that has not been quit, a following `Acquire(key)` returns
`acquired == false` and a following `AcquireOrStore(key, createValue)` invokes
`createValue` again and returns `created == true`; on a Map that has been quit
both following calls panic with the died diagnostic. -/
theorem C2_fast_delete (fuel0 : Nat) (ops : List (Op K V)) (fin : Bool)
    (s : MamoMap K V) (hs : s = run fuel0 ops (NewMap 0 fin))
    (i n : Nat) (r : ReleaseFunc K) (e : mamoEntry V)
    (hi : s.closures[i]? = some (r, n)) (he : s.heap[r.entry]? = some e)
    (hcnt : e.cnt = 1) (hflag : e.flag = mefReady) (fuel : Nat) (v : V) :
    (callRelease i s).1 = .ret () ∧
    (callRelease i s).2.m r.key = none ∧
    (callRelease i s).2.heap[r.entry]? = some ⟨0, addUint32 e.ver 1, mefDeleted, none⟩ ∧
    (∃ w, e.value = some w ∧
      (callRelease i s).2.finalized =
        if fin = true then s.finalized ++ [(r.entry, ⟨0, addUint32 e.ver 1, mefDeleting, some w⟩)]
        else s.finalized) ∧
    (s.died = false →
      (Acquire fuel r.key (callRelease i s).2).1 = .ret (none, false, none) ∧
      (AcquireOrStore fuel r.key ⟨[], v⟩ (callRelease i s).2).1 =
        .ret (v, true, ⟨r.key, s.heap.length⟩) ∧
      (AcquireOrStore fuel r.key ⟨[], v⟩ (callRelease i s).2).2.createCalls =
        s.createCalls ++ [r.key]) ∧
    (s.died = true →
      (Acquire fuel r.key (callRelease i s).2).1 = .panics .diedMamoMap ∧
      (AcquireOrStore fuel r.key ⟨[], v⟩ (callRelease i s).2).1 = .panics .diedMamoMap) := by
  have hwf : WF s := by rw [hs]; exact wf_run fuel0 ops (wf_NewMap 0 fin)
  have hcfg : sameConfig (NewMap 0 fin : MamoMap K V) s := by
    rw [hs]; exact sameConfig_run fuel0 ops (wf_NewMap 0 fin)
  have hfast : s.isFastDelete = true := by rw [hcfg.1]; rfl
  have hfin : s.isFinalizable = fin := by rw [hcfg.2.1]; rfl
  obtain ⟨w, hw⟩ := wf_value hwf he hflag
  have hmem : (r, n) ∈ s.closures := List.getElem?_mem hi
  obtain ⟨e0, he0, hm0⟩ := hwf.closures (r, n) hmem
  have hee : e0 = e := by
    have : some e0 = some e := he0.symm.trans he
    exact Option.some.inj this
  subst hee
  have hm : s.m r.key = some r.entry := hm0 hflag
  have hz : addInt32 e0.cnt (-1) = 0 := by rw [hcnt]; decide
  -- the state after the call
  have hcall : callRelease i s =
      (.ret (), destroy r.key r.entry
        ⟨0, addUint32 e0.ver 1, e0.flag, e0.value⟩
        (({ s with closures := s.closures.set i (r, n + 1) } : MamoMap K V).setEntry r.entry
          ⟨0, addUint32 e0.ver 1, e0.flag, e0.value⟩)) := by
    simp only [callRelease, hi]
    exact releaseEntry_fast_zero r.key r.entry _ e0 he hz hfast hflag
  have he' : ({ s with closures := s.closures.set i (r, n + 1) } : MamoMap K V).heap[r.entry]?
      = some e0 := he
  have hheap : (callRelease i s).2.heap[r.entry]? =
      some ⟨0, addUint32 e0.ver 1, mefDeleted, none⟩ := by
    rw [hcall]
    show (destroy _ _ _ _).heap[r.entry]? = _
    rw [heap_destroy]
    · simp
    · rw [heap_setEntry _ _ _ e0 _ he']
      simp
  have hmap : (callRelease i s).2.m r.key = none := by
    rw [hcall]
    show (if r.key = r.key then none else _) = none
    simp
  have hlen : (callRelease i s).2.heap.length = s.heap.length := by
    rw [hcall]
    show ((s.heap.set _ _).set _ _).length = _
    simp
  have hdied : (callRelease i s).2.died = s.died := by rw [hcall]; rfl
  have hcc : (callRelease i s).2.createCalls = s.createCalls := by rw [hcall]; rfl
  refine ⟨by rw [hcall], hmap, hheap, ⟨w, hw, ?_⟩, ?_, ?_⟩
  · rw [hcall]
    show (if _ ∧ _ then _ else _) = _
    have h1 : (({ s with closures := s.closures.set i (r, n + 1) } : MamoMap K V).setEntry r.entry
          ⟨0, addUint32 e0.ver 1, e0.flag, e0.value⟩).isFinalizable = fin := hfin
    have h2 : (({ s with closures := s.closures.set i (r, n + 1) } : MamoMap K V).setEntry r.entry
          ⟨0, addUint32 e0.ver 1, e0.flag, e0.value⟩).finalized = s.finalized := rfl
    rw [h1, h2]
    cases fin <;> simp [hw]
  · intro halive
    have hal : (callRelease i s).2.died = false := by rw [hdied]; exact halive
    refine ⟨?_, ?_, ?_⟩
    · rw [Acquire_missing fuel r.key _ hal hmap]
    · rw [AcquireOrStore_stored fuel r.key v _ hal hmap, hlen]
    · rw [AcquireOrStore_stored fuel r.key v _ hal hmap]
      show (Loop _).createCalls ++ [r.key] = _
      rw [(Loop_frame _).2.2.2.2.1, hcc]
  · intro hquit
    have hq : (callRelease i s).2.died = true := by rw [hdied]; exact hquit
    exact ⟨by rw [Acquire_died fuel r.key _ hq], by rw [AcquireOrStore_died fuel r.key _ _ hq]⟩

/-- Witness of `C2_fast_delete`: the closure returned by `AcquireOrStore(1, ...)`
on a new finalizable Map with ttl 0. -/
theorem C2_fast_delete_witness :
    (run 0 [.acquireOrStore 1 7] (NewMap 0 true : MamoMap Nat Nat)).closures[0]?
      = some (⟨1, 0⟩, 0) ∧
    (run 0 [.acquireOrStore 1 7] (NewMap 0 true : MamoMap Nat Nat)).heap[0]?
      = some ⟨1, 1, mefReady, some 7⟩ ∧
    (callRelease 0 (run 0 [.acquireOrStore 1 7] (NewMap 0 true : MamoMap Nat Nat))).2.m 1
      = none ∧
    (callRelease 0 (run 0 [.acquireOrStore 1 7] (NewMap 0 true : MamoMap Nat Nat))).2.heap[0]?
      = some ⟨0, addUint32 1 1, mefDeleted, none⟩ :=
  ⟨by decide, by decide,
   (C2_fast_delete 0 [.acquireOrStore 1 7] true
      (run 0 [.acquireOrStore 1 7] (NewMap 0 true : MamoMap Nat Nat)) rfl
      0 0 ⟨1, 0⟩ ⟨1, 1, mefReady, some 7⟩ (by decide) (by decide) rfl rfl 0 8).2.1,
   (C2_fast_delete 0 [.acquireOrStore 1 7] true
      (run 0 [.acquireOrStore 1 7] (NewMap 0 true : MamoMap Nat Nat)) rfl
      0 0 ⟨1, 0⟩ ⟨1, 1, mefReady, some 7⟩ (by decide) (by decide) rfl rfl 0 8).2.2.1⟩

/-! ## C1: an entry with references is not destroyed -/

theorem tryDelete_keeps {s : MamoMap K V} {k' key : K} {p' p : Nat} (ver : Nat)
    {e : mamoEntry V} (ht : Tied s k' p') (he : s.heap[p]? = some e) (hcnt : 0 < e.cnt)
    (hm : s.m key = some p) :
    (tryDelete k' p' ver s).heap[p]? = some e ∧ (tryDelete k' p' ver s).m key = some p := by
  rcases tryDelete_cases k' p' ver s with h1 | ⟨e', he', hc', _, hf', h1⟩
  · rw [h1]
    exact ⟨he, hm⟩
  · rw [h1]
    have hne : p ≠ p' := by
      intro hpp
      subst hpp
      rw [he] at he'
      cases he'
      omega
    obtain ⟨x, hx, hxm⟩ := ht
    rw [he'] at hx
    cases hx
    have hk : s.m k' = some p' := hxm hf'
    have hkey : key ≠ k' := by
      intro hkk
      subst hkk
      rw [hm] at hk
      exact hne (Option.some.inj hk)
    constructor
    · rw [heap_destroy s k' p' p e' he']
      simp [hne, he]
    · show (if key = k' then none else s.m key) = some p
      rw [if_neg hkey]
      exact hm

theorem tryDeleteAll_keeps (ps : List (mamoMapIdleEventPayload K)) (s : MamoMap K V) (h : WF s)
    (hps : ∀ x ∈ ps, x ∈ s.toDelete ∨ x ∈ s.toCheck) {key : K} {p : Nat} {e : mamoEntry V}
    (he : s.heap[p]? = some e) (hcnt : 0 < e.cnt) (hm : s.m key = some p) :
    (tryDeleteAll ps s).heap[p]? = some e ∧ (tryDeleteAll ps s).m key = some p := by
  induction ps generalizing s with
  | nil => exact ⟨he, hm⟩
  | cons x xs ih =>
    have hx : Tied s x.key x.entry := by
      rcases hps x (List.mem_cons_self x xs) with hx | hx
      · exact h.toDelete x hx
      · exact h.toCheck x hx
    have hf := tryDelete_frame x.key x.entry x.prevVer s
    have hk := tryDelete_keeps x.prevVer hx he hcnt hm
    have h1 := ih (tryDelete x.key x.entry x.prevVer s) (wf_tryDelete h x.prevVer hx) (by
      intro y hy
      rw [hf.1, hf.2.1]
      exact hps y (List.mem_cons_of_mem x hy)) hk.1 hk.2
    simpa only [tryDeleteAll, List.foldl_cons] using h1

theorem Tick_keeps {s : MamoMap K V} (h : WF s) {key : K} {p : Nat} {e : mamoEntry V}
    (he : s.heap[p]? = some e) (hcnt : 0 < e.cnt) (hm : s.m key = some p) :
    (Tick s).heap[p]? = some e ∧ (Tick s).m key = some p := by
  unfold Tick
  split
  · unfold loopTick
    split
    · exact ⟨he, hm⟩
    · exact tryDeleteAll_keeps s.toDelete s h (fun x hx => Or.inl hx) he hcnt hm
  · exact ⟨he, hm⟩

theorem loopQuit_keeps {s : MamoMap K V} (h : WF s) {key : K} {p : Nat} {e : mamoEntry V}
    (he : s.heap[p]? = some e) (hcnt : 0 < e.cnt) (hm : s.m key = some p) :
    (loopQuit s).heap[p]? = some e ∧ (loopQuit s).m key = some p := by
  have h0 : WF ({ s with died := true } : MamoMap K V) :=
    wf_relist h rfl rfl rfl rfl rfl rfl h.closures h.toCheck h.toDelete
  have h1 := wf_tryDeleteAll s.toDelete _ h0 (fun x hx => Or.inl hx)
  have k1 := @tryDeleteAll_keeps K V _ s.toDelete ({ s with died := true } : MamoMap K V) h0
    (fun x hx => Or.inl hx) key p e he hcnt hm
  exact tryDeleteAll_keeps (tryDeleteAll s.toDelete { s with died := true }).toCheck _ h1
    (fun x hx => Or.inr hx) k1.1 hcnt k1.2

theorem Quit_keeps {s : MamoMap K V} (h : WF s) {key : K} {p : Nat} {e : mamoEntry V}
    (he : s.heap[p]? = some e) (hcnt : 0 < e.cnt) (hm : s.m key = some p) :
    (Quit s).2.heap[p]? = some e ∧ (Quit s).2.m key = some p := by
  have hL := Loop_frame s
  have heL : (Loop s).heap[p]? = some e := by rw [hL.2.1]; exact he
  have hmL : (Loop s).m key = some p := by rw [hL.1]; exact hm
  unfold Quit
  split
  · split
    · exact ⟨he, hm⟩
    · exact ⟨he, hm⟩
  · show (if (Loop s).died = true then ((Outcome.ret (), Loop s) : Outcome Unit × MamoMap K V)
      else (Outcome.ret (), loopQuit (Loop s))).2.heap[p]? = some e ∧
      (if (Loop s).died = true then ((Outcome.ret (), Loop s) : Outcome Unit × MamoMap K V)
      else (Outcome.ret (), loopQuit (Loop s))).2.m key = some p
    split
    · exact ⟨heL, hmL⟩
    · exact loopQuit_keeps (wf_Loop h) heL hcnt hmL

/-- C1 (counterexample): after `AcquireOrStore(1, ...)` and `Quit()` the entry
of key 1 has `cnt == 1`, is `mefReady` and holds its value, and yet
`Acquire(1)` does not return `acquired == true`: it panics with the died
diagnostic. -/
theorem C1_acquire_after_quit_panics :
    (run 0 [.acquireOrStore 1 7, .quit] (NewMap 10 true : MamoMap Nat Nat)).m 1 = some 0 ∧
    (run 0 [.acquireOrStore 1 7, .quit] (NewMap 10 true : MamoMap Nat Nat)).heap
      = [⟨1, 1, mefReady, some 7⟩] ∧
    (Acquire 0 1 (run 0 [.acquireOrStore 1 7, .quit] (NewMap 10 true : MamoMap Nat Nat))).1
      = .panics .diedMamoMap := by
  decide

/-- C1 (amended): in every state `s` a Map reaches by a sequence of `AcquireOrStore`,
`Acquire`, release-closure calls, `Release`, reaper ticks and `Quit`, an entry
stored in the map whose `cnt` is greater than zero is intact: its flag is
`mefReady`, it holds its value, and the finalizer was never called on it.
`tryDelete` on it, for any key and version, changes nothing, and a reaper tick
and the `Quit` drain leave the entry and its key in the map as they are.  Every
deletion and every finalizer call so far was made on an entry whose `cnt` was
zero.  Acquiring the entry succeeds: `entry.acquire()` returns true, and on a
Map that has not been quit `Acquire(key)` returns the stored value with
`acquired == true`; on a Map that has been quit `Acquire(key)` panics with the
died diagnostic. -/
theorem C1_held_entry_is_not_destroyed (fuel0 : Nat) (ops : List (Op K V)) (ttl : Int)
    (fin : Bool) (s : MamoMap K V) (hs : s = run fuel0 ops (NewMap ttl fin))
    (key : K) (p : Nat) (e : mamoEntry V)
    (hm : s.m key = some p) (he : s.heap[p]? = some e) (hcnt : 0 < e.cnt) :
    e.flag = mefReady ∧
    (∃ v, e.value = some v ∧
      (∀ fuel, (e.acquire fuel).1 = .ret true) ∧
      (s.died = false → ∀ fuel, (Acquire fuel key s).1 = .ret (some v, true, some ⟨key, p⟩)) ∧
      (s.died = true → ∀ fuel, (Acquire fuel key s).1 = .panics .diedMamoMap)) ∧
    (∀ x ∈ s.finalized, x.1 ≠ p) ∧
    (∀ k ver, tryDelete k p ver s = s) ∧
    ((Tick s).heap[p]? = some e ∧ (Tick s).m key = some p) ∧
    ((Quit s).2.heap[p]? = some e ∧ (Quit s).2.m key = some p) ∧
    (∀ x ∈ s.deleted, x.2.cnt = 0) ∧
    (∀ x ∈ s.finalized, x.2.cnt = 0) := by
  have hwf : WF s := by rw [hs]; exact wf_run fuel0 ops (wf_NewMap ttl fin)
  obtain ⟨e0, he0, hf⟩ := hwf.map_ready key p hm
  rw [he] at he0
  cases he0
  obtain ⟨v, hv⟩ := wf_value hwf he hf
  refine ⟨hf, ⟨v, hv, ?_, ?_, ?_⟩, ?_, ?_, Tick_keeps hwf he hcnt hm, Quit_keeps hwf he hcnt hm,
    fun x hx => (hwf.deleted x hx).1, fun x hx => (hwf.finalized x hx).1⟩
  · intro fuel
    rw [acquire_ready fuel e hf]
  · intro halive fuel
    rw [Acquire_ready fuel key s p e v halive hm he hf hv]
  · intro hdied fuel
    rw [Acquire_died fuel key s hdied]
  · intro x hx hxp
    have hc := hwf.finCount p
    rw [he] at hc
    simp only [hf] at hc
    have hmem : p ∈ s.finalized.map Prod.fst := by
      rw [← hxp]
      exact List.mem_map_of_mem Prod.fst hx
    have hpos := List.count_pos_iff.mpr hmem
    simp at hc
    omega
  · intro k ver
    apply tryDelete_skip k p ver s e he
    intro ⟨hc, _, _⟩
    omega

/-- Witness of `C1_held_entry_is_not_destroyed`: the entry of key 1 is held
while the reaper ticks twice. -/
theorem C1_held_entry_is_not_destroyed_witness :
    (run 0 [.acquireOrStore 1 7, .acquire 1, .callRelease 0, .tick, .tick]
      (NewMap 10 true : MamoMap Nat Nat)).m 1 = some 0 ∧
    (run 0 [.acquireOrStore 1 7, .acquire 1, .callRelease 0, .tick, .tick]
      (NewMap 10 true : MamoMap Nat Nat)).heap[0]? = some ⟨1, 3, mefReady, some 7⟩ ∧
    (0 : Int) < 1 ∧
    (⟨1, 3, mefReady, some 7⟩ : mamoEntry Nat).flag = mefReady :=
  ⟨by decide, by decide, by decide,
   (C1_held_entry_is_not_destroyed 0
      [.acquireOrStore 1 7, .acquire 1, .callRelease 0, .tick, .tick] 10 true
      (run 0 [.acquireOrStore 1 7, .acquire 1, .callRelease 0, .tick, .tick]
        (NewMap 10 true : MamoMap Nat Nat)) rfl 1 0 ⟨1, 3, mefReady, some 7⟩
      (by decide) (by decide) (by decide)).1⟩

/-! ## C5: the finalizer runs once per deleted entry -/

theorem length_of_count (l : List Nat) (n : Nat)
    (h : ∀ p, l.count p = if p < n then 1 else 0) : l.length = n := by
  have hperm : l.Perm (List.range n) := by
    rw [List.perm_iff_count]
    intro p
    rw [h p]
    by_cases hp : p < n
    · rw [if_pos hp, List.count_eq_one_of_mem (List.nodup_range n) (List.mem_range.mpr hp)]
    · rw [if_neg hp, List.count_eq_zero_of_not_mem (fun hm => hp (List.mem_range.mp hm))]
  rw [hperm.length_eq, List.length_range]

/-- C5: on a Map whose value type is finalizable, in every state `s` reached by
a sequence of Map operations, reaper ticks and `Quit`: the finalizer has been
called on an entry instance exactly once if the instance is `mefDeleted` and
not at all otherwise; every finalizer call was made on an allocated entry
while its `cnt` was zero and its flag `mefDeleting` (after the deletion was
claimed, before `mefDeleted` is stored), its value still present; and when
every entry created so far is `mefDeleted`, the number of finalizer calls
equals the number of `createValue` calls. -/
theorem C5_finalizer_once_per_deleted_entry (fuel0 : Nat) (ops : List (Op K V)) (ttl : Int)
    (s : MamoMap K V) (hs : s = run fuel0 ops (NewMap ttl true)) :
    (∀ (p : Nat) (e : mamoEntry V), s.heap[p]? = some e →
      (s.finalized.map Prod.fst).count p = if e.flag = mefDeleted then 1 else 0) ∧
    (∀ x ∈ s.finalized,
      x.1 < s.heap.length ∧ x.2.cnt = 0 ∧ x.2.flag = mefDeleting ∧ x.2.value.isSome = true) ∧
    ((∀ (p : Nat) (e : mamoEntry V), s.heap[p]? = some e → e.flag = mefDeleted) →
      s.finalized.length = s.createCalls.length) := by
  have hwf : WF s := by rw [hs]; exact wf_run fuel0 ops (wf_NewMap ttl true)
  have hcfg : sameConfig (NewMap ttl true : MamoMap K V) s := by
    rw [hs]; exact sameConfig_run fuel0 ops (wf_NewMap ttl true)
  have hfin : s.isFinalizable = true := by rw [hcfg.2.1]; rfl
  have hcount : ∀ (p : Nat) (e : mamoEntry V), s.heap[p]? = some e →
      (s.finalized.map Prod.fst).count p = if e.flag = mefDeleted then 1 else 0 := by
    intro p e he
    have hc := hwf.finCount p
    rw [he] at hc
    simpa [hfin] using hc
  refine ⟨hcount, ?_, ?_⟩
  · intro x hx
    refine ⟨?_, hwf.finalized x hx⟩
    by_contra hlt
    have hnone : s.heap[x.1]? = none := List.getElem?_eq_none (by omega)
    have hc := hwf.finCount x.1
    rw [hnone] at hc
    have hmem : x.1 ∈ s.finalized.map Prod.fst := List.mem_map_of_mem Prod.fst hx
    have hpos := List.count_pos_iff.mpr hmem
    simp only at hc
    omega
  · intro hall
    rw [hwf.creates, ← List.length_map s.finalized Prod.fst]
    apply length_of_count
    intro p
    by_cases hp : p < s.heap.length
    · obtain ⟨e, he⟩ : ∃ e, s.heap[p]? = some e := ⟨s.heap[p], List.getElem?_eq_getElem hp⟩
      rw [hcount p e he, if_pos (hall p e he), if_pos hp]
    · have hnone : s.heap[p]? = none := List.getElem?_eq_none (by omega)
      have hc := hwf.finCount p
      rw [hnone] at hc
      rw [if_neg hp]
      exact hc

/-- Witness of `C5_finalizer_once_per_deleted_entry`: the first of the entries
created for key 1 has been deleted by the reaper, the third is still held. -/
theorem C5_finalizer_once_per_deleted_entry_witness :
    (run 0 [.acquireOrStore 1 7, .callRelease 0, .tick, .tick, .acquireOrStore 1 7,
        .acquire 1, .callRelease 2, .callRelease 1, .tick, .tick, .acquireOrStore 1 7]
      (NewMap 10 true : MamoMap Nat Nat)).heap[0]? = some ⟨0, 2, mefDeleted, none⟩ ∧
    ((run 0 [.acquireOrStore 1 7, .callRelease 0, .tick, .tick, .acquireOrStore 1 7,
        .acquire 1, .callRelease 2, .callRelease 1, .tick, .tick, .acquireOrStore 1 7]
      (NewMap 10 true : MamoMap Nat Nat)).finalized.map Prod.fst).count 0 =
      if (⟨0, 2, mefDeleted, none⟩ : mamoEntry Nat).flag = mefDeleted then 1 else 0 :=
  ⟨by decide,
   (C5_finalizer_once_per_deleted_entry 0 [.acquireOrStore 1 7, .callRelease 0, .tick, .tick,
        .acquireOrStore 1 7, .acquire 1, .callRelease 2, .callRelease 1, .tick, .tick,
        .acquireOrStore 1 7] 10
      (run 0 [.acquireOrStore 1 7, .callRelease 0, .tick, .tick, .acquireOrStore 1 7,
        .acquire 1, .callRelease 2, .callRelease 1, .tick, .tick, .acquireOrStore 1 7]
        (NewMap 10 true : MamoMap Nat Nat)) rfl).1 0 ⟨0, 2, mefDeleted, none⟩ (by decide)⟩

/-! ## C4: cnt counts the closures not yet called -/

theorem wrapInt32_add (a b : Int) : wrapInt32 (wrapInt32 a + b) = wrapInt32 (a + b) := by
  unfold wrapInt32
  omega

theorem wrapInt32_small (a : Int) (h0 : 0 ≤ a) (h1 : a < 2147483648) : wrapInt32 a = a := by
  unfold wrapInt32
  omega

theorem countP_set_dec {α : Type} (P : α → Bool) (l : List α) (i : Nat) (a b : α)
    (hi : l[i]? = some a) (ha : P a = true) (hb : P b = false) :
    (l.set i b).countP P + 1 = l.countP P := by
  induction l generalizing i with
  | nil => simp at hi
  | cons x xs ih =>
    cases i with
    | zero =>
      simp at hi
      subst hi
      simp [List.countP_cons, ha, hb]
    | succ j =>
      simp at hi
      have := ih j hi
      simp only [List.set_cons_succ, List.countP_cons]
      omega

theorem countP_set_same {α : Type} (P : α → Bool) (l : List α) (i : Nat) (a b : α)
    (hi : l[i]? = some a) (hab : P b = P a) :
    (l.set i b).countP P = l.countP P := by
  induction l generalizing i with
  | nil => simp at hi
  | cons x xs ih =>
    cases i with
    | zero =>
      simp at hi
      subst hi
      simp [List.countP_cons, hab]
    | succ j =>
      simp at hi
      have := ih j hi
      simp only [List.set_cons_succ, List.countP_cons]
      omega

theorem tryDelete_cnt (key : K) (p ver q : Nat) (s : MamoMap K V) :
    ((tryDelete key p ver s).heap[q]?).map (fun e => e.cnt) =
      (s.heap[q]?).map (fun e => e.cnt) := by
  have h := congrArg (Option.map Prod.fst) (tryDelete_cnt_ver key p ver q s)
  simpa [Option.map_map, Function.comp_def] using h

theorem releaseEntry_cnt (key : K) (p q : Nat) (s : MamoMap K V) (e : mamoEntry V)
    (he : s.heap[p]? = some e) :
    ((releaseEntry key p s).2.heap[q]?).map (fun e => e.cnt) =
      if q = p then some (addInt32 e.cnt (-1)) else (s.heap[q]?).map (fun e => e.cnt) := by
  have h1 : ((s.setEntry p { e with ver := addUint32 e.ver 1, cnt := addInt32 e.cnt (-1) }).heap[q]?).map
      (fun e => e.cnt) =
      if q = p then some (addInt32 e.cnt (-1)) else (s.heap[q]?).map (fun e => e.cnt) := by
    rw [heap_setEntry s p q e _ he]
    by_cases hq : q = p <;> simp [hq]
  simp only [releaseEntry, he]
  split
  · exact h1
  · split
    · split
      · rw [tryDelete_cnt]
        exact h1
      · split
        · rw [tryDelete_cnt]
          exact h1
        · split
          · exact h1
          · exact h1
    · exact h1

theorem releaseEntry_closures (key : K) (p : Nat) (s : MamoMap K V) :
    (releaseEntry key p s).2.closures = s.closures := by
  unfold releaseEntry
  split
  · rfl
  · dsimp only
    split
    · rfl
    · split
      · split
        · exact (tryDelete_frame _ _ _ _).2.2.1
        · split
          · exact (tryDelete_frame _ _ _ _).2.2.1
          · split <;> rfl
      · rfl


theorem outstanding_append (p : Nat) (s s' : MamoMap K V) (r : ReleaseFunc K)
    (hc : s'.closures = s.closures ++ [(r, 0)]) :
    outstanding p s' = outstanding p s + if r.entry = p then 1 else 0 := by
  unfold outstanding
  rw [hc, List.countP_append]
  by_cases h : r.entry = p <;> simp [List.countP_cons, h]

theorem counted_of_eq {s s' : MamoMap K V} (h : Counted s) (hh : s'.heap = s.heap)
    (hc : s'.closures = s.closures) : Counted s' := by
  intro p e he
  rw [hh] at he
  have := h p e he
  unfold outstanding at this ⊢
  rw [hc]
  exact this

theorem uncalled_append {s s' : MamoMap K V} {is : List Nat} (h : Uncalled s is)
    (r : ReleaseFunc K) (hc : s'.closures = s.closures ++ [(r, 0)]) : Uncalled s' is := by
  intro i hi r' n hn
  rw [hc, List.getElem?_append] at hn
  by_cases hlt : i < s.closures.length
  · rw [if_pos hlt] at hn
    exact h i hi r' n hn
  · rw [if_neg hlt] at hn
    have hmem := List.getElem?_mem hn
    simp at hmem
    exact hmem.2

theorem uncalled_of_eq {s s' : MamoMap K V} {is : List Nat} (h : Uncalled s is)
    (hc : s'.closures = s.closures) : Uncalled s' is := by
  intro i hi r n hn
  rw [hc] at hn
  exact h i hi r n hn

theorem counted_acquired {s : MamoMap K V} (h : Counted s) {key : K} {p : Nat} {e : mamoEntry V}
    (he : s.heap[p]? = some e) : Counted (acquired key p e s) := by
  intro q x hx
  have ho := outstanding_append q s (acquired key p e s) ⟨key, p⟩ rfl
  have hx' : (s.setEntry p { e with cnt := addInt32 e.cnt 1, ver := addUint32 e.ver 1 }).heap[q]?
      = some x := hx
  rw [heap_setEntry s p q e _ he] at hx'
  rw [ho]
  by_cases hq : q = p
  · subst hq
    simp at hx'
    subst hx'
    show addInt32 e.cnt 1 = _
    rw [h q e he]
    unfold addInt32
    rw [wrapInt32_add]
    simp
  · simp [hq] at hx'
    have hne : ¬ p = q := fun h => hq h.symm
    simp [hne]
    exact h q x hx'

theorem counted_stored {s : MamoMap K V} (hwf : WF s) (h : Counted s) (key : K) (v : V) :
    Counted (stored key v s) := by
  intro q x hx
  have ho := outstanding_append q s (stored key v s) ⟨key, s.heap.length⟩ rfl
  rw [heap_stored] at hx
  rw [ho]
  by_cases hq : q = s.heap.length
  · simp [hq] at hx
    subst hx
    have hz : outstanding q s = 0 := by
      unfold outstanding
      rw [List.countP_eq_zero]
      intro y hy
      obtain ⟨e, he, _⟩ := hwf.closures y hy
      have hlt := (List.getElem?_eq_some.mp he).1
      simp
      intro hyq
      omega
    rw [hz, hq]
    simp [wrapInt32]
  · simp [hq] at hx
    have hne : ¬ s.heap.length = q := fun h => hq h.symm
    simp [hne]
    exact h q x hx

theorem counted_callRelease {s : MamoMap K V} (hwf : WF s) (h : Counted s) (i : Nat)
    (r : ReleaseFunc K) (hi : s.closures[i]? = some (r, 0)) : Counted (callRelease i s).2 := by
  obtain ⟨e, he, _⟩ := hwf.closures (r, 0) (List.getElem?_mem hi)
  have hcall : callRelease i s =
      releaseEntry r.key r.entry { s with closures := s.closures.set i (r, 0 + 1) } := by
    simp [callRelease, hi]
  have he' : ({ s with closures := s.closures.set i (r, 0 + 1) } : MamoMap K V).heap[r.entry]?
      = some e := he
  intro q x hx
  have hcnt := releaseEntry_cnt r.key r.entry q
    ({ s with closures := s.closures.set i (r, 0 + 1) } : MamoMap K V) e he'
  have hcl := releaseEntry_closures r.key r.entry
    ({ s with closures := s.closures.set i (r, 0 + 1) } : MamoMap K V)
  rw [← hcall] at hcnt hcl
  rw [hx] at hcnt
  have hout : outstanding q (callRelease i s).2 =
      (s.closures.set i (r, 0 + 1)).countP (fun x => x.1.entry == q && x.2 == 0) := by
    unfold outstanding
    rw [hcl]
  rw [hout]
  by_cases hq : q = r.entry
  · subst hq
    rw [if_pos rfl] at hcnt
    simp only [Option.map_some', Option.some.injEq] at hcnt
    have hdec := countP_set_dec (fun x : ReleaseFunc K × Nat => x.1.entry == r.entry && x.2 == 0)
      s.closures i (r, 0) (r, 0 + 1) hi (by simp) (by simp)
    have hold := h r.entry e he
    unfold outstanding at hold
    rw [hcnt, hold]
    unfold addInt32
    rw [wrapInt32_add]
    congr 1
    omega
  · rw [if_neg hq] at hcnt
    have hsame := countP_set_same (fun x : ReleaseFunc K × Nat => x.1.entry == q && x.2 == 0)
      s.closures i (r, 0) (r, 0 + 1) hi (by
        have : ¬ r.entry = q := fun h => hq h.symm
        simp [this])
    rw [hsame]
    cases hs : s.heap[q]? with
    | none => rw [hs] at hcnt; simp at hcnt
    | some y =>
      rw [hs] at hcnt
      simp only [Option.map_some', Option.some.injEq] at hcnt
      rw [hcnt]
      exact h q y hs

theorem uncalled_callRelease {s : MamoMap K V} {is : List Nat} (i : Nat) (hni : i ∉ is)
    (h : Uncalled s is) : Uncalled (callRelease i s).2 is := by
  unfold callRelease
  split
  · exact h
  · rename_i r n hi
    intro j hj r' n' hn
    rw [releaseEntry_closures] at hn
    have hji : ¬ i = j := by
      intro hij
      subst hij
      exact hni hj
    have hn' : (s.closures.set i (r, n + 1))[j]? = some (r', n') := hn
    rw [List.getElem?_set_ne hji] at hn'
    exact h j hj r' n' hn'

theorem tryDeleteAll_cnt (ps : List (mamoMapIdleEventPayload K)) (q : Nat) (s : MamoMap K V) :
    ((tryDeleteAll ps s).heap[q]?).map (fun e => e.cnt) = (s.heap[q]?).map (fun e => e.cnt) := by
  induction ps generalizing s with
  | nil => rfl
  | cons x xs ih =>
    show ((tryDeleteAll xs (tryDelete x.key x.entry x.prevVer s)).heap[q]?).map _ = _
    rw [ih, tryDelete_cnt]

theorem counted_of_cnt {s s' : MamoMap K V} (h : Counted s)
    (hh : ∀ q : Nat, (s'.heap[q]?).map (fun e : mamoEntry V => e.cnt) =
      (s.heap[q]?).map (fun e : mamoEntry V => e.cnt))
    (hc : s'.closures = s.closures) : Counted s' := by
  intro p e he
  have h1 := hh p
  rw [he] at h1
  cases hs : s.heap[p]? with
  | none => rw [hs] at h1; cases h1
  | some x =>
    rw [hs] at h1
    simp only [Option.map_some', Option.some.injEq] at h1
    have := h p x hs
    unfold outstanding at this ⊢
    rw [hc, h1]
    exact this

theorem counted_Tick {s : MamoMap K V} (h : Counted s) : Counted (Tick s) := by
  unfold Tick
  split
  · unfold loopTick
    split
    · exact counted_of_eq h rfl rfl
    · exact counted_of_cnt h (fun q => tryDeleteAll_cnt s.toDelete q s)
        (tryDeleteAll_frame s.toDelete s).2.2.1
  · exact h

theorem counted_loopQuit {s : MamoMap K V} (h : Counted s) : Counted (loopQuit s) := by
  have h1 : Counted ({ s with died := true } : MamoMap K V) := counted_of_eq h rfl rfl
  have h2 : Counted (tryDeleteAll s.toDelete ({ s with died := true } : MamoMap K V)) :=
    counted_of_cnt h1 (fun q => tryDeleteAll_cnt _ q _) (tryDeleteAll_frame _ _).2.2.1
  have h3 := counted_of_cnt h2
    (fun q => tryDeleteAll_cnt
      (tryDeleteAll s.toDelete ({ s with died := true } : MamoMap K V)).toCheck q _)
    (tryDeleteAll_frame _ _).2.2.1
  exact counted_of_eq h3 rfl rfl

theorem counted_Quit {s : MamoMap K V} (h : Counted s) : Counted (Quit s).2 := by
  have hL := Loop_frame s
  have hcL : Counted (Loop s) := counted_of_eq h hL.2.1 hL.2.2.2.1
  unfold Quit
  split
  · split
    · exact h
    · exact counted_of_eq h rfl rfl
  · show Counted (if (Loop s).died = true then
      ((Outcome.ret (), Loop s) : Outcome Unit × MamoMap K V)
      else (Outcome.ret (), loopQuit (Loop s))).2
    split
    · exact hcL
    · exact counted_loopQuit hcL

theorem closures_Tick (s : MamoMap K V) : (Tick s).closures = s.closures := by
  unfold Tick
  split
  · unfold loopTick
    split
    · rfl
    · exact (tryDeleteAll_frame s.toDelete s).2.2.1
  · rfl

theorem closures_Quit (s : MamoMap K V) : (Quit s).2.closures = s.closures := by
  have hL := Loop_frame s
  unfold Quit
  split
  · split <;> rfl
  · show (if (Loop s).died = true then
      ((Outcome.ret (), Loop s) : Outcome Unit × MamoMap K V)
      else (Outcome.ret (), loopQuit (Loop s))).2.closures = _
    split
    · exact hL.2.2.2.1
    · have h1 := tryDeleteAll_frame (Loop s).toDelete ({ Loop s with died := true } : MamoMap K V)
      have h2 := tryDeleteAll_frame
        (tryDeleteAll (Loop s).toDelete ({ Loop s with died := true } : MamoMap K V)).toCheck
        (tryDeleteAll (Loop s).toDelete ({ Loop s with died := true } : MamoMap K V))
      exact (h2.2.2.1.trans h1.2.2.1).trans hL.2.2.2.1

theorem counted_run (fuel : Nat) (ops : List (Op K V)) (s : MamoMap K V) (hwf : WF s)
    (hc : Counted s) (hops : handleOps ops = true) (hnd : (releaseIndices ops).Nodup)
    (hun : Uncalled s (releaseIndices ops)) : Counted (run fuel ops s) := by
  induction ops generalizing s with
  | nil => exact hc
  | cons op ops ih =>
    have hL := Loop_frame s
    have hcL : Counted (Loop s) := counted_of_eq hc hL.2.1 hL.2.2.2.1
    cases op with
    | acquireOrStore key value =>
      have hops' : handleOps ops = true := hops
      have hnd' : (releaseIndices ops).Nodup := hnd
      have hun' : Uncalled s (releaseIndices ops) := hun
      refine ih _ (wf_step hwf fuel _) ?_ hops' hnd' ?_
      · show Counted (AcquireOrStore fuel key ⟨[], value⟩ s).2
        cases hd : s.died with
        | true => rw [AcquireOrStore_died fuel key _ s hd]; exact hcL
        | false =>
          cases hm : s.m key with
          | none =>
            rw [AcquireOrStore_stored fuel key value s hd hm]
            exact counted_stored (wf_Loop hwf) hcL key value
          | some p =>
            obtain ⟨e, he, hf⟩ := hwf.map_ready key p hm
            obtain ⟨w, hv⟩ := wf_value hwf he hf
            rw [AcquireOrStore_loaded fuel key _ s p e w hd hm he hf hv]
            exact counted_acquired hcL (by rw [hL.2.1]; exact he)
      · show Uncalled (AcquireOrStore fuel key ⟨[], value⟩ s).2 _
        cases hd : s.died with
        | true =>
          rw [AcquireOrStore_died fuel key _ s hd]
          exact uncalled_of_eq hun' hL.2.2.2.1
        | false =>
          cases hm : s.m key with
          | none =>
            rw [AcquireOrStore_stored fuel key value s hd hm]
            exact uncalled_append hun' ⟨key, (Loop s).heap.length⟩
              (by show (Loop s).closures ++ _ = _; rw [hL.2.2.2.1])
          | some p =>
            obtain ⟨e, he, hf⟩ := hwf.map_ready key p hm
            obtain ⟨w, hv⟩ := wf_value hwf he hf
            rw [AcquireOrStore_loaded fuel key _ s p e w hd hm he hf hv]
            exact uncalled_append hun' ⟨key, p⟩
              (by show (Loop s).closures ++ _ = _; rw [hL.2.2.2.1])
    | acquire key =>
      have hops' : handleOps ops = true := hops
      have hnd' : (releaseIndices ops).Nodup := hnd
      have hun' : Uncalled s (releaseIndices ops) := hun
      refine ih _ (wf_step hwf fuel _) ?_ hops' hnd' ?_
      · show Counted (Acquire fuel key s).2
        cases hd : s.died with
        | true => rw [Acquire_died fuel key s hd]; exact hcL
        | false =>
          cases hm : s.m key with
          | none => rw [Acquire_missing fuel key s hd hm]; exact hcL
          | some p =>
            obtain ⟨e, he, hf⟩ := hwf.map_ready key p hm
            obtain ⟨w, hv⟩ := wf_value hwf he hf
            rw [Acquire_ready fuel key s p e w hd hm he hf hv]
            exact counted_acquired hcL (by rw [hL.2.1]; exact he)
      · show Uncalled (Acquire fuel key s).2 _
        cases hd : s.died with
        | true =>
          rw [Acquire_died fuel key s hd]
          exact uncalled_of_eq hun' hL.2.2.2.1
        | false =>
          cases hm : s.m key with
          | none =>
            rw [Acquire_missing fuel key s hd hm]
            exact uncalled_of_eq hun' hL.2.2.2.1
          | some p =>
            obtain ⟨e, he, hf⟩ := hwf.map_ready key p hm
            obtain ⟨w, hv⟩ := wf_value hwf he hf
            rw [Acquire_ready fuel key s p e w hd hm he hf hv]
            exact uncalled_append hun' ⟨key, p⟩
              (by show (Loop s).closures ++ _ = _; rw [hL.2.2.2.1])
    | callRelease i =>
      have hops' : handleOps ops = true := hops
      have hnd' : (i :: releaseIndices ops).Nodup := hnd
      have hun' : Uncalled s (i :: releaseIndices ops) := hun
      have hni : i ∉ releaseIndices ops := (List.nodup_cons.mp hnd').1
      have hrest : Uncalled s (releaseIndices ops) :=
        fun j hj => hun' j (List.mem_cons_of_mem i hj)
      refine ih _ (wf_step hwf fuel _) ?_ hops' (List.nodup_cons.mp hnd').2 ?_
      · show Counted (callRelease i s).2
        cases hi : s.closures[i]? with
        | none =>
          have : callRelease i s = (.ret (), s) := by simp [callRelease, hi]
          rw [this]
          exact hc
        | some x =>
          obtain ⟨r, n⟩ := x
          have hn : n = 0 := hun' i (List.mem_cons_self i _) r n hi
          subst hn
          exact counted_callRelease hwf hc i r hi
      · exact uncalled_callRelease i hni hrest
    | release key => simp [handleOps] at hops
    | tick =>
      have hops' : handleOps ops = true := hops
      have hnd' : (releaseIndices ops).Nodup := hnd
      have hun' : Uncalled s (releaseIndices ops) := hun
      exact ih _ (wf_step hwf fuel _) (counted_Tick hc) hops' hnd'
        (uncalled_of_eq hun' (closures_Tick s))
    | quit =>
      have hops' : handleOps ops = true := hops
      have hnd' : (releaseIndices ops).Nodup := hnd
      have hun' : Uncalled s (releaseIndices ops) := hun
      exact ih _ (wf_step hwf fuel _) (counted_Quit hc) hops' hnd'
        (uncalled_of_eq hun' (closures_Quit s))


theorem run_cons (fuel : Nat) (op : Op K V) (ops : List (Op K V)) (s : MamoMap K V) :
    run fuel (op :: ops) s = run fuel ops (step fuel op s) := rfl

theorem run_store_again (fuel : Nat) (key : K) (v : V) (p n : Nat) (s : MamoMap K V)
    (hwf : WF s) (halive : s.died = false) (hm : s.m key = some p) :
    (run fuel (List.replicate n (.acquireOrStore key v)) s).closures =
      s.closures ++ List.replicate n (⟨key, p⟩, 0) ∧
    (run fuel (List.replicate n (.acquireOrStore key v)) s).heap.length = s.heap.length := by
  induction n generalizing s with
  | zero => simp [run]
  | succ n ih =>
    have hL := Loop_frame s
    obtain ⟨e, he, hf⟩ := hwf.map_ready key p hm
    obtain ⟨w, hv⟩ := wf_value hwf he hf
    have hstep : step fuel (.acquireOrStore key v) s = acquired key p e (Loop s) := by
      show (AcquireOrStore fuel key ⟨[], v⟩ s).2 = _
      rw [AcquireOrStore_loaded fuel key _ s p e w halive hm he hf hv]
    have h1 := ih (step fuel (.acquireOrStore key v) s) (wf_step hwf fuel _)
      (by rw [hstep]; show (Loop s).died = false; rw [hL.2.2.1]; exact halive)
      (by rw [hstep]; show (Loop s).m key = some p; rw [hL.1]; exact hm)
    rw [List.replicate_succ, run_cons]
    refine ⟨?_, ?_⟩
    · rw [h1.1, hstep]
      show ((Loop s).closures ++ [_]) ++ _ = _
      rw [hL.2.2.2.1, List.replicate_succ]
      simp
    · rw [h1.2, hstep]
      show ((Loop s).heap.set _ _).length = _
      rw [List.length_set, hL.2.1]

theorem handleOps_replicate (key : K) (v : V) (n : Nat) :
    handleOps (List.replicate n (Op.acquireOrStore key v)) = true ∧
    releaseIndices (List.replicate n (Op.acquireOrStore key v)) = [] := by
  induction n with
  | zero => exact ⟨rfl, rfl⟩
  | succ n ih =>
    rw [List.replicate_succ]
    exact ih

/-- After 2^31 calls of `AcquireOrStore(1, ...)` on a new Map, none of the
2147483648 release closures returned has been called, and the `int32` field
`cnt` of the entry is -2147483648. -/
theorem cnt_wraps_around :
    outstanding 0 (run 0 (.acquireOrStore 1 7 :: List.replicate 2147483647 (.acquireOrStore 1 7))
      (NewMap 10 false : MamoMap Nat Nat)) = 2147483648 ∧
    ((run 0 (.acquireOrStore 1 7 :: List.replicate 2147483647 (.acquireOrStore 1 7))
      (NewMap 10 false : MamoMap Nat Nat)).heap[0]?).map (fun e => e.cnt)
        = some (-2147483648) := by
  have hwf0 : WF (NewMap 10 false : MamoMap Nat Nat) := wf_NewMap 10 false
  have hwf1 := wf_step hwf0 0 (.acquireOrStore 1 7)
  have hrun := run_store_again 0 1 7 0 2147483647
    (step 0 (.acquireOrStore 1 7) (NewMap 10 false : MamoMap Nat Nat)) hwf1 (by decide) (by decide)
  have hout : outstanding 0 (run 0 (.acquireOrStore 1 7 ::
      List.replicate 2147483647 (.acquireOrStore 1 7)) (NewMap 10 false : MamoMap Nat Nat))
      = 2147483648 := by
    unfold outstanding
    rw [run_cons, hrun.1, List.countP_append, List.countP_replicate]
    have h0 : (step 0 (.acquireOrStore 1 7) (NewMap 10 false : MamoMap Nat Nat)).closures
        = [(⟨1, 0⟩, 0)] := by decide
    rw [h0]
    simp
  refine ⟨hout, ?_⟩
  have hc : Counted (run 0 (.acquireOrStore 1 7 :: List.replicate 2147483647 (.acquireOrStore 1 7))
      (NewMap 10 false : MamoMap Nat Nat)) := by
    apply counted_run 0 _ _ hwf0
    · intro p e he
      simp [NewMap] at he
    · exact (handleOps_replicate 1 7 2147483648).1
    · have := (handleOps_replicate (1 : Nat) (7 : Nat) 2147483648).2
      rw [List.replicate_succ] at this
      rw [this]
      exact List.nodup_nil
    · intro i hi
      have := (handleOps_replicate (1 : Nat) (7 : Nat) 2147483648).2
      rw [List.replicate_succ] at this
      rw [this] at hi
      cases hi
  have hlen : (run 0 (.acquireOrStore 1 7 :: List.replicate 2147483647 (.acquireOrStore 1 7))
      (NewMap 10 false : MamoMap Nat Nat)).heap.length = 1 := by
    rw [run_cons, hrun.2]
    decide
  cases he : (run 0 (.acquireOrStore 1 7 :: List.replicate 2147483647 (.acquireOrStore 1 7))
      (NewMap 10 false : MamoMap Nat Nat)).heap[0]? with
  | none =>
    have := List.getElem?_eq_none_iff.mp he
    omega
  | some e =>
    have h1 := hc 0 e he
    rw [hout] at h1
    simp only [Option.map_some', h1]
    decide

/-- C4 (counterexample): the `cnt` of an entry is not always the number of
release closures returned and not yet called.  After 2^31 calls of
`AcquireOrStore(1, ...)` on a new Map none of the 2147483648 closures returned
has been called and the `int32` field `cnt` is -2147483648.  With a
`createValue` that calls `Release()` on its `Entry` handle,
`AcquireOrStore(1, createValue)` on a new Map returns a release closure while
`cnt` is 0, and calling that closure panics with "bad refcnt -1".  With a
`createValue` that calls `Acquire()` on its handle the call does not return,
whatever the number of iterations granted to the wait loop, and leaves `cnt`
at 2 with no closure returned. -/
theorem C4_cnt_is_not_the_number_of_closures :
    (outstanding 0 (run 0 (.acquireOrStore 1 7 :: List.replicate 2147483647 (.acquireOrStore 1 7))
      (NewMap 10 false : MamoMap Nat Nat)) = 2147483648 ∧
     ((run 0 (.acquireOrStore 1 7 :: List.replicate 2147483647 (.acquireOrStore 1 7))
      (NewMap 10 false : MamoMap Nat Nat)).heap[0]?).map (fun e => e.cnt)
        = some (-2147483648)) ∧
    ((AcquireOrStore 0 1 ⟨[.release], 7⟩ (NewMap 10 false : MamoMap Nat Nat)).1 =
       .ret (7, true, ⟨1, 0⟩) ∧
     (AcquireOrStore 0 1 ⟨[.release], 7⟩ (NewMap 10 false : MamoMap Nat Nat)).2.heap =
       [⟨0, 2, mefReady, some 7⟩] ∧
     outstanding 0 (AcquireOrStore 0 1 ⟨[.release], 7⟩ (NewMap 10 false : MamoMap Nat Nat)).2
       = 1 ∧
     (callRelease 0
       (AcquireOrStore 0 1 ⟨[.release], 7⟩ (NewMap 10 false : MamoMap Nat Nat)).2).1 =
       .panics (.badRefcnt (-1))) ∧
    (∀ fuel : Nat,
      (AcquireOrStore fuel 1 ⟨[.acquire], 7⟩ (NewMap 10 false : MamoMap Nat Nat)).1 = .blocks ∧
      (AcquireOrStore fuel 1 ⟨[.acquire], 7⟩ (NewMap 10 false : MamoMap Nat Nat)).2.heap =
        [⟨2, 0, mefInitializing, none⟩] ∧
      (AcquireOrStore fuel 1 ⟨[.acquire], 7⟩ (NewMap 10 false : MamoMap Nat Nat)).2.closures
        = []) := by
  refine ⟨cnt_wraps_around, by decide, ?_⟩
  intro fuel
  rw [AcquireOrStore_acquire_in_create fuel 1 [] 7 _ rfl rfl]
  exact ⟨rfl, rfl, rfl⟩

/-- C4 (amended): for every sequence of `AcquireOrStore` calls whose
`createValue` does not use its `Entry` handle and of `Acquire` calls,
interleaved with calls of the release closures they returned, each closure
being called at most once, and with ticks of the reaper timer and `Quit` in
between (no `Release(key)`), the `cnt` of every entry is, as an `int32`, the
number of release closures returned for it that have not been called yet; it
equals that number as long as fewer than 2^31 of them are outstanding.  A
failed `Acquire` (missing key) changes no entry and returns no closure. -/
theorem C4_cnt_counts_closures_not_yet_called (fuel : Nat) (ops : List (Op K V)) (ttl : Int)
    (fin : Bool) (hops : handleOps ops = true) (honce : (releaseIndices ops).Nodup)
    (s : MamoMap K V) (hs : s = run fuel ops (NewMap ttl fin))
    (p : Nat) (e : mamoEntry V) (he : s.heap[p]? = some e) :
    e.cnt = wrapInt32 (outstanding p s) ∧
    (outstanding p s < 2147483648 → e.cnt = outstanding p s) ∧
    (∀ (f : Nat) (key : K), s.m key = none →
      (Acquire f key s).2.heap = s.heap ∧ (Acquire f key s).2.closures = s.closures) := by
  have hc : Counted s := by
    rw [hs]
    apply counted_run fuel ops _ (wf_NewMap ttl fin) _ hops honce
    · intro i _ r n hn
      simp [NewMap] at hn
    · intro q x hx
      simp [NewMap] at hx
  have h1 := hc p e he
  refine ⟨h1, ?_, ?_⟩
  · intro hlt
    rw [h1]
    exact wrapInt32_small _ (by omega) (by omega)
  · intro f key hm
    have hL := Loop_frame s
    cases hd : s.died with
    | true =>
      rw [Acquire_died f key s hd]
      exact ⟨hL.2.1, hL.2.2.2.1⟩
    | false =>
      rw [Acquire_missing f key s hd hm]
      exact ⟨hL.2.1, hL.2.2.2.1⟩

/-- Witness of `C4_cnt_counts_closures_not_yet_called`: two references taken on
key 1, the first released. -/
theorem C4_cnt_counts_closures_not_yet_called_witness :
    handleOps ([.acquireOrStore 1 7, .acquire 1, .callRelease 0] : List (Op Nat Nat)) = true ∧
    (releaseIndices ([.acquireOrStore 1 7, .acquire 1, .callRelease 0] : List (Op Nat Nat))).Nodup ∧
    (run 0 [.acquireOrStore 1 7, .acquire 1, .callRelease 0]
      (NewMap 10 false : MamoMap Nat Nat)).heap[0]? = some ⟨1, 3, mefReady, some 7⟩ ∧
    (1 : Int) = wrapInt32 (outstanding 0 (run 0 [.acquireOrStore 1 7, .acquire 1, .callRelease 0]
      (NewMap 10 false : MamoMap Nat Nat))) :=
  ⟨by decide, by decide, by decide,
   (C4_cnt_counts_closures_not_yet_called 0 [.acquireOrStore 1 7, .acquire 1, .callRelease 0]
      10 false (by decide) (by decide)
      (run 0 [.acquireOrStore 1 7, .acquire 1, .callRelease 0] (NewMap 10 false : MamoMap Nat Nat))
      rfl 0 ⟨1, 3, mefReady, some 7⟩ (by decide)).1⟩

/-- The public `Release(key)` is not a release closure: after
`AcquireOrStore(1, ...)` and `Release(1)` the closure returned has not been
called and `cnt` is 0. -/
theorem release_by_key_takes_a_reference :
    (run 0 [.acquireOrStore 1 7, .release 1] (NewMap 10 false : MamoMap Nat Nat)).heap =
      [⟨0, 2, mefReady, some 7⟩] ∧
    outstanding 0 (run 0 [.acquireOrStore 1 7, .release 1] (NewMap 10 false : MamoMap Nat Nat))
      = 1 := by
  decide

/-! ## C10: the notifier is called on an idle Tracker only -/

theorem handle_eq (notifier : Nat → Bool) (fuel : Nat) (event : mamoEvent) (s : Mamo) :
    Mamo.handle notifier fuel event s =
      if event = meTick ∧ s.ver ≠ s.prevVer then none else some (s.handleOnce notifier event) := by
  induction fuel with
  | zero => rfl
  | succ n ih =>
    unfold Mamo.handle
    split
    · rename_i hc
      rw [ih, if_pos hc]
    · rfl

theorem inv_New (ttl : Int) : TrackerInv (New ttl) := by
  refine ⟨?_, ?_, ?_, ?_, ?_, ?_, ?_, ?_⟩ <;> simp [New, newTimer]

theorem inv_exit {s : Mamo} (h : TrackerInv s) (hs : s.loopOnce = true) : TrackerInv s.exit := by
  have hstop : s.exit.timer.inner = false := by
    simp only [Mamo.exit, timer.stop]
    split <;> simp_all
  refine ⟨h.range, ?_, ?_, ?_, ?_, ?_, h.counted, h.calls⟩
  · intro ha; rw [hstop] at ha; cases ha
  · intro ha; rw [hstop] at ha; cases ha
  · intro ha; rw [hstop] at ha; cases ha
  · intro ha; rw [hstop] at ha; cases ha
  · intro hl
    have : s.loopOnce = false := hl
    rw [hs] at this
    cases this

theorem stop_inner (t : timer) : t.stop.inner = false := by
  simp only [timer.stop]
  split <;> simp_all

theorem stop_start_inner (t : timer) : t.stop.start.inner = true := by
  simp [timer.start, stop_inner]

theorem inv_acquire {s : Mamo} (notifier : Nat → Bool) (h : TrackerInv s)
    (hs : s.loopOnce = true) :
    TrackerInv (Mamo.handleOnce notifier meAcquire { s with held := s.held + 1 }) := by
  have hc := h.counted hs
  have hr := h.range
  refine ⟨?_, ?_, ?_, ?_, ?_, ?_, ?_, h.calls⟩
  · simp only [Mamo.handleOnce, addInt32, wrapInt32]
    omega
  · intro ha
    simp only [Mamo.handleOnce, stop_inner] at ha
    cases ha
  · intro ha
    simp only [Mamo.handleOnce, stop_inner] at ha
    cases ha
  · intro ha
    simp only [Mamo.handleOnce, stop_inner] at ha
    cases ha
  · intro ha
    simp only [Mamo.handleOnce, stop_inner] at ha
    cases ha
  · intro hl
    have : s.loopOnce = false := hl
    rw [hs] at this
    cases this
  · intro _
    show addInt32 s.counter 1 = wrapInt32 (s.held + 1)
    rw [hc]
    exact wrapInt32_add s.held 1

theorem inv_release {s : Mamo} (notifier : Nat → Bool) (h : TrackerInv s)
    (hs : s.loopOnce = true) (hd : s.died = false) :
    TrackerInv (Mamo.handleOnce notifier meRelease { s with held := s.held - 1 }) := by
  have hr := h.range
  have hc := h.counted hs
  simp only [Mamo.handleOnce]
  by_cases hz : addInt32 s.counter (-1) = 0
  · rw [if_pos hz]
    refine ⟨?_, ?_, ?_, ?_, ?_, ?_, ?_, h.calls⟩
    · dsimp only
      simp only [addInt32, wrapInt32]
      omega
    · intro _
      exact ⟨hs, hd⟩
    · intro _
      dsimp only
      simp only [addInt32, wrapInt32] at hz ⊢
      omega
    · intro _ _
      exact ⟨hz, rfl⟩
    · intro _ hq
      cases hq
    · intro hl
      have : s.loopOnce = false := hl
      rw [hs] at this
      cases this
    · intro _
      dsimp only
      rw [hc]
      simp only [addInt32, wrapInt32]
      omega
  · rw [if_neg hz]
    refine ⟨?_, ?_, ?_, ?_, ?_, ?_, ?_, h.calls⟩
    · dsimp only
      simp only [addInt32, wrapInt32]
      omega
    · intro ha
      exact h.armed_alive ha
    · intro ha
      have hsum := h.armed_sum ha
      dsimp only
      simp only [addInt32, wrapInt32] at hsum ⊢
      omega
    · intro _ hq
      cases hq
    · intro _ _
      exact hz
    · intro hl
      have : s.loopOnce = false := hl
      rw [hs] at this
      cases this
    · intro _
      dsimp only
      rw [hc]
      simp only [addInt32, wrapInt32]
      omega

theorem inv_tick {s : Mamo} (notifier : Nat → Bool) (h : TrackerInv s)
    (ha : s.timer.inner = true) (hv : s.ver = s.prevVer) :
    TrackerInv (Mamo.handleOnce notifier meTick s) ∧ s.counter = 0 ∧ s.quiet = true := by
  have hr := h.range
  have hal := h.armed_alive ha
  have hsum := h.armed_sum ha
  have hc0 : s.counter = 0 := by
    simp only [wrapInt32] at hsum
    omega
  have hq : s.quiet = true := by
    cases hq : s.quiet with
    | true => rfl
    | false => exact absurd hc0 (h.armed_loud ha hq)
  have hcalls : ∀ c ∈ s.notified ++
      [({ counter := s.counter, ver := s.ver, prevVer := s.prevVer, held := s.held,
          quiet := s.quiet, answer := notifier s.notified.length } : NotifierCall)],
      c.counter = 0 ∧ c.quiet = true ∧ c.ver = c.prevVer := by
    intro c hcm
    rcases List.mem_append.mp hcm with h1 | h1
    · exact h.calls c h1
    · simp at h1
      subst h1
      exact ⟨hc0, hq, hv⟩
  refine ⟨?_, hc0, hq⟩
  simp only [Mamo.handleOnce]
  split
  · refine ⟨h.range.1, h.range.2.1, h.range.2.1⟩ |> fun hrange =>
      ⟨hrange, ?_, ?_, ?_, ?_, ?_, h.counted, hcalls⟩
    · intro hx
      have : s.timer.stop.inner = true := hx
      rw [stop_inner] at this
      cases this
    · intro hx
      have : s.timer.stop.inner = true := hx
      rw [stop_inner] at this
      cases this
    · intro hx
      have : s.timer.stop.inner = true := hx
      rw [stop_inner] at this
      cases this
    · intro hx
      have : s.timer.stop.inner = true := hx
      rw [stop_inner] at this
      cases this
    · intro hl
      have : s.loopOnce = false := hl
      rw [hal.1] at this
      cases this
  · exact inv_exit ⟨h.range, h.armed_alive, h.armed_sum, h.armed_quiet, h.armed_loud, h.seed,
      h.counted, hcalls⟩ hal.1

theorem inv_seed {s : Mamo} (notifier : Nat → Bool) (h : TrackerInv s)
    (hs : s.loopOnce = false) :
    TrackerInv (Mamo.handleOnce notifier meRelease { s with loopOnce := true }) ∧
    (Mamo.handleOnce notifier meRelease { s with loopOnce := true }).loopOnce = true ∧
    (Mamo.handleOnce notifier meRelease { s with loopOnce := true }).died = false ∧
    (Mamo.handleOnce notifier meRelease { s with loopOnce := true }).held = 0 ∧
    (Mamo.handleOnce notifier meRelease { s with loopOnce := true }).quiet = true ∧
    (Mamo.handleOnce notifier meRelease { s with loopOnce := true }).timer.inner = true ∧
    (Mamo.handleOnce notifier meRelease { s with loopOnce := true }).notified = s.notified := by
  obtain ⟨h1, h2, h3, h4, h5⟩ := h.seed hs
  have hz : addInt32 s.counter (-1) = 0 := by rw [h1]; decide
  simp only [Mamo.handleOnce]
  rw [if_pos hz]
  refine ⟨⟨?_, ?_, ?_, ?_, ?_, ?_, ?_, h.calls⟩, rfl, h5, h4, rfl, stop_start_inner _, rfl⟩
  · dsimp only
    simp only [addInt32, wrapInt32]
    omega
  · intro _
    exact ⟨rfl, h5⟩
  · intro _
    dsimp only
    simp only [addInt32, wrapInt32]
    omega
  · intro _ _
    exact ⟨hz, rfl⟩
  · intro _ hq
    cases hq
  · intro hl
    cases hl
  · intro _
    dsimp only
    rw [hz, h4]
    decide


theorem Loop_eq (notifier : Nat → Bool) (fuel : Nat) (s : Mamo) :
    s.Loop notifier fuel =
      some (if s.loopOnce = true then s
        else Mamo.handleOnce notifier meRelease { s with loopOnce := true }) := by
  unfold Mamo.Loop
  split
  · rfl
  · rw [handle_eq]
    simp

theorem inv_Loop {s : Mamo} (notifier : Nat → Bool) (h : TrackerInv s) :
    TrackerInv (if s.loopOnce = true then s
      else Mamo.handleOnce notifier meRelease { s with loopOnce := true }) ∧
    (if s.loopOnce = true then s
      else Mamo.handleOnce notifier meRelease { s with loopOnce := true }).loopOnce = true := by
  by_cases hs : s.loopOnce = true
  · rw [if_pos hs]
    exact ⟨h, hs⟩
  · rw [if_neg hs]
    have hs' : s.loopOnce = false := by simpa using hs
    exact ⟨(inv_seed notifier h hs').1, (inv_seed notifier h hs').2.1⟩

theorem send_eq (notifier : Nat → Bool) (fuel : Nat) (e : mamoEvent) (s s1 : Mamo)
    (hL : s.Loop notifier fuel = some s1) :
    s.send notifier fuel e =
      if s1.died = true then some (false, s1)
      else (Mamo.handle notifier fuel e
        { s1 with held := match e with
          | meAcquire => s1.held + 1
          | meRelease => s1.held - 1
          | _ => s1.held }).map fun s2 => (true, s2) := by
  unfold Mamo.send
  rw [hL]

theorem inv_step {s s' : Mamo} (notifier : Nat → Bool) (fuel : Nat) (op : TrackerOp)
    (h : TrackerInv s) (hstep : s.step notifier fuel op = some s') : TrackerInv s' := by
  have hL := Loop_eq notifier fuel s
  have hi := inv_Loop notifier h
  generalize hs1 : (if s.loopOnce = true then s
      else Mamo.handleOnce notifier meRelease { s with loopOnce := true }) = s1 at hL hi
  cases op with
  | acquire =>
    simp only [Mamo.step, Mamo.Acquire, send_eq notifier fuel meAcquire s s1 hL] at hstep
    by_cases hd : s1.died = true
    · simp [hd] at hstep
      subst hstep
      exact hi.1
    · rw [if_neg hd, handle_eq, if_neg (by simp)] at hstep
      simp only [Option.map_some', Option.some.injEq] at hstep
      subst hstep
      exact inv_acquire notifier hi.1 hi.2
  | release =>
    simp only [Mamo.step, Mamo.Release, send_eq notifier fuel meRelease s s1 hL] at hstep
    by_cases hd : s1.died = true
    · simp [hd] at hstep
      subst hstep
      exact hi.1
    · rw [if_neg hd, handle_eq, if_neg (by simp)] at hstep
      simp only [Option.map_some', Option.some.injEq] at hstep
      subst hstep
      exact inv_release notifier hi.1 hi.2 (by simpa using hd)
  | quit =>
    simp only [Mamo.step, Mamo.Quit, send_eq notifier fuel meQuit s s1 hL] at hstep
    by_cases hd : s1.died = true
    · simp [hd] at hstep
      subst hstep
      exact hi.1
    · rw [if_neg hd, handle_eq, if_neg (by simp)] at hstep
      simp only [Option.map_some', Option.some.injEq] at hstep
      subst hstep
      exact inv_exit hi.1 hi.2
  | loop =>
    simp only [Mamo.step, hL, Option.some.injEq] at hstep
    subst hstep
    exact hi.1
  | tick =>
    simp only [Mamo.step, Mamo.Tick] at hstep
    split at hstep
    · rename_i hc
      simp only [Bool.and_eq_true] at hc
      rw [handle_eq] at hstep
      by_cases hv : s.ver = s.prevVer
      · simp [hv] at hstep
        subst hstep
        exact (inv_tick notifier h hc.2 hv).1
      · simp [hv] at hstep
    · simp at hstep
      subst hstep
      exact h

theorem inv_run (notifier : Nat → Bool) (fuel : Nat) (ops : List TrackerOp) {s s' : Mamo}
    (h : TrackerInv s) (hrun : Mamo.run notifier fuel ops s = some s') : TrackerInv s' := by
  induction ops generalizing s with
  | nil =>
    simp [Mamo.run] at hrun
    subst hrun
    exact h
  | cons op ops ih =>
    simp only [Mamo.run] at hrun
    cases hst : s.step notifier fuel op with
    | none => rw [hst] at hrun; simp at hrun
    | some s1 =>
      rw [hst] at hrun
      exact ih (inv_step notifier fuel op h hst) hrun


theorem calm_armed {h : Nat} {s : Mamo} (hc : Calm h s) (hB : h < 4294967296)
    (ha : s.timer.inner = true) :
    s.counter = 0 ∧ s.ver = s.prevVer ∧ s.held = 0 ∧ h = 0 := by
  have hal := hc.inv.armed_alive ha
  have hq := hc.inv.armed_quiet ha (hc.armed ha)
  have hh := hc.held hal.2
  have hcnt := hc.inv.counted hal.1
  rw [hq.1, hh] at hcnt
  have h0 : h = 0 := by
    simp only [wrapInt32] at hcnt
    omega
  refine ⟨hq.1, hq.2, ?_, h0⟩
  rw [hh, h0]
  rfl

theorem calm_died {h h' : Nat} {s : Mamo} (hc : Calm h s) (hd : s.died = true) : Calm h' s :=
  ⟨hc.inv, fun hf => absurd (hd.symm.trans hf) (by decide), hc.armed, hc.calls⟩

theorem calm_Loop {h : Nat} {s : Mamo} (notifier : Nat → Bool) (hc : Calm h s) :
    Calm h (if s.loopOnce = true then s
      else Mamo.handleOnce notifier meRelease { s with loopOnce := true }) := by
  by_cases hs : s.loopOnce = true
  · rw [if_pos hs]
    exact hc
  · rw [if_neg hs]
    have hs' : s.loopOnce = false := by simpa using hs
    obtain ⟨h1, _, h3, h4, h5, _, h7⟩ := inv_seed notifier hc.inv hs'
    have hseed := hc.inv.seed hs'
    have hh := hc.held hseed.2.2.2.2
    refine ⟨h1, ?_, fun _ => h5, ?_⟩
    · intro _
      rw [h4, ← hh, hseed.2.2.2.1]
    · rw [h7]
      exact hc.calls

theorem calm_exit {h : Nat} {s : Mamo} (hc : Calm h s) (hs : s.loopOnce = true) :
    Calm h s.exit :=
  ⟨inv_exit hc.inv hs, fun hf => Bool.noConfusion (hf : true = false),
    fun ha => absurd ((stop_inner s.timer).symm.trans ha) (by decide), hc.calls⟩

theorem calm_step_acquire {h : Nat} {s : Mamo} (notifier : Nat → Bool) (fuel : Nat)
    (hc : Calm h s) :
    ∃ s', s.step notifier fuel .acquire = some s' ∧ Calm (h + 1) s' := by
  have hL := Loop_eq notifier fuel s
  have hi := inv_Loop notifier hc.inv
  have hcl := calm_Loop notifier hc
  generalize hs1 : (if s.loopOnce = true then s
      else Mamo.handleOnce notifier meRelease { s with loopOnce := true }) = s1 at hL hi hcl
  simp only [Mamo.step, Mamo.Acquire, send_eq notifier fuel meAcquire s s1 hL]
  by_cases hd : s1.died = true
  · rw [if_pos hd]
    exact ⟨s1, rfl, calm_died hcl hd⟩
  · rw [if_neg hd, handle_eq, if_neg (by simp)]
    refine ⟨_, rfl, inv_acquire notifier hi.1 hi.2, ?_, ?_, hcl.calls⟩
    · intro _
      show s1.held + 1 = ((h + 1 : Nat) : Int)
      rw [hcl.held (by simpa using hd)]
      push_cast
      rfl
    · intro ha
      have : s1.timer.stop.inner = true := ha
      rw [stop_inner] at this
      cases this

theorem calm_step_release {h : Nat} {s : Mamo} (notifier : Nat → Bool) (fuel : Nat)
    (hc : Calm (h + 1) s) (hB : h + 1 < 4294967296) :
    ∃ s', s.step notifier fuel .release = some s' ∧ Calm h s' := by
  have hL := Loop_eq notifier fuel s
  have hi := inv_Loop notifier hc.inv
  have hcl := calm_Loop notifier hc
  generalize hs1 : (if s.loopOnce = true then s
      else Mamo.handleOnce notifier meRelease { s with loopOnce := true }) = s1 at hL hi hcl
  simp only [Mamo.step, Mamo.Release, send_eq notifier fuel meRelease s s1 hL]
  by_cases hd : s1.died = true
  · rw [if_pos hd]
    exact ⟨s1, rfl, calm_died hcl hd⟩
  · rw [if_neg hd, handle_eq, if_neg (by simp)]
    have hd' : s1.died = false := by simpa using hd
    have hna : s1.timer.inner = false := by
      cases ha : s1.timer.inner with
      | false => rfl
      | true =>
        have := (calm_armed hcl hB ha).2.2.2
        omega
    refine ⟨_, rfl, inv_release notifier hi.1 hi.2 hd', ?_, ?_, ?_⟩
    · intro _
      have hheld : (Mamo.handleOnce notifier meRelease { s1 with held := s1.held - 1 }).held
          = s1.held - 1 := by
        simp only [Mamo.handleOnce]
        split <;> rfl
      rw [hheld, hcl.held hd']
      push_cast
      omega
    · intro ha
      simp only [Mamo.handleOnce] at ha ⊢
      split
      · rfl
      · rename_i hz
        rw [if_neg hz] at ha
        have : s1.timer.inner = true := ha
        rw [hna] at this
        cases this
    · have hn : (Mamo.handleOnce notifier meRelease { s1 with held := s1.held - 1 }).notified
          = s1.notified := by
        simp only [Mamo.handleOnce]
        split <;> rfl
      rw [hn]
      exact hcl.calls

theorem calm_step_quit {h : Nat} {s : Mamo} (notifier : Nat → Bool) (fuel : Nat)
    (hc : Calm h s) :
    ∃ s', s.step notifier fuel .quit = some s' ∧ Calm h s' := by
  have hL := Loop_eq notifier fuel s
  have hi := inv_Loop notifier hc.inv
  have hcl := calm_Loop notifier hc
  generalize hs1 : (if s.loopOnce = true then s
      else Mamo.handleOnce notifier meRelease { s with loopOnce := true }) = s1 at hL hi hcl
  simp only [Mamo.step, Mamo.Quit, send_eq notifier fuel meQuit s s1 hL]
  by_cases hd : s1.died = true
  · rw [if_pos hd]
    exact ⟨s1, rfl, hcl⟩
  · rw [if_neg hd, handle_eq, if_neg (by simp)]
    exact ⟨_, rfl, calm_exit hcl hi.2⟩

theorem calm_step_tick {h : Nat} {s : Mamo} (notifier : Nat → Bool) (fuel : Nat)
    (hc : Calm h s) (hB : h < 4294967296) :
    ∃ s', s.step notifier fuel .tick = some s' ∧ Calm h s' := by
  simp only [Mamo.step, Mamo.Tick]
  split
  · rename_i hcond
    simp only [Bool.and_eq_true] at hcond
    have ha := hcond.2
    have hal := hc.inv.armed_alive ha
    obtain ⟨h0, hv, hh, _⟩ := calm_armed hc hB ha
    rw [handle_eq, if_neg (by simp [hv])]
    have hit := (inv_tick notifier hc.inv ha hv).1
    have hcalls : ∀ c ∈ s.notified ++
        [({ counter := s.counter, ver := s.ver, prevVer := s.prevVer, held := s.held,
            quiet := s.quiet, answer := notifier s.notified.length } : NotifierCall)],
        c.held = 0 := by
      intro c hcm
      rcases List.mem_append.mp hcm with h1 | h1
      · exact hc.calls c h1
      · simp at h1
        subst h1
        exact hh
    refine ⟨_, rfl, hit, ?_, ?_, ?_⟩
    · intro _
      have : (Mamo.handleOnce notifier meTick s).held = s.held := by
        simp only [Mamo.handleOnce]
        split <;> rfl
      rw [this]
      exact hc.held hal.2
    · intro hx
      simp only [Mamo.handleOnce] at hx ⊢
      split
      · rfl
      · rename_i hans
        rw [if_neg hans] at hx
        have : s.timer.stop.inner = true := hx
        rw [stop_inner] at this
        cases this
    · simp only [Mamo.handleOnce]
      split
      · exact hcalls
      · exact hcalls
  · exact ⟨s, rfl, hc⟩

theorem calm_run (notifier : Nat → Bool) (fuel : Nat) (ops : List TrackerOp) (h : Nat) (s : Mamo)
    (hc : Calm h s) (hm : matched h ops = true) (hb : heldBelow 4294967296 h ops = true) :
    ∃ s' h', Mamo.run notifier fuel ops s = some s' ∧ Calm h' s' ∧ h' < 4294967296 := by
  induction ops generalizing h s with
  | nil =>
    refine ⟨s, h, rfl, hc, ?_⟩
    simpa [heldBelow] using hb
  | cons op ops ih =>
    cases op with
    | acquire =>
      simp only [matched] at hm
      simp only [heldBelow, Bool.and_eq_true, decide_eq_true_eq] at hb
      obtain ⟨s1, hs1, hc1⟩ := calm_step_acquire notifier fuel hc
      obtain ⟨s', h', hr, hc', hlt⟩ := ih (h + 1) s1 hc1 hm hb.2
      exact ⟨s', h', by simp only [Mamo.run, hs1]; exact hr, hc', hlt⟩
    | release =>
      cases h with
      | zero => simp [matched] at hm
      | succ h0 =>
        simp only [matched] at hm
        simp only [heldBelow, Bool.and_eq_true, decide_eq_true_eq] at hb
        obtain ⟨s1, hs1, hc1⟩ := calm_step_release notifier fuel hc hb.1
        obtain ⟨s', h', hr, hc', hlt⟩ := ih h0 s1 hc1 hm (by simpa using hb.2)
        exact ⟨s', h', by simp only [Mamo.run, hs1]; exact hr, hc', hlt⟩
    | quit =>
      simp only [matched] at hm
      simp only [heldBelow, Bool.and_eq_true, decide_eq_true_eq] at hb
      obtain ⟨s1, hs1, hc1⟩ := calm_step_quit notifier fuel hc
      obtain ⟨s', h', hr, hc', hlt⟩ := ih h s1 hc1 hm hb.2
      exact ⟨s', h', by simp only [Mamo.run, hs1]; exact hr, hc', hlt⟩
    | loop =>
      simp only [matched] at hm
      simp only [heldBelow, Bool.and_eq_true, decide_eq_true_eq] at hb
      have hL := Loop_eq notifier fuel s
      obtain ⟨s', h', hr, hc', hlt⟩ := ih h _ (calm_Loop notifier hc) hm hb.2
      exact ⟨s', h', by simp only [Mamo.run, Mamo.step, hL]; exact hr, hc', hlt⟩
    | tick =>
      simp only [matched] at hm
      simp only [heldBelow, Bool.and_eq_true, decide_eq_true_eq] at hb
      obtain ⟨s1, hs1, hc1⟩ := calm_step_tick notifier fuel hc hb.1
      obtain ⟨s', h', hr, hc', hlt⟩ := ih h s1 hc1 hm hb.2
      exact ⟨s', h', by simp only [Mamo.run, hs1]; exact hr, hc', hlt⟩

theorem calm_New (ttl : Int) : Calm 0 (New ttl) :=
  ⟨inv_New ttl, fun _ => rfl, fun ha => Bool.noConfusion (ha : false = true),
    fun c hc => by cases hc⟩

theorem step_afterAcquires (notifier : Nat → Bool) (fuel n : Nat) :
    (afterAcquires n).step notifier fuel .acquire = some (afterAcquires (n + 1)) := by
  have hL : (afterAcquires n).Loop notifier fuel = some (afterAcquires n) := rfl
  simp only [Mamo.step, Mamo.Acquire, send_eq notifier fuel meAcquire _ _ hL]
  rw [if_neg (by simp [afterAcquires]), handle_eq, if_neg (by simp)]
  simp only [Option.map_some', Option.some.injEq]
  simp only [Mamo.handleOnce, afterAcquires, addInt32, wrapInt32_add, timer.stop]
  simp only [Bool.false_eq_true, if_false, Nat.cast_add, Nat.cast_one]
  congr 1

theorem trackerRun_cons (notifier : Nat → Bool) (fuel : Nat) (op : TrackerOp)
    (ops : List TrackerOp) (s s1 : Mamo) (hstep : s.step notifier fuel op = some s1) :
    Mamo.run notifier fuel (op :: ops) s = Mamo.run notifier fuel ops s1 := by
  simp only [Mamo.run, hstep]

theorem matched_cons_acquire (h : Nat) (ops : List TrackerOp) :
    matched h (.acquire :: ops) = matched (h + 1) ops := by
  simp only [matched]

theorem run_acquires (notifier : Nat → Bool) (fuel : Nat) (n k : Nat) (rest : List TrackerOp) :
    Mamo.run notifier fuel (List.replicate n .acquire ++ rest) (afterAcquires k) =
      Mamo.run notifier fuel rest (afterAcquires (k + n)) := by
  induction n generalizing k with
  | zero => rfl
  | succ n ih =>
    rw [List.replicate_succ, List.cons_append,
      trackerRun_cons notifier fuel _ _ _ _ (step_afterAcquires notifier fuel k), ih (k + 1)]
    congr 2
    omega

theorem matched_acquires (h n : Nat) (rest : List TrackerOp) :
    matched h (List.replicate n .acquire ++ rest) = matched (h + n) rest := by
  induction n generalizing h with
  | zero => rfl
  | succ n ih =>
    rw [List.replicate_succ, List.cons_append, matched_cons_acquire, ih (h + 1)]
    congr 1
    omega

/-- C10 (counterexample): a Tracker handles 2^32 + 1 Acquires, every Release
below being matched.  After one Release `counter` is 0 as an `int32` and the
timer is armed; the tick then calls the notifier while 2^32 references are
held.  After a second Release instead, the timer is still armed with
`counter == -1` and `ver == 4` different from `prevVer == 3`. -/
theorem C10_notifier_called_while_references_are_held :
    matched 0 (.acquire :: (List.replicate 4294967296 .acquire ++ [.release, .tick])) = true ∧
    matched 0 (.acquire :: (List.replicate 4294967296 .acquire ++ [.release, .release])) = true ∧
    (Mamo.run (fun _ => true) 0
      (.acquire :: (List.replicate 4294967296 .acquire ++ [.release, .tick])) (New 100)).map
        (fun s => s.notified.map fun c => (c.counter, c.held)) = some [(0, 4294967296)] ∧
    (Mamo.run (fun _ => true) 0
      (.acquire :: (List.replicate 4294967296 .acquire ++ [.release, .release])) (New 100)).map
        (fun s => (s.timer.inner, s.counter, s.ver, s.prevVer)) = some (true, -1, 4, 3) := by
  have h0 : (New 100).step (fun _ => true) 0 .acquire = some (afterAcquires 0) := by decide
  refine ⟨?_, ?_, ?_, ?_⟩
  · rw [matched_cons_acquire, matched_acquires]
    decide
  · rw [matched_cons_acquire, matched_acquires]
    decide
  · rw [trackerRun_cons _ _ _ _ _ _ h0, run_acquires]
    decide
  · rw [trackerRun_cons _ _ _ _ _ _ h0, run_acquires]
    decide

/-- C10 (amended): for every sequence of Tracker events, whenever the loop
calls the notifier, `counter == 0`, `ver == prevVer` and no Acquire or Release
has been handled since the Release that brought `counter` to zero; `counter`
is the `int32` value of the number of references held.  For every sequence in
which every Release is matched by an earlier Acquire and fewer than 2^32
references are held at any time (ticks being received only while the timer is
armed), the loop handles every event, the notifier is never called while a
reference is held, and the timer is armed only in states with `counter == 0`,
`ver == prevVer` and no reference held. -/
theorem C10_notifier_only_when_idle (notifier : Nat → Bool) (fuel : Nat) (ops : List TrackerOp)
    (ttl : Int) :
    (∀ s, Mamo.run notifier fuel ops (New ttl) = some s →
      (∀ c ∈ s.notified, c.counter = 0 ∧ c.quiet = true ∧ c.ver = c.prevVer) ∧
      (s.loopOnce = true → s.counter = wrapInt32 s.held)) ∧
    (matched 0 ops = true → heldBelow 4294967296 0 ops = true →
      ∃ s, Mamo.run notifier fuel ops (New ttl) = some s ∧
        (∀ c ∈ s.notified, c.held = 0) ∧
        (s.timer.inner = true →
          s.counter = 0 ∧ s.ver = s.prevVer ∧ s.held = 0 ∧ s.quiet = true)) := by
  constructor
  · intro s hrun
    have hi := inv_run notifier fuel ops (inv_New ttl) hrun
    exact ⟨hi.calls, hi.counted⟩
  · intro hm hb
    obtain ⟨s, h', hrun, hc, hlt⟩ := calm_run notifier fuel ops 0 (New ttl) (calm_New ttl) hm hb
    refine ⟨s, hrun, hc.calls, ?_⟩
    intro ha
    obtain ⟨h1, h2, h3, _⟩ := calm_armed hc hlt ha
    exact ⟨h1, h2, h3, hc.armed ha⟩

/-- Witness of `C10_notifier_only_when_idle`: the sequence of the test
`TestMamo2`, with a notifier that answers true. -/
theorem C10_notifier_only_when_idle_witness :
    matched 0 [.loop, .acquire, .release, .tick] = true ∧
    heldBelow 4294967296 0 [.loop, .acquire, .release, .tick] = true ∧
    ∃ s, Mamo.run (fun _ => true) 0 [.loop, .acquire, .release, .tick] (New 100) = some s ∧
      (∀ c ∈ s.notified, c.held = 0) ∧
      (s.timer.inner = true →
        s.counter = 0 ∧ s.ver = s.prevVer ∧ s.held = 0 ∧ s.quiet = true) :=
  ⟨by decide, by decide,
   (C10_notifier_only_when_idle (fun _ => true) 0 [.loop, .acquire, .release, .tick] 100).2
     (by decide) (by decide)⟩

theorem Acquire_alive (notifier : Nat → Bool) (fuel : Nat) (s : Mamo)
    (hl : s.loopOnce = true) (hd : s.died = false) :
    s.Acquire notifier fuel =
      some (true, Mamo.handleOnce notifier meAcquire { s with held := s.held + 1 }) := by
  have hL := Loop_eq notifier fuel s
  rw [if_pos hl] at hL
  rw [Mamo.Acquire, send_eq notifier fuel meAcquire s s hL, if_neg (by simp [hd]), handle_eq,
    if_neg (by simp)]
  rfl

theorem Release_alive (notifier : Nat → Bool) (fuel : Nat) (s : Mamo)
    (hl : s.loopOnce = true) (hd : s.died = false) :
    s.Release notifier fuel =
      some (true, Mamo.handleOnce notifier meRelease { s with held := s.held - 1 }) := by
  have hL := Loop_eq notifier fuel s
  rw [if_pos hl] at hL
  rw [Mamo.Release, send_eq notifier fuel meRelease s s hL, if_neg (by simp [hd]), handle_eq,
    if_neg (by simp)]
  rfl

theorem Tick_armed (notifier : Nat → Bool) (fuel : Nat) (s : Mamo)
    (hl : s.loopOnce = true) (hd : s.died = false) (ha : s.timer.inner = true)
    (hv : s.ver = s.prevVer) :
    s.Tick notifier fuel = some (Mamo.handleOnce notifier meTick s) := by
  simp [Mamo.Tick, hl, hd, ha, handle_eq, hv]

theorem send_died (notifier : Nat → Bool) (fuel : Nat) (e : mamoEvent) (s : Mamo)
    (hl : s.loopOnce = true) (hd : s.died = true) :
    s.send notifier fuel e = some (false, s) := by
  have hL := Loop_eq notifier fuel s
  rw [if_pos hl] at hL
  rw [send_eq notifier fuel e s s hL, if_pos hd]

theorem run_died (notifier : Nat → Bool) (fuel : Nat) (ops : List TrackerOp) (s : Mamo)
    (hl : s.loopOnce = true) (hd : s.died = true) :
    Mamo.run notifier fuel ops s = some s := by
  induction ops with
  | nil => rfl
  | cons op ops ih =>
    have hstep : s.step notifier fuel op = some s := by
      cases op with
      | acquire => simp [Mamo.step, Mamo.Acquire, send_died notifier fuel _ s hl hd]
      | release => simp [Mamo.step, Mamo.Release, send_died notifier fuel _ s hl hd]
      | quit => simp [Mamo.step, Mamo.Quit, send_died notifier fuel _ s hl hd]
      | loop =>
        have hL := Loop_eq notifier fuel s
        rw [if_pos hl] at hL
        exact hL
      | tick => simp [Mamo.step, Mamo.Tick, hd]
    rw [trackerRun_cons _ _ _ _ _ _ hstep, ih]

/-- What a Tick does to an armed, quiet Tracker: one more notifier call; death
if the notifier answers true, a disarmed timer and `prevVer == ver` otherwise. -/
theorem tick_outcome (notifier : Nat → Bool) (s : Mamo) (hl : s.loopOnce = true) :
    (Mamo.handleOnce notifier meTick s).notified.length = s.notified.length + 1 ∧
    (Mamo.handleOnce notifier meTick s).loopOnce = true ∧
    (notifier s.notified.length = true → (Mamo.handleOnce notifier meTick s).died = true) ∧
    (notifier s.notified.length = false →
      (Mamo.handleOnce notifier meTick s).died = s.died ∧
      (Mamo.handleOnce notifier meTick s).timer.inner = false ∧
      (Mamo.handleOnce notifier meTick s).prevVer = (Mamo.handleOnce notifier meTick s).ver) := by
  cases h : notifier s.notified.length <;>
    simp [Mamo.handleOnce, h, Mamo.exit, stop_inner, hl]

/-! ## C11: the Tick after an Acquire and its Release -/

/-- C11: for every Tracker state `s` reached by a sequence of events, a user
Acquire followed by its Release are both answered, without a notifier call; if
the loop had not been started, or was alive with `counter == 0`, the timer is
armed afterwards.  Whenever the timer is armed after the two calls, the next
Tick calls the notifier exactly once.  If the notifier answers true the loop
has died: every later Acquire and Release returns false, and no sequence of
later events changes the state, so the notifier is not called again.  If it
answers false the loop is alive, the timer is disarmed (no further Tick is
received) and `prevVer == ver`. -/
theorem C11_tick_after_acquire_and_release (notifier : Nat → Bool) (fuel : Nat) (ttl : Int)
    (ops : List TrackerOp) (s : Mamo) (hrun : Mamo.run notifier fuel ops (New ttl) = some s) :
    ∃ b1 s1 b2 s2, s.Acquire notifier fuel = some (b1, s1) ∧
      s1.Release notifier fuel = some (b2, s2) ∧ s2.notified = s.notified ∧
      ((s.loopOnce = false ∨ (s.died = false ∧ s.counter = 0)) → s2.timer.inner = true) ∧
      (s2.timer.inner = true →
        ∃ s3, s2.Tick notifier fuel = some s3 ∧
          s3.notified.length = s2.notified.length + 1 ∧
          (notifier s2.notified.length = true →
            s3.died = true ∧
            s3.Acquire notifier fuel = some (false, s3) ∧
            s3.Release notifier fuel = some (false, s3) ∧
            ∀ later, Mamo.run notifier fuel later s3 = some s3) ∧
          (notifier s2.notified.length = false →
            s3.died = false ∧ s3.timer.inner = false ∧ s3.prevVer = s3.ver ∧
            s3.Tick notifier fuel = some s3)) := by
  have hinv := inv_run notifier fuel ops (inv_New ttl) hrun
  have hL := Loop_eq notifier fuel s
  have hi := inv_Loop notifier hinv
  have hnot : (if s.loopOnce = true then s
      else Mamo.handleOnce notifier meRelease { s with loopOnce := true }).notified = s.notified := by
    split
    · rfl
    · simp only [Mamo.handleOnce]
      split <;> rfl
  have hzero : (s.loopOnce = false ∨ (s.died = false ∧ s.counter = 0)) →
      (if s.loopOnce = true then s
        else Mamo.handleOnce notifier meRelease { s with loopOnce := true }).counter = 0 ∧
      (if s.loopOnce = true then s
        else Mamo.handleOnce notifier meRelease { s with loopOnce := true }).died = false := by
    intro h
    by_cases hl : s.loopOnce = true
    · rw [if_pos hl]
      rcases h with h | h
      · rw [hl] at h; cases h
      · exact ⟨h.2, h.1⟩
    · rw [if_neg hl]
      have hs := hinv.seed (by simpa using hl)
      simp [Mamo.handleOnce, hs.1, hs.2.2.2.2, addInt32, wrapInt32]
  generalize hs1 : (if s.loopOnce = true then s
      else Mamo.handleOnce notifier meRelease { s with loopOnce := true }) = sL
    at hL hi hnot hzero
  by_cases hd : sL.died = true
  · have hA : s.Acquire notifier fuel = some (false, sL) := by
      rw [Mamo.Acquire, send_eq notifier fuel meAcquire s sL hL, if_pos hd]
    refine ⟨false, sL, false, sL, hA, send_died notifier fuel meRelease sL hi.2 hd, hnot, ?_, ?_⟩
    · intro h
      have := (hzero h).2
      rw [hd] at this
      cases this
    · intro ha
      have := (hi.1.armed_alive ha).2
      rw [hd] at this
      cases this
  · have hd' : sL.died = false := by simpa using hd
    have hA : s.Acquire notifier fuel =
        some (true, Mamo.handleOnce notifier meAcquire { sL with held := sL.held + 1 }) := by
      rw [Mamo.Acquire, send_eq notifier fuel meAcquire s sL hL, if_neg hd, handle_eq,
        if_neg (by simp)]
      rfl
    generalize hsA : Mamo.handleOnce notifier meAcquire { sL with held := sL.held + 1 } = sA
      at hA
    have hAl : sA.loopOnce = true := by rw [← hsA]; simpa [Mamo.handleOnce] using hi.2
    have hAd : sA.died = false := by rw [← hsA]; simpa [Mamo.handleOnce] using hd'
    have hAt : sA.timer.inner = false := by rw [← hsA]; simp [Mamo.handleOnce, stop_inner]
    have hAn : sA.notified = sL.notified := by rw [← hsA]; simp [Mamo.handleOnce]
    have hAc : sA.counter = addInt32 sL.counter 1 := by rw [← hsA]; simp [Mamo.handleOnce]
    have hR := Release_alive notifier fuel sA hAl hAd
    generalize hsR : Mamo.handleOnce notifier meRelease { sA with held := sA.held - 1 } = sR
      at hR
    have hRl : sR.loopOnce = true := by
      rw [← hsR]; simp only [Mamo.handleOnce]; split <;> exact hAl
    have hRd : sR.died = false := by
      rw [← hsR]; simp only [Mamo.handleOnce]; split <;> exact hAd
    have hRn : sR.notified = sA.notified := by
      rw [← hsR]; simp only [Mamo.handleOnce]; split <;> rfl
    have hRv : sR.timer.inner = true → sR.ver = sR.prevVer := by
      rw [← hsR]; simp only [Mamo.handleOnce]
      split
      · intro _; rfl
      · intro h
        rw [hAt] at h
        cases h
    have hRz : addInt32 sA.counter (-1) = 0 → sR.timer.inner = true := by
      intro h
      rw [← hsR]; simp only [Mamo.handleOnce]
      rw [if_pos h]
      exact stop_start_inner _
    refine ⟨true, sA, true, sR, hA, hR, by rw [hRn, hAn, hnot], ?_, ?_⟩
    · intro h
      apply hRz
      rw [hAc, (hzero h).1]
      decide
    · intro ha
      have ho := tick_outcome notifier sR hRl
      refine ⟨_, Tick_armed notifier fuel sR hRl hRd ha (hRv ha), ho.1, ?_, ?_⟩
      · intro hans
        have hdd := ho.2.2.1 hans
        exact ⟨hdd, send_died notifier fuel meAcquire _ ho.2.1 hdd,
          send_died notifier fuel meRelease _ ho.2.1 hdd,
          fun later => run_died notifier fuel later _ ho.2.1 hdd⟩
      · intro hans
        have h3 := ho.2.2.2 hans
        refine ⟨h3.1.trans hRd, h3.2.1, h3.2.2, ?_⟩
        simp [Mamo.Tick, h3.2.1]

/-- Witness of `C11_tick_after_acquire_and_release`: the new Tracker of the
test `TestMamo`, whose notifier answers true. -/
theorem C11_tick_after_acquire_and_release_witness :
    Mamo.run (fun _ => true) 0 [] (New 100) = some (New 100) ∧
    ∃ b1 s1 b2 s2, (New 100).Acquire (fun _ => true) 0 = some (b1, s1) ∧
      s1.Release (fun _ => true) 0 = some (b2, s2) ∧ s2.notified = (New 100).notified ∧
      (((New 100).loopOnce = false ∨ ((New 100).died = false ∧ (New 100).counter = 0)) →
        s2.timer.inner = true) ∧
      (s2.timer.inner = true →
        ∃ s3, s2.Tick (fun _ => true) 0 = some s3 ∧
          s3.notified.length = s2.notified.length + 1 ∧
          ((fun _ => true) s2.notified.length = true →
            s3.died = true ∧
            s3.Acquire (fun _ => true) 0 = some (false, s3) ∧
            s3.Release (fun _ => true) 0 = some (false, s3) ∧
            ∀ later, Mamo.run (fun _ => true) 0 later s3 = some s3) ∧
          ((fun _ => true) s2.notified.length = false →
            s3.died = false ∧ s3.timer.inner = false ∧ s3.prevVer = s3.ver ∧
            s3.Tick (fun _ => true) 0 = some s3)) :=
  ⟨rfl, C11_tick_after_acquire_and_release (fun _ => true) 0 100 [] (New 100) rfl⟩

/-! ## C12: the seed of the Tracker loop -/

/-- C12 (counterexample): the Tracker with ttl 100 whose loop is started and
which receives no user event has its timer armed (the initial Release brought
`counter` from 1 to 0), and the first Tick calls the notifier; the first user
Acquire raises `counter` to 1, not 2, and its Release lowers it to 0. -/
theorem C12_seed_release_arms_the_timer :
    (∃ s, Mamo.run (fun _ => false) 0 [.loop] (New 100) = some s ∧
      s.counter = 0 ∧ s.timer.inner = true) ∧
    (∃ s, Mamo.run (fun _ => false) 0 [.loop, .tick] (New 100) = some s ∧
      s.notified.length = 1) ∧
    (∃ s, Mamo.run (fun _ => false) 0 [.loop, .acquire] (New 100) = some s ∧ s.counter = 1) ∧
    (∃ s, Mamo.run (fun _ => false) 0 [.loop, .acquire, .release] (New 100) = some s ∧
      s.counter = 0) := by
  refine ⟨⟨_, rfl, by decide, by decide⟩, ⟨_, rfl, by decide⟩, ⟨_, rfl, by decide⟩,
    ⟨_, rfl, by decide⟩⟩

/-- C12 (amended): starting from the seed state (`counter` 1, `ver` 0,
`prevVer` 0, timer disarmed), processing the initial synthetic Release lowers
`counter` to 0, sets `prevVer` to the new `ver` 1 and arms the timer, so a
Tracker whose loop is started but which receives no user event calls the
notifier at the first Tick; the first user Acquire raises `counter` to 1 and
disarms the timer, and its matching Release lowers `counter` to 0 and arms the
timer again. -/
theorem C12_seed_release_brings_counter_to_zero (notifier : Nat → Bool) (fuel : Nat) (ttl : Int) :
    (New ttl).counter = 1 ∧ (New ttl).ver = 0 ∧ (New ttl).prevVer = 0 ∧
    (New ttl).timer.inner = false ∧
    ∃ s0, (New ttl).Loop notifier fuel = some s0 ∧
      s0.counter = 0 ∧ s0.ver = 1 ∧ s0.prevVer = 1 ∧ s0.timer.inner = true ∧
      s0.notified = [] ∧
      (∃ s1, s0.Tick notifier fuel = some s1 ∧ s1.notified.length = 1) ∧
      ∃ s1, s0.Acquire notifier fuel = some (true, s1) ∧
        s1.counter = 1 ∧ s1.timer.inner = false ∧
        ∃ s2, s1.Release notifier fuel = some (true, s2) ∧
          s2.counter = 0 ∧ s2.timer.inner = true := by
  refine ⟨rfl, rfl, rfl, rfl, _, Loop_eq notifier fuel (New ttl), ?_⟩
  have hseed : (if (New ttl).loopOnce = true then New ttl
      else Mamo.handleOnce notifier meRelease { New ttl with loopOnce := true }) =
      { counter := 0, ver := 1, prevVer := 1, timer := { inner := true, duration := ttl },
        ttl := ttl, loopOnce := true, died := false, held := 0, quiet := true,
        notified := [] } := by
    simp [New, Mamo.handleOnce, newTimer, timer.start, timer.stop, addInt32, wrapInt32]
  rw [hseed]
  refine ⟨rfl, rfl, rfl, rfl, rfl, ⟨_, Tick_armed notifier fuel _ rfl rfl rfl rfl, ?_⟩,
    _, Acquire_alive notifier fuel _ rfl rfl, ?_, ?_,
    _, Release_alive notifier fuel _ rfl rfl, ?_, ?_⟩
  · cases h : notifier 0 <;> simp [Mamo.handleOnce, h, Mamo.exit]
  · simp only [Mamo.handleOnce, addInt32, wrapInt32]
    decide
  · simp [Mamo.handleOnce, timer.stop]
  · simp [Mamo.handleOnce, addInt32, wrapInt32]
  · simp [Mamo.handleOnce, addInt32, wrapInt32, timer.stop, timer.start]

/-! ## C19: a Tick that finds `ver != prevVer` -/

/-- C19 (divergence of the code): on a Tick with `ver != prevVer` the loop
executes `continue LOOP`, which starts the next pass of the `for` with the same
event and never reaches the `select`: for every bound on the number of passes
no next event is waited for.  With ttl 100, after `Loop()` and one `Release()`
without Acquire the timer is armed with `ver` 2 and `prevVer` 1, and from the
Tick on no event is handled any more, although the notifier has not been
called and the loop has not died. -/
theorem C19_skipped_tick_never_reaches_select (notifier : Nat → Bool) (fuel : Nat) :
    (∀ s : Mamo, s.ver ≠ s.prevVer → Mamo.handle notifier fuel meTick s = none) ∧
    (∃ s, Mamo.run notifier fuel [.loop, .release] (New 100) = some s ∧
      s.ver = 2 ∧ s.prevVer = 1 ∧ s.timer.inner = true ∧ s.died = false ∧ s.notified = []) ∧
    Mamo.run notifier fuel [.loop, .release, .tick] (New 100) = none ∧
    Mamo.run notifier fuel [.loop, .release, .tick, .acquire] (New 100) = none ∧
    Mamo.run notifier fuel [.loop, .release, .tick, .release] (New 100) = none ∧
    Mamo.run notifier fuel [.loop, .release, .tick, .quit] (New 100) = none := by
  have h0 : Mamo.step notifier fuel .loop (New 100) = some
      { counter := 0, ver := 1, prevVer := 1, timer := { inner := true, duration := 100 },
        ttl := 100, loopOnce := true, died := false, held := 0, quiet := true,
        notified := [] } := by
    simp only [Mamo.step, Loop_eq]
    rfl
  have h1 : Mamo.step notifier fuel .release
      { counter := 0, ver := 1, prevVer := 1, timer := { inner := true, duration := 100 },
        ttl := 100, loopOnce := true, died := false, held := 0, quiet := true,
        notified := [] } = some
      { counter := -1, ver := 2, prevVer := 1, timer := { inner := true, duration := 100 },
        ttl := 100, loopOnce := true, died := false, held := -1, quiet := false,
        notified := [] } := by
    rw [Mamo.step, Release_alive notifier fuel _ (by rfl) (by rfl)]
    rfl
  have h2 : Mamo.step notifier fuel .tick
      { counter := -1, ver := 2, prevVer := 1, timer := { inner := true, duration := 100 },
        ttl := 100, loopOnce := true, died := false, held := -1, quiet := false,
        notified := [] } = none := by
    simp [Mamo.step, Mamo.Tick, handle_eq]
  refine ⟨?_, ?_, ?_, ?_, ?_, ?_⟩
  · intro s hs
    rw [handle_eq, if_pos ⟨rfl, hs⟩]
  · rw [trackerRun_cons _ _ _ _ _ _ h0, trackerRun_cons _ _ _ _ _ _ h1]
    exact ⟨_, rfl, rfl, rfl, rfl, rfl, rfl⟩
  all_goals
    rw [trackerRun_cons _ _ _ _ _ _ h0, trackerRun_cons _ _ _ _ _ _ h1]
    simp only [Mamo.run, h2]

/-! ## C18: when `tryDelete` destroys an entry -/

/-- C18: for every state, key, allocated entry `p` with fields `e` and observed
version `ver`: if at the call `cnt == 0`, `e.ver == ver` and the flag is
`mefReady`, `tryDelete(key, p, ver)` destroys the entry: the finalizer is run
on the value iff the value type is finalizable (and a value is present), the
value is cleared, `key` is removed from the map, the flag is `mefDeleted`, `cnt`
and `ver` stay, and no other entry and no other key is touched.  In every other
case the whole state, with the entry's `cnt`, `ver`, `flag` and `value` and the
map, is unchanged.  So the call records a deletion iff the three conditions
hold, and it never leaves the flag at `mefDeleting` unless it found it there. -/
theorem C18_tryDelete_destroys_iff_untouched_and_ready (key : K) (p ver : Nat)
    (s : MamoMap K V) (e : mamoEntry V) (he : s.heap[p]? = some e) :
    (e.cnt = 0 ∧ e.ver = ver ∧ e.flag = mefReady →
      (tryDelete key p ver s).heap[p]? = some { e with flag := mefDeleted, value := none } ∧
      (tryDelete key p ver s).m key = none ∧
      (∀ k, k ≠ key → (tryDelete key p ver s).m k = s.m k) ∧
      (∀ q, q ≠ p → (tryDelete key p ver s).heap[q]? = s.heap[q]?) ∧
      (tryDelete key p ver s).finalized =
        (if s.isFinalizable = true ∧ e.value.isSome = true then
          s.finalized ++ [(p, { e with flag := mefDeleting })]
        else s.finalized)) ∧
    (¬ (e.cnt = 0 ∧ e.ver = ver ∧ e.flag = mefReady) → tryDelete key p ver s = s) ∧
    ((tryDelete key p ver s).deleted.length = s.deleted.length + 1 ↔
      (e.cnt = 0 ∧ e.ver = ver ∧ e.flag = mefReady)) ∧
    (∀ e', (tryDelete key p ver s).heap[p]? = some e' → e'.flag = mefDeleting →
      e.flag = mefDeleting) := by
  by_cases hc : e.cnt = 0 ∧ e.ver = ver ∧ e.flag = mefReady
  · have hd := tryDelete_destroy key p ver s e he hc.1 hc.2.1 hc.2.2
    have hlt : p < s.heap.length := (List.getElem?_eq_some.mp he).1
    have hp : (tryDelete key p ver s).heap[p]? =
        some { e with flag := mefDeleted, value := none } := by
      rw [hd]
      simp [destroy, List.getElem?_set, hlt]
    refine ⟨fun _ => ⟨hp, ?_, ?_, ?_, ?_⟩, fun hn => absurd hc hn, ?_, ?_⟩
    · rw [hd]; simp [destroy]
    · intro k hk
      rw [hd]; simp [destroy, hk]
    · intro q hq
      rw [hd]
      simp only [destroy, List.getElem?_set]
      rw [if_neg (fun h => hq h.symm)]
    · rw [hd]; rfl
    · rw [hd]
      simp [destroy, hc]
    · intro e' he' hf
      rw [hp] at he'
      cases he'
      cases hf
  · have hs := tryDelete_skip key p ver s e he hc
    refine ⟨fun h => absurd h hc, fun _ => hs, ?_, ?_⟩
    · rw [hs]
      simp [hc]
    · intro e' he' hf
      rw [hs, he] at he'
      cases he'
      exact hf

/-- Witness of `C18_tryDelete_destroys_iff_untouched_and_ready`: the map with
ttl 100 after `AcquireOrStore(1, ...)` and the call of the returned closure;
the entry has `cnt` 0 and `ver` 2, and `tryDelete(1, entry, 2)` destroys it. -/
theorem C18_tryDelete_destroys_iff_untouched_and_ready_witness :
    (run 0 [.acquireOrStore 1 7, .callRelease 0] (NewMap 100 true : MamoMap Nat Nat)).heap[0]? =
      some { cnt := 0, ver := 2, flag := mefReady, value := some 7 } ∧
    (tryDelete 1 0 2
      (run 0 [.acquireOrStore 1 7, .callRelease 0] (NewMap 100 true : MamoMap Nat Nat))).heap[0]? =
      some { cnt := 0, ver := 2, flag := mefDeleted, value := none } :=
  ⟨by decide,
   ((C18_tryDelete_destroys_iff_untouched_and_ready 1 0 2
      (run 0 [.acquireOrStore 1 7, .callRelease 0] (NewMap 100 true : MamoMap Nat Nat))
      { cnt := 0, ver := 2, flag := mefReady, value := some 7 } (by decide)).1
      ⟨rfl, rfl, rfl⟩).1⟩

/-! ## C13: a create callback that panics -/

theorem attemptLoadState_panic (createValue : Nat → CreateOutcome V) (ip n : Nat) (cr : Bool)
    (s : MamoMapEx K V) (item : itemEx V) (pv : Nat) (hi : s.items[ip]? = some item)
    (hs : item.state = .iesUninitialized) (hc : createValue n = .panic pv) :
    attemptLoadState createValue ip n cr s =
      (none, n + 1, cr,
        { s with
          items := s.items.set ip { item with call := some s.calls.length }
          calls := s.calls ++
            [{ done := true, value := none, ver := item.ver, err := some (.panicError pv) }] }) := by
  simp [attemptLoadState, switchLoadState, awaitCall, hi, hs, itemEx_do, hc]

theorem loadState_panics (createValue : Nat → CreateOutcome V) (pv : Nat)
    (hc : ∀ n, createValue n = .panic pv) (ip fuel : Nat) :
    ∀ (n : Nat) (cr : Bool) (s : MamoMapEx K V) (item : itemEx V), s.items[ip]? = some item →
      item.state = .iesUninitialized →
      (loadState createValue ip fuel n cr s).1 = .blocks ∧
      (loadState createValue ip fuel n cr s).2.calls.length = s.calls.length + (fuel + 1) ∧
      (loadState createValue ip fuel n cr s).2.m = s.m := by
  induction fuel with
  | zero =>
    intro n cr s item hi hs
    simp [loadState, attemptLoadState_panic createValue ip n cr s item pv hi hs (hc n)]
  | succ fuel ih =>
    intro n cr s item hi hs
    have hlt : ip < s.items.length := (List.getElem?_eq_some.mp hi).1
    simp only [loadState, attemptLoadState_panic createValue ip n cr s item pv hi hs (hc n)]
    have := ih (n + 1) cr
      { s with
        items := s.items.set ip { item with call := some s.calls.length }
        calls := s.calls ++
          [{ done := true, value := none, ver := item.ver, err := some (.panicError pv) }] }
      { item with call := some s.calls.length } (by simp [List.getElem?_set, hlt]) hs
    refine ⟨this.1, ?_, this.2.2⟩
    rw [this.2.1]
    simp
    omega

/-- C13 (divergence of the code): when `createValue` panics, `itemEx.do`
recovers, records the `PanicError` in the call and stores `iesUninitialized`, but
returns nil, so `MamoMapEx.AcquireOrStore` goes back to `LOAD_STATE`, finds the
item `iesUninitialized` and invokes `createValue` again.  On the new MapEx with
ttl 100: with a callback that panics with 5 and returns 7 when invoked again,
`AcquireOrStore(1, ...)` invokes it twice and returns a result without error,
`created` true and a real release closure; with a callback that always panics,
the call does not return for any bound `fuel` on the number of retries, having
invoked the callback `fuel + 1` times. -/
theorem C13_create_is_invoked_again_after_a_panic (fuel : Nat) :
    (MamoMapEx.AcquireOrStore 1 1 (fun n => if n = 0 then .panic 5 else .value 7)
      (NewMapEx 100 : MamoMapEx Nat Nat)).1 = .ret (⟨1, some 0⟩, true, some ⟨1, 0⟩) ∧
    (MamoMapEx.AcquireOrStore 1 1 (fun n => if n = 0 then .panic 5 else .value 7)
      (NewMapEx 100 : MamoMapEx Nat Nat)).2.calls =
      [{ done := true, value := none, ver := 0, err := some (.panicError 5) },
       { done := true, value := some 7, ver := 0, err := none }] ∧
    MapExResult.IsError ⟨1, some 0⟩
      (MamoMapEx.AcquireOrStore 1 1 (fun n => if n = 0 then .panic 5 else .value 7)
        (NewMapEx 100 : MamoMapEx Nat Nat)).2 = false ∧
    (MamoMapEx.AcquireOrStore fuel 1 (fun _ => .panic 5)
      (NewMapEx 100 : MamoMapEx Nat Nat)).1 = .blocks ∧
    (MamoMapEx.AcquireOrStore fuel 1 (fun _ => .panic 5)
      (NewMapEx 100 : MamoMapEx Nat Nat)).2.calls.length = fuel + 1 := by
  refine ⟨by decide, by decide, by decide, ?_⟩
  have hin := AcquireOrStore_stored fuel (1 : Nat) (0 : Nat) (NewMap 100 false : MamoMap Nat Nat)
    rfl rfl
  have hl := loadState_panics (K := Nat) (V := Nat) (fun _ => .panic 5) 5 (fun _ => rfl) 0 fuel 0 true
    { m := stored 1 0 (Loop (NewMap 100 false)), items := [newItemEx], calls := [] }
    newItemEx rfl rfl
  have hA : MamoMapEx.AcquireOrStore fuel 1 (fun _ => .panic 5)
      (NewMapEx 100 : MamoMapEx Nat Nat) =
      (.blocks, (loadState (fun _ => .panic 5) 0 fuel 0 true
        { m := stored 1 0 (Loop (NewMap 100 false)), items := [newItemEx], calls := [] }).2) := by
    simp only [MamoMapEx.AcquireOrStore, NewMapEx, List.length_nil, hin, if_true,
      List.nil_append]
    generalize hg : loadState (fun _ => CreateOutcome.panic 5) 0 fuel 0 true _ = r at hl ⊢
    obtain ⟨o, s2⟩ := r
    simp only at hl
    rw [hl.1]
  rw [hA]
  refine ⟨rfl, ?_⟩
  rw [hl.2.1]
  simp

/-! ## MapEx: what one call does -/

theorem attemptLoadState_error (createValue : Nat → CreateOutcome V) (ip n : Nat) (cr : Bool)
    (s : MamoMapEx K V) (item : itemEx V) (code : Nat) (hi : s.items[ip]? = some item)
    (hs : item.state = .iesUninitialized) (hc : createValue n = .error code) :
    attemptLoadState createValue ip n cr s =
      (some (.ret (s.calls.length, true)), n + 1, true,
        { s with
          items := s.items.set ip { item with call := some s.calls.length }
          calls := s.calls ++
            [{ done := true, value := none, ver := item.ver, err := some (.returned code) }] }) := by
  have hlt : ip < s.items.length := (List.getElem?_eq_some.mp hi).1
  simp [attemptLoadState, switchLoadState, awaitCall, hi, hs, itemEx_do, hc,
    List.getElem?_set, hlt]

theorem attemptLoadState_value (createValue : Nat → CreateOutcome V) (ip n : Nat) (cr : Bool)
    (s : MamoMapEx K V) (item : itemEx V) (v : V) (hi : s.items[ip]? = some item)
    (hs : item.state = .iesUninitialized) (hc : createValue n = .value v) :
    attemptLoadState createValue ip n cr s =
      (some (.ret (s.calls.length, true)), n + 1, true,
        { s with
          items := s.items.set ip { item with call := some s.calls.length, state := .iesReady }
          calls := s.calls ++
            [{ done := true, value := some v, ver := item.ver, err := none }] }) := by
  have hlt : ip < s.items.length := (List.getElem?_eq_some.mp hi).1
  simp [attemptLoadState, switchLoadState, awaitCall, hi, hs, itemEx_do, hc,
    List.getElem?_set, hlt]

theorem attemptLoadState_ready (createValue : Nat → CreateOutcome V) (ip n : Nat) (cr : Bool)
    (s : MamoMapEx K V) (item : itemEx V) (cp : Nat) (c : call V)
    (hi : s.items[ip]? = some item) (hs : item.state = .iesReady) (hcall : item.call = some cp)
    (hcp : s.calls[cp]? = some c) (hdone : c.done = true) (hver : c.ver = item.ver) :
    attemptLoadState createValue ip n cr s = (some (.ret (cp, cr)), n, cr, s) := by
  simp [attemptLoadState, switchLoadState, awaitCall, hi, hs, hcall, hcp, hdone, hver]

theorem loadState_of_attempt (createValue : Nat → CreateOutcome V) (ip fuel n : Nat) (cr : Bool)
    (s : MamoMapEx K V) (o : Outcome (Nat × Bool)) (n1 : Nat) (cr1 : Bool) (s1 : MamoMapEx K V)
    (h : attemptLoadState createValue ip n cr s = (some o, n1, cr1, s1)) :
    loadState createValue ip fuel n cr s = (o, s1) := by
  cases fuel <;> simp [loadState, h]

/-- The end of `MamoMapEx.AcquireOrStore` once the pass from `LOAD_STATE` has
produced the call `cp`. -/
theorem exStore_of_inner (fuel : Nat) (key : K) (createValue : Nat → CreateOutcome V)
    (s : MamoMapEx K V) (ip : Nat) (created : Bool) (release : ReleaseFunc K)
    (m1 : MamoMap K Nat) (cp : Nat) (cr1 : Bool) (s2 : MamoMapEx K V) (c : call V)
    (hin : mamo.AcquireOrStore fuel key ⟨[], s.items.length⟩ s.m = (.ret (ip, created, release), m1))
    (hl : loadState createValue ip fuel 0 created
      { s with m := m1, items := if created then s.items ++ [newItemEx] else s.items } =
      (.ret (cp, cr1), s2))
    (hc : s2.calls[cp]? = some c) :
    MamoMapEx.AcquireOrStore fuel key createValue s =
      if c.err.isSome then releaseAndReturn ⟨cp, none⟩ s2
      else (.ret (⟨cp, some ip⟩, cr1, some release), s2) := by
  simp only [MamoMapEx.AcquireOrStore, hin, hl, hc]

theorem callRelease_last (m1 : MamoMap K V) (cl : List (ReleaseFunc K × Nat)) (r : ReleaseFunc K)
    (n : Nat) (hcl : m1.closures = cl ++ [(r, n)]) :
    callRelease (m1.closures.length - 1) m1 =
      releaseEntry r.key r.entry { m1 with closures := cl ++ [(r, n + 1)] } := by
  simp [callRelease, hcl]

/-- How `releaseEntry` ends: it panics exactly when the new `cnt` is negative,
and returns when the new `cnt` is not, the map being in fast-delete mode, quit,
or served by its loop. -/
theorem releaseEntry_outcome (key : K) (p : Nat) (s : MamoMap K V) (e : mamoEntry V)
    (he : s.heap[p]? = some e) :
    (addInt32 e.cnt (-1) < 0 →
      (releaseEntry key p s).1 = .panics (.badRefcnt (addInt32 e.cnt (-1)))) ∧
    (0 ≤ addInt32 e.cnt (-1) →
      (s.isFastDelete = true ∨ s.died = true ∨ s.loopRunning = true) →
      (releaseEntry key p s).1 = .ret ()) := by
  constructor
  · intro h
    simp [releaseEntry, he, h]
  · intro h hrun
    have h' : ¬ addInt32 e.cnt (-1) < 0 := by omega
    simp only [releaseEntry, he, h', if_false]
    split
    · split
      · rfl
      · split
        · rfl
        · split
          · rfl
          · rename_i h1 h2 h3
            simp only [MamoMap.setEntry, MamoMap.loopRunning] at h1 h2 h3 hrun
            simp_all [MamoMap.loopRunning]
    · rfl


theorem itemEx_do_calls (o : CreateOutcome V) (ip : Nat) (s : MamoMapEx K V) (item : itemEx V)
    (hi : s.items[ip]? = some item) (hs : item.state = .iesUninitialized) :
    (itemEx_do o ip s).2.calls.length = s.calls.length + 1 ∧ (itemEx_do o ip s).2.m = s.m := by
  cases o <;> simp [itemEx_do, hi, hs]

theorem itemEx_do_frame (o : CreateOutcome V) (ip : Nat) (s : MamoMapEx K V) :
    s.calls.length ≤ (itemEx_do o ip s).2.calls.length ∧ (itemEx_do o ip s).2.m = s.m ∧
    (itemEx_do o ip s).2.items.length = s.items.length := by
  unfold itemEx_do
  cases hi : s.items[ip]? with
  | none => simp
  | some item =>
    simp only
    split
    · cases o <;> simp
    · simp

theorem attemptLoadState_frame (createValue : Nat → CreateOutcome V) (ip n : Nat) (cr : Bool)
    (s : MamoMapEx K V) :
    s.calls.length ≤ (attemptLoadState createValue ip n cr s).2.2.2.calls.length ∧
    (attemptLoadState createValue ip n cr s).2.2.2.m = s.m ∧
    (attemptLoadState createValue ip n cr s).2.2.2.items.length = s.items.length := by
  unfold attemptLoadState
  cases hi : s.items[ip]? with
  | none => simp
  | some item =>
    simp only [switchLoadState]
    cases item.state <;> simp [itemEx_do_frame]

theorem attemptLoadState_invokes (createValue : Nat → CreateOutcome V) (ip n : Nat) (cr : Bool)
    (s : MamoMapEx K V) (item : itemEx V) (hi : s.items[ip]? = some item)
    (hs : item.state = .iesUninitialized) :
    (attemptLoadState createValue ip n cr s).2.2.2.calls.length = s.calls.length + 1 := by
  simp only [attemptLoadState, hi, switchLoadState, hs]
  exact (itemEx_do_calls _ ip s item hi hs).1

theorem loadState_frame (createValue : Nat → CreateOutcome V) (ip fuel : Nat) :
    ∀ (n : Nat) (cr : Bool) (s : MamoMapEx K V),
      s.calls.length ≤ (loadState createValue ip fuel n cr s).2.calls.length ∧
      (loadState createValue ip fuel n cr s).2.m = s.m ∧
      (loadState createValue ip fuel n cr s).2.items.length = s.items.length := by
  induction fuel with
  | zero =>
    intro n cr s
    have h := attemptLoadState_frame createValue ip n cr s
    unfold loadState
    generalize attemptLoadState createValue ip n cr s = r at h
    obtain ⟨o, n1, cr1, s1⟩ := r
    cases o <;> exact h
  | succ fuel ih =>
    intro n cr s
    have h := attemptLoadState_frame createValue ip n cr s
    unfold loadState
    generalize attemptLoadState createValue ip n cr s = r at h
    obtain ⟨o, n1, cr1, s1⟩ := r
    cases o with
    | some o => exact h
    | none =>
      have h2 := ih n1 cr1 s1
      simp only at h ⊢
      exact ⟨by omega, h2.2.1.trans h.2.1, h2.2.2.trans h.2.2⟩

theorem loadState_invokes (createValue : Nat → CreateOutcome V) (ip fuel n : Nat) (cr : Bool)
    (s : MamoMapEx K V) (item : itemEx V) (hi : s.items[ip]? = some item)
    (hs : item.state = .iesUninitialized) :
    s.calls.length + 1 ≤ (loadState createValue ip fuel n cr s).2.calls.length := by
  have h := attemptLoadState_invokes createValue ip n cr s item hi hs
  cases fuel with
  | zero =>
    unfold loadState
    generalize attemptLoadState createValue ip n cr s = r at h
    obtain ⟨o, n1, cr1, s1⟩ := r
    cases o <;> exact Nat.le_of_eq h.symm
  | succ fuel =>
    unfold loadState
    generalize attemptLoadState createValue ip n cr s = r at h
    obtain ⟨o, n1, cr1, s1⟩ := r
    cases o with
    | some o => exact Nat.le_of_eq h.symm
    | none =>
      have h2 := (loadState_frame createValue ip fuel n1 cr1 s1).1
      simp only at h ⊢
      omega

theorem releaseAndReturn_frame {α : Type} (res : α) (s : MamoMapEx K V) :
    (releaseAndReturn res s).2.calls = s.calls ∧ (releaseAndReturn res s).2.items = s.items ∧
    (releaseAndReturn res s).2.m = (callRelease (s.m.closures.length - 1) s.m).2 := by
  unfold releaseAndReturn releaseLast
  cases (callRelease (s.m.closures.length - 1) s.m).1 <;> exact ⟨rfl, rfl, rfl⟩

theorem releaseAndReturn_outcome {α : Type} (res : α) (s : MamoMapEx K V) :
    (releaseAndReturn res s).1 =
      match (callRelease (s.m.closures.length - 1) s.m).1 with
      | .ret _ => .ret (res, false, none)
      | .panics msg => .panics msg
      | .blocks => .blocks := by
  unfold releaseAndReturn releaseLast
  cases (callRelease (s.m.closures.length - 1) s.m).1 <;> rfl

/-- The calls and items `MamoMapEx.AcquireOrStore` leaves are those its loop leaves. -/
theorem exStore_calls_of_inner (fuel : Nat) (key : K) (createValue : Nat → CreateOutcome V)
    (s : MamoMapEx K V) (ip : Nat) (created : Bool) (release : ReleaseFunc K)
    (m1 : MamoMap K Nat)
    (hin : mamo.AcquireOrStore fuel key ⟨[], s.items.length⟩ s.m = (.ret (ip, created, release), m1)) :
    (MamoMapEx.AcquireOrStore fuel key createValue s).2.calls =
      (loadState createValue ip fuel 0 created
        { s with m := m1, items := if created then s.items ++ [newItemEx] else s.items }).2.calls := by
  simp only [MamoMapEx.AcquireOrStore, hin]
  generalize loadState createValue ip fuel 0 created
    { s with m := m1, items := if created then s.items ++ [newItemEx] else s.items } = r
  obtain ⟨o, s2⟩ := r
  cases o with
  | ret x =>
    obtain ⟨cp, cr1⟩ := x
    simp only
    cases s2.calls[cp]? with
    | none => rfl
    | some c =>
      simp only
      split
      · exact (releaseAndReturn_frame _ s2).1
      · rfl
  | panics msg => rfl
  | blocks => rfl


theorem Loop_running (s : MamoMap K V) (hd : s.died = false) :
    (Loop s).isFastDelete = true ∨ (Loop s).loopRunning = true := by
  unfold Loop MamoMap.loopRunning
  cases hf : s.isFastDelete <;> cases ho : s.once <;> simp [hf, ho, hd]

/-- What `releaseEntry` leaves of a `mefReady` entry stored under its key: the
map is quit or not as before, and either the key has been removed or the key
still holds the entry, `mefReady` with its value. -/
theorem releaseEntry_post (key : K) (p : Nat) (s : MamoMap K V) (e : mamoEntry V)
    (he : s.heap[p]? = some e) (hf : e.flag = mefReady) (hm : s.m key = some p) :
    (releaseEntry key p s).2.died = s.died ∧
    ((releaseEntry key p s).2.m key = none ∨
      ((releaseEntry key p s).2.m key = some p ∧
        ∃ e', (releaseEntry key p s).2.heap[p]? = some e' ∧ e'.flag = mefReady ∧
          e'.value = e.value)) := by
  have hset : ∀ e1 : mamoEntry V, e1.flag = mefReady → e1.value = e.value →
      (s.setEntry p e1).died = s.died ∧
      ((s.setEntry p e1).m key = none ∨ ((s.setEntry p e1).m key = some p ∧
        ∃ e', (s.setEntry p e1).heap[p]? = some e' ∧ e'.flag = mefReady ∧ e'.value = e.value)) := by
    intro e1 h1 h2
    refine ⟨rfl, Or.inr ⟨hm, e1, ?_, h1, h2⟩⟩
    rw [heap_setEntry s p p e e1 he, if_pos rfl]
  have htd : ∀ (ver : Nat) (e1 : mamoEntry V), e1.flag = mefReady → e1.value = e.value →
      (tryDelete key p ver (s.setEntry p e1)).died = s.died ∧
      ((tryDelete key p ver (s.setEntry p e1)).m key = none ∨
        ((tryDelete key p ver (s.setEntry p e1)).m key = some p ∧
          ∃ e', (tryDelete key p ver (s.setEntry p e1)).heap[p]? = some e' ∧
            e'.flag = mefReady ∧ e'.value = e.value)) := by
    intro ver e1 h1 h2
    rcases tryDelete_cases key p ver (s.setEntry p e1) with h | ⟨e2, _, _, _, _, h⟩
    · rw [h]; exact hset e1 h1 h2
    · rw [h]
      exact ⟨rfl, Or.inl (by simp [destroy])⟩
  simp only [releaseEntry, he]
  split
  · exact hset _ hf rfl
  · split
    · split
      · exact htd _ _ hf rfl
      · split
        · exact htd _ _ hf rfl
        · split
          · exact hset _ hf rfl
          · exact hset _ hf rfl
    · exact hset _ hf rfl

theorem addInt32_back (c : Int) (h0 : -2147483648 ≤ c) (h1 : c < 2147483648) :
    addInt32 (addInt32 c 1) (-1) = c := by
  unfold addInt32 wrapInt32
  omega

/-- Every `MamoMapEx.AcquireOrStore` on a map that has not been quit, for a key
that has no entry or whose item is `iesUninitialized`, invokes `createValue`. -/
theorem exStore_invokes (s : MamoMapEx K V) (key : K) (hd : s.m.died = false)
    (h : s.m.m key = none ∨ ∃ p e ip item, UninitAt s key p e ip item) (fuel : Nat)
    (createValue : Nat → CreateOutcome V) :
    s.calls.length + 1 ≤ (MamoMapEx.AcquireOrStore fuel key createValue s).2.calls.length := by
  rcases h with hm | ⟨p, e, ip, item, hm, he, hf, hv, hi, hs⟩
  · have hin := AcquireOrStore_stored fuel key s.items.length s.m hd hm
    rw [exStore_calls_of_inner fuel key createValue s _ _ _ _ hin]
    have := loadState_invokes createValue s.items.length fuel 0 true
      { s with m := stored key s.items.length (Loop s.m), items := s.items ++ [newItemEx] }
      newItemEx (by simp) rfl
    simpa using this
  · have hin := AcquireOrStore_loaded fuel key ⟨[], s.items.length⟩ s.m p e ip hd hm he hf hv
    rw [exStore_calls_of_inner fuel key createValue s _ _ _ _ hin]
    have := loadState_invokes createValue ip fuel 0 false
      { s with m := acquired key p e (Loop s.m) } item hi hs
    simpa using this

/-- The state in which `MamoMapEx.AcquireOrStore` calls `release()` after a
`createValue` that returned an error, when the key had the entry `p`. -/
theorem exStore_loaded_error (fuel : Nat) (key : K) (createValue : Nat → CreateOutcome V)
    (code : Nat) (s : MamoMapEx K V) (p : Nat) (e : mamoEntry Nat) (ip : Nat) (item : itemEx V)
    (hd : s.m.died = false) (hu : UninitAt s key p e ip item)
    (hc : createValue 0 = .error code) :
    ∃ S2 : MamoMapEx K V,
      MamoMapEx.AcquireOrStore fuel key createValue s =
        releaseAndReturn ⟨s.calls.length, none⟩ S2 ∧
      S2.m = acquired key p e (Loop s.m) ∧
      S2.items = s.items.set ip { item with call := some s.calls.length } ∧
      S2.calls = s.calls ++
        [{ done := true, value := none, ver := item.ver, err := some (.returned code) }] := by
  refine ⟨⟨acquired key p e (Loop s.m), s.items.set ip { item with call := some s.calls.length },
    s.calls ++
      [{ done := true, value := none, ver := item.ver, err := some (.returned code) }]⟩,
    ?_, rfl, rfl, rfl⟩
  obtain ⟨hm, he, hf, hv, hi, hs⟩ := hu
  have hin := AcquireOrStore_loaded fuel key ⟨[], s.items.length⟩ s.m p e ip hd hm he hf hv
  have hat := attemptLoadState_error createValue ip 0 false
    { s with m := acquired key p e (Loop s.m) } item code hi hs hc
  have hl := loadState_of_attempt createValue ip fuel 0 false _ _ _ _ _ hat
  have := exStore_of_inner fuel key createValue s ip false ⟨key, p⟩ _ s.calls.length true _
    { done := true, value := none, ver := item.ver, err := some (.returned code) } hin
    (by simpa using hl) (by simp)
  rw [this]
  simp

theorem exStore_stored_error (fuel : Nat) (key : K) (createValue : Nat → CreateOutcome V)
    (code : Nat) (s : MamoMapEx K V) (hd : s.m.died = false) (hm : s.m.m key = none)
    (hc : createValue 0 = .error code) :
    ∃ S2 : MamoMapEx K V,
      MamoMapEx.AcquireOrStore fuel key createValue s =
        releaseAndReturn ⟨s.calls.length, none⟩ S2 ∧
      S2.m = stored key s.items.length (Loop s.m) ∧
      S2.items = s.items ++ [{ (newItemEx : itemEx V) with call := some s.calls.length }] ∧
      S2.calls = s.calls ++
        [{ done := true, value := none, ver := 0, err := some (.returned code) }] := by
  refine ⟨⟨stored key s.items.length (Loop s.m),
    s.items ++ [{ (newItemEx : itemEx V) with call := some s.calls.length }],
    s.calls ++ [{ done := true, value := none, ver := 0, err := some (.returned code) }]⟩,
    ?_, rfl, rfl, rfl⟩
  have hin := AcquireOrStore_stored fuel key s.items.length s.m hd hm
  have hat := attemptLoadState_error createValue s.items.length 0 true
    { s with m := stored key s.items.length (Loop s.m), items := s.items ++ [newItemEx] }
    newItemEx code (by simp) rfl hc
  have hl := loadState_of_attempt createValue s.items.length fuel 0 true _ _ _ _ _ hat
  have := exStore_of_inner fuel key createValue s s.items.length true ⟨key, s.m.heap.length⟩ _
    s.calls.length true _
    { done := true, value := none, ver := 0, err := some (.returned code) } hin
    (by simpa using hl) (by simp [newItemEx])
  rw [this]
  simp [newItemEx]


/-- The call of the closure the inner map returned last, for the `mefReady`
entry `p` stored under `key`, on a map that is not quit. -/
theorem release_after (key : K) (p : Nat) (m1 : MamoMap K V) (e1 : mamoEntry V)
    (cl : List (ReleaseFunc K × Nat)) (hcl : m1.closures = cl ++ [(⟨key, p⟩, 0)])
    (hm : m1.m key = some p) (he : m1.heap[p]? = some e1) (hf : e1.flag = mefReady)
    (hd : m1.died = false) (hrun : m1.isFastDelete = true ∨ m1.loopRunning = true) :
    (addInt32 e1.cnt (-1) < 0 →
      (callRelease (m1.closures.length - 1) m1).1 = .panics (.badRefcnt (addInt32 e1.cnt (-1)))) ∧
    (0 ≤ addInt32 e1.cnt (-1) → (callRelease (m1.closures.length - 1) m1).1 = .ret ()) ∧
    (callRelease (m1.closures.length - 1) m1).2.died = false ∧
    ((callRelease (m1.closures.length - 1) m1).2.heap[p]?).map (fun e => e.cnt) =
      some (addInt32 e1.cnt (-1)) ∧
    ((callRelease (m1.closures.length - 1) m1).2.m key = none ∨
      ((callRelease (m1.closures.length - 1) m1).2.m key = some p ∧
        ∃ e', (callRelease (m1.closures.length - 1) m1).2.heap[p]? = some e' ∧
          e'.flag = mefReady ∧ e'.value = e1.value)) := by
  rw [callRelease_last m1 cl ⟨key, p⟩ 0 hcl]
  have he' : ({ m1 with closures := cl ++ [((⟨key, p⟩ : ReleaseFunc K), 0 + 1)] } :
      MamoMap K V).heap[p]? = some e1 := he
  have ho := releaseEntry_outcome key p _ e1 he'
  have hp := releaseEntry_post key p _ e1 he' hf hm
  have hc := releaseEntry_cnt key p p _ e1 he'
  rw [if_pos rfl] at hc
  refine ⟨ho.1, fun h => ho.2 h ?_, hp.1.trans hd, hc, hp.2⟩
  rcases hrun with h | h
  · exact Or.inl h
  · exact Or.inr (Or.inr h)

/-! ## C14: a create callback that returns an error -/

/-- C14 (amended): on a MapEx that has not been quit, when `createValue`
returns a non-nil error (at its first invocation by the call),
`MamoMapEx.AcquireOrStore` returns a result with `IsError()` true and `Err()`
equal to that error, `created` false and the no-op release, and has invoked
`createValue` once.  This holds for a key whose entry holds an item in state
`iesUninitialized`, provided the entry's `cnt` is not negative (fewer than 2^31
references are outstanding): the entry's `cnt` is then what it was before the
call and the item is `iesUninitialized`; and it holds for a key without entry:
the entry this call inserted has `cnt == 0` afterwards (in fast-delete mode it
has been deleted) and its item is `iesUninitialized`.  In both cases every next
`AcquireOrStore` on the key invokes its `createValue`. -/
theorem C14_errored_create_releases_the_reference (fuel : Nat) (key : K)
    (createValue : Nat → CreateOutcome V) (code : Nat) (s : MamoMapEx K V)
    (halive : s.m.died = false) (hc : createValue 0 = .error code) :
    (∀ p e ip item, UninitAt s key p e ip item → 0 ≤ e.cnt → e.cnt < 2147483648 →
      ∃ s', MamoMapEx.AcquireOrStore fuel key createValue s =
          (.ret (⟨s.calls.length, none⟩, false, none), s') ∧
        MapExResult.IsError ⟨s.calls.length, none⟩ s' = true ∧
        MapExResult.Err ⟨s.calls.length, none⟩ s' = some (.returned code) ∧
        s'.calls.length = s.calls.length + 1 ∧
        (s'.m.heap[p]?).map (fun e' => e'.cnt) = some e.cnt ∧
        (s'.items[ip]?).map (fun i => i.state) = some .iesUninitialized ∧
        ∀ fuel' createValue',
          s'.calls.length + 1 ≤
            (MamoMapEx.AcquireOrStore fuel' key createValue' s').2.calls.length) ∧
    (s.m.m key = none →
      ∃ s', MamoMapEx.AcquireOrStore fuel key createValue s =
          (.ret (⟨s.calls.length, none⟩, false, none), s') ∧
        MapExResult.IsError ⟨s.calls.length, none⟩ s' = true ∧
        MapExResult.Err ⟨s.calls.length, none⟩ s' = some (.returned code) ∧
        s'.calls.length = s.calls.length + 1 ∧
        (s'.m.heap[s.m.heap.length]?).map (fun e' => e'.cnt) = some 0 ∧
        (s'.items[s.items.length]?).map (fun i => i.state) = some .iesUninitialized ∧
        ∀ fuel' createValue',
          s'.calls.length + 1 ≤
            (MamoMapEx.AcquireOrStore fuel' key createValue' s').2.calls.length) := by
  have hLf := Loop_frame s.m
  constructor
  · intro p e ip item hu h0 h1
    obtain ⟨S2, heq, hS2m, hS2i, hS2c⟩ :=
      exStore_loaded_error fuel key createValue code s p e ip item halive hu hc
    obtain ⟨hm, he, hf, hv, hi, hs⟩ := hu
    have hlt : p < s.m.heap.length := (List.getElem?_eq_some.mp he).1
    have hilt : ip < s.items.length := (List.getElem?_eq_some.mp hi).1
    have hra := release_after key p (acquired key p e (Loop s.m))
      { e with cnt := addInt32 e.cnt 1, ver := addUint32 e.ver 1 } (Loop s.m).closures rfl
      (by show (Loop s.m).m key = some p; rw [hLf.1]; exact hm)
      (by show ((Loop s.m).heap.set p _)[p]? = _; rw [hLf.2.1]; simp [List.getElem?_set, hlt])
      hf (by show (Loop s.m).died = false; rw [hLf.2.2.1]; exact halive)
      (Loop_running s.m halive)
    simp only [addInt32_back e.cnt (by omega) h1] at hra
    have hfr := releaseAndReturn_frame (⟨s.calls.length, none⟩ : MapExResult) S2
    have hout := releaseAndReturn_outcome (⟨s.calls.length, none⟩ : MapExResult) S2
    rw [hS2m, hra.2.1 h0] at hout
    rw [hS2m] at hfr
    refine ⟨(releaseAndReturn (⟨s.calls.length, none⟩ : MapExResult) S2).2, ?_, ?_, ?_, ?_, ?_,
      ?_, ?_⟩
    · rw [heq]
      exact Prod.ext hout rfl
    · simp [MapExResult.IsError, hfr.1, hS2c]
    · simp [MapExResult.Err, hfr.1, hS2c]
    · simp [hfr.1, hS2c]
    · rw [hfr.2.2]
      exact hra.2.2.2.1
    · simp [hfr.2.1, hS2i, List.getElem?_set, hilt, hs]
    · intro fuel' createValue'
      apply exStore_invokes _ key (by rw [hfr.2.2]; exact hra.2.2.1)
      rcases hra.2.2.2.2 with h | ⟨h, e', he', hf', hv'⟩
      · exact Or.inl (by rw [hfr.2.2]; exact h)
      · refine Or.inr ⟨p, e', ip, { item with call := some s.calls.length }, ?_, ?_, hf',
          hv'.trans hv, ?_, hs⟩
        · rw [hfr.2.2]; exact h
        · rw [hfr.2.2]; exact he'
        · simp [hfr.2.1, hS2i, List.getElem?_set, hilt]
  · intro hm
    obtain ⟨S2, heq, hS2m, hS2i, hS2c⟩ :=
      exStore_stored_error fuel key createValue code s halive hm hc
    have hra := release_after key s.m.heap.length (stored key s.items.length (Loop s.m))
      { cnt := 1, ver := 1, flag := mefReady, value := some s.items.length }
      (Loop s.m).closures (by show _ ++ _ = _; rw [hLf.2.1])
      (by show (if key = key then some (Loop s.m).heap.length else _) = _
          rw [if_pos rfl, hLf.2.1])
      (by rw [heap_stored, hLf.2.1, if_pos rfl])
      rfl (by show (Loop s.m).died = false; rw [hLf.2.2.1]; exact halive)
      (Loop_running s.m halive)
    have hz : addInt32 1 (-1) = 0 := by decide
    simp only [hz] at hra
    have hfr := releaseAndReturn_frame (⟨s.calls.length, none⟩ : MapExResult) S2
    have hout := releaseAndReturn_outcome (⟨s.calls.length, none⟩ : MapExResult) S2
    rw [hS2m, hra.2.1 (le_refl 0)] at hout
    rw [hS2m] at hfr
    refine ⟨(releaseAndReturn (⟨s.calls.length, none⟩ : MapExResult) S2).2, ?_, ?_, ?_, ?_, ?_,
      ?_, ?_⟩
    · rw [heq]
      exact Prod.ext hout rfl
    · simp [MapExResult.IsError, hfr.1, hS2c]
    · simp [MapExResult.Err, hfr.1, hS2c]
    · simp [hfr.1, hS2c]
    · rw [hfr.2.2]
      exact hra.2.2.2.1
    · simp [hfr.2.1, hS2i, newItemEx]
    · intro fuel' createValue'
      apply exStore_invokes _ key (by rw [hfr.2.2]; exact hra.2.2.1)
      rcases hra.2.2.2.2 with h | ⟨h, e', he', hf', hv'⟩
      · exact Or.inl (by rw [hfr.2.2]; exact h)
      · refine Or.inr ⟨s.m.heap.length, e', s.items.length,
          { (newItemEx : itemEx V) with call := some s.calls.length }, ?_, ?_, hf', hv', ?_, rfl⟩
        · rw [hfr.2.2]; exact h
        · rw [hfr.2.2]; exact he'
        · simp [hfr.2.1, hS2i]

theorem exStore_loaded_ready (fuel : Nat) (key : K) (createValue : Nat → CreateOutcome V)
    (s : MamoMapEx K V) (p : Nat) (e : mamoEntry Nat) (ip : Nat) (item : itemEx V) (cp : Nat)
    (c : call V) (hd : s.m.died = false) (hm : s.m.m key = some p) (he : s.m.heap[p]? = some e)
    (hf : e.flag = mefReady) (hv : e.value = some ip) (hi : s.items[ip]? = some item)
    (hs : item.state = .iesReady) (hcall : item.call = some cp) (hcp : s.calls[cp]? = some c)
    (hdone : c.done = true) (hver : c.ver = item.ver) (herr : c.err = none) :
    MamoMapEx.AcquireOrStore fuel key createValue s =
      (.ret (⟨cp, some ip⟩, false, some ⟨key, p⟩), { s with m := acquired key p e (Loop s.m) }) := by
  have hin := AcquireOrStore_loaded fuel key ⟨[], s.items.length⟩ s.m p e ip hd hm he hf hv
  have hat := attemptLoadState_ready createValue ip 0 false
    { s with m := acquired key p e (Loop s.m) } item cp c hi hs hcall hcp hdone hver
  have hl := loadState_of_attempt createValue ip fuel 0 false _ _ _ _ _ hat
  have := exStore_of_inner fuel key createValue s ip false ⟨key, p⟩ _ cp false
    { s with m := acquired key p e (Loop s.m) } c hin (by simpa using hl) hcp
  rw [this]
  simp [herr]

theorem exStore_loaded_value (fuel : Nat) (key : K) (createValue : Nat → CreateOutcome V)
    (v : V) (s : MamoMapEx K V) (p : Nat) (e : mamoEntry Nat) (ip : Nat) (item : itemEx V)
    (hd : s.m.died = false) (hu : UninitAt s key p e ip item)
    (hc : createValue 0 = .value v) :
    MamoMapEx.AcquireOrStore fuel key createValue s =
      (.ret (⟨s.calls.length, some ip⟩, true, some ⟨key, p⟩),
        ⟨acquired key p e (Loop s.m),
          s.items.set ip { item with call := some s.calls.length, state := .iesReady },
          s.calls ++ [{ done := true, value := some v, ver := item.ver, err := none }]⟩) := by
  obtain ⟨hm, he, hf, hv, hi, hs⟩ := hu
  have hin := AcquireOrStore_loaded fuel key ⟨[], s.items.length⟩ s.m p e ip hd hm he hf hv
  have hat := attemptLoadState_value createValue ip 0 false
    { s with m := acquired key p e (Loop s.m) } item v hi hs hc
  have hl := loadState_of_attempt createValue ip fuel 0 false _ _ _ _ _ hat
  have := exStore_of_inner fuel key createValue s ip false ⟨key, p⟩ _ s.calls.length true _
    { done := true, value := some v, ver := item.ver, err := none } hin
    (by simpa using hl) (by simp)
  rw [this]
  simp

/-- What holds of `afterStores n` for `n ≥ 1`: key 1 has entry 0, `mefReady`,
whose `cnt` is the `int32` value of `n`, and whose item 0 is `iesReady` with
the call 0 that holds 7. -/
theorem afterStores_succ (n : Nat) :
    (afterStores (n + 1)).m.died = false ∧ (afterStores (n + 1)).m.m 1 = some 0 ∧
    (afterStores (n + 1)).m.heap[0]? =
      some { cnt := wrapInt32 (n + 1), ver := (n + 1) % 4294967296, flag := mefReady,
             value := some 0 } ∧
    (afterStores (n + 1)).items = [{ state := .iesReady, ver := 0, call := some 0 }] ∧
    (afterStores (n + 1)).calls = [{ done := true, value := some 7, ver := 0, err := none }] := by
  induction n with
  | zero =>
    unfold afterStores
    exact ⟨by decide, by decide, by decide, by decide, by decide⟩
  | succ n ih =>
    obtain ⟨hd, hm, he, hi, hc⟩ := ih
    have hstep : afterStores (n + 1 + 1) =
        (MamoMapEx.AcquireOrStore 0 1 (fun _ => .value 7) (afterStores (n + 1))).2 := by
      unfold afterStores
      rw [Function.iterate_succ_apply']
    have hlt : 0 < (afterStores (n + 1)).m.heap.length := (List.getElem?_eq_some.mp he).1
    rw [hstep, exStore_loaded_ready 0 1 (fun _ => .value 7) (afterStores (n + 1)) 0 _ 0
      { state := .iesReady, ver := 0, call := some 0 } 0
      { done := true, value := some 7, ver := 0, err := none } hd hm he rfl rfl
      (by rw [hi]; rfl) rfl rfl (by rw [hc]; rfl) rfl rfl rfl]
    have hLf := Loop_frame (afterStores (n + 1)).m
    refine ⟨?_, ?_, ?_, hi, hc⟩
    · show (Loop _).died = false
      rw [hLf.2.2.1]; exact hd
    · show (Loop _).m 1 = some 0
      rw [hLf.1]; exact hm
    · show ((Loop _).heap.set 0 _)[0]? = _
      rw [hLf.2.1]
      simp only [List.getElem?_set, hlt, if_true]
      have h1 : addInt32 (wrapInt32 (↑n + 1)) 1 = wrapInt32 (↑(n + 1) + 1) := by
        unfold addInt32
        rw [wrapInt32_add]
        push_cast
        rfl
      have h2 : addUint32 ((n + 1) % 4294967296) 1 = (n + 1 + 1) % 4294967296 := by
        unfold addUint32
        omega
      simp [h1, h2]

theorem afterStores_spec (n : Nat) (hn : 0 < n) :
    (afterStores n).m.died = false ∧ (afterStores n).m.m 1 = some 0 ∧
    (afterStores n).m.heap[0]? =
      some { cnt := wrapInt32 n, ver := n % 4294967296, flag := mefReady, value := some 0 } ∧
    (afterStores n).items = [{ state := .iesReady, ver := 0, call := some 0 }] ∧
    (afterStores n).calls = [{ done := true, value := some 7, ver := 0, err := none }] := by
  cases n with
  | zero => cases hn
  | succ n =>
    have h := afterStores_succ n
    simp only [Nat.cast_add, Nat.cast_one]
    exact h

/-- After the `Revoke()` of the result of a state in which key 1 has the
entry 0, held 2^31 times, whose item 0 is `iesReady` with call 0: the entry of
key 1 has `cnt == -2^31` and its item is `iesUninitialized`. -/
theorem wrapped_revoked (S : MamoMapEx Nat Nat) (hd : S.m.died = false)
    (hm : S.m.m 1 = some 0)
    (he : S.m.heap[0]? =
      some { cnt := -2147483648, ver := 2147483648, flag := mefReady, value := some 0 })
    (hi : S.items = [{ state := .iesReady, ver := 0, call := some 0 }])
    (hc : S.calls = [{ done := true, value := some 7, ver := 0, err := none }]) :
    (MapExResult.Revoke ⟨0, some 0⟩ S).m.died = false ∧
    UninitAt (MapExResult.Revoke ⟨0, some 0⟩ S) 1 0
      { cnt := -2147483648, ver := 2147483648, flag := mefReady, value := some 0 } 0
      { state := .iesUninitialized, ver := 1, call := none } ∧
    (MapExResult.Revoke ⟨0, some 0⟩ S).calls.length = 1 := by
  have hR : MapExResult.Revoke ⟨0, some 0⟩ S =
      { S with items := [{ state := .iesUninitialized, ver := 1, call := none }] } := by
    simp [MapExResult.Revoke, hc, hi, itemEx.revoke, addUint32]
  rw [hR]
  exact ⟨hd, ⟨hm, he, rfl, rfl, rfl, rfl⟩, by rw [hc]; rfl⟩

/-- The closure call made by `MamoMapEx.AcquireOrStore` and `MamoMapEx.Acquire`
on an entry whose `cnt` was -2^31 before the call panics with `bad refcnt`. -/
theorem wrapped_release_panics (S : MamoMapEx Nat Nat) (hd : S.m.died = false)
    (hm : S.m.m 1 = some 0)
    (he : S.m.heap[0]? =
      some { cnt := -2147483648, ver := 2147483648, flag := mefReady, value := some 0 }) :
    (callRelease
      ((acquired 1 0 { cnt := -2147483648, ver := 2147483648, flag := mefReady, value := some 0 }
        (Loop S.m)).closures.length - 1)
      (acquired 1 0 { cnt := -2147483648, ver := 2147483648, flag := mefReady, value := some 0 }
        (Loop S.m))).1 = .panics (.badRefcnt (-2147483648)) := by
  have hlt := (List.getElem?_eq_some.mp he).1
  have hLf := Loop_frame S.m
  have hra := release_after 1 0
    (acquired 1 0 { cnt := -2147483648, ver := 2147483648, flag := mefReady, value := some 0 }
      (Loop S.m))
    { cnt := addInt32 (-2147483648) 1, ver := addUint32 2147483648 1, flag := mefReady,
      value := some 0 }
    (Loop S.m).closures rfl
    (by show (Loop _).m 1 = some 0; rw [hLf.1]; exact hm)
    (by show ((Loop _).heap.set 0 _)[0]? = _; rw [hLf.2.1]; simp [List.getElem?_set, hlt])
    rfl (by show (Loop _).died = false; rw [hLf.2.2.1]; exact hd)
    (Loop_running _ hd)
  rw [hra.1 (by decide)]
  decide

theorem wrapped_store_panics (S : MamoMapEx Nat Nat) (hd : S.m.died = false)
    (hu : UninitAt S 1 0
      { cnt := -2147483648, ver := 2147483648, flag := mefReady, value := some 0 } 0
      { state := .iesUninitialized, ver := 1, call := none }) :
    (MamoMapEx.AcquireOrStore 0 1 (fun _ => .error 9) S).1 =
      .panics (.badRefcnt (-2147483648)) := by
  obtain ⟨S2, heq, hS2m, _, _⟩ := exStore_loaded_error 0 1 (fun _ => .error 9) 9 _ 0 _ 0 _ hd hu rfl
  rw [heq, releaseAndReturn_outcome, hS2m, wrapped_release_panics S hd hu.1 hu.2.1]

/-- The state after 2^31 calls `AcquireOrStore(1, create)`, none released:
the facts `wrapped_revoked` needs. -/
theorem afterStores_wrapped :
    (afterStores 2147483648).m.died = false ∧ (afterStores 2147483648).m.m 1 = some 0 ∧
    (afterStores 2147483648).m.heap[0]? =
      some { cnt := -2147483648, ver := 2147483648, flag := mefReady, value := some 0 } ∧
    (afterStores 2147483648).items = [{ state := .iesReady, ver := 0, call := some 0 }] ∧
    (afterStores 2147483648).calls = [{ done := true, value := some 7, ver := 0, err := none }] := by
  obtain ⟨hd, hm, he, hi, hc⟩ := afterStores_spec 2147483648 (by decide)
  have hv : (some
      { cnt := wrapInt32 ((2147483648 : Nat) : Int), ver := 2147483648 % 4294967296,
        flag := mefReady, value := some 0 } : Option (mamoEntry Nat)) =
      some { cnt := -2147483648, ver := 2147483648, flag := mefReady, value := some 0 } := by
    decide
  exact ⟨hd, hm, he.trans hv, hi, hc⟩

/-- C14 (counterexample): on the MapEx with ttl 100, after 2^31 calls
`AcquireOrStore(1, create)` with a `create` that returns 7, none of them
released, the entry's `cnt` has wrapped to -2^31; after `Revoke()` of the result
the item is `iesUninitialized`.  An `AcquireOrStore(1, create)` whose `create`
returns the error 9 then does not return a result: its `release()` finds
`cnt == -2^31` after the decrement and panics with `bad refcnt -2147483648`. -/
theorem C14_release_panics_on_a_wrapped_cnt :
    (MapExResult.Revoke ⟨0, some 0⟩ (afterStores 2147483648)).m.died = false ∧
    UninitAt (MapExResult.Revoke ⟨0, some 0⟩ (afterStores 2147483648)) 1 0
      { cnt := -2147483648, ver := 2147483648, flag := mefReady, value := some 0 } 0
      { state := .iesUninitialized, ver := 1, call := none } ∧
    (MamoMapEx.AcquireOrStore 0 1 (fun _ => .error 9)
      (MapExResult.Revoke ⟨0, some 0⟩ (afterStores 2147483648))).1 =
      .panics (.badRefcnt (-2147483648)) :=
  ⟨(wrapped_revoked _ afterStores_wrapped.1 afterStores_wrapped.2.1 afterStores_wrapped.2.2.1
      afterStores_wrapped.2.2.2.1 afterStores_wrapped.2.2.2.2).1,
   (wrapped_revoked _ afterStores_wrapped.1 afterStores_wrapped.2.1 afterStores_wrapped.2.2.1
      afterStores_wrapped.2.2.2.1 afterStores_wrapped.2.2.2.2).2.1,
   wrapped_store_panics _
     (wrapped_revoked _ afterStores_wrapped.1 afterStores_wrapped.2.1 afterStores_wrapped.2.2.1
      afterStores_wrapped.2.2.2.1 afterStores_wrapped.2.2.2.2).1
     (wrapped_revoked _ afterStores_wrapped.1 afterStores_wrapped.2.1 afterStores_wrapped.2.2.1
      afterStores_wrapped.2.2.2.1 afterStores_wrapped.2.2.2.2).2.1⟩

/-- Witness of `C14_errored_create_releases_the_reference`: the new MapEx with
ttl 100, key 1 and a callback that returns the error 9. -/
theorem C14_errored_create_releases_the_reference_witness :
    (NewMapEx 100 : MamoMapEx Nat Nat).m.died = false ∧
    (NewMapEx 100 : MamoMapEx Nat Nat).m.m 1 = none ∧
    ∃ s', MamoMapEx.AcquireOrStore 0 1 (fun _ => .error 9) (NewMapEx 100 : MamoMapEx Nat Nat) =
        (.ret (⟨(NewMapEx 100 : MamoMapEx Nat Nat).calls.length, none⟩, false, none), s') ∧
      MapExResult.IsError ⟨(NewMapEx 100 : MamoMapEx Nat Nat).calls.length, none⟩ s' = true ∧
      MapExResult.Err ⟨(NewMapEx 100 : MamoMapEx Nat Nat).calls.length, none⟩ s' =
        some (.returned 9) ∧
      s'.calls.length = (NewMapEx 100 : MamoMapEx Nat Nat).calls.length + 1 ∧
      (s'.m.heap[(NewMapEx 100 : MamoMapEx Nat Nat).m.heap.length]?).map (fun e' => e'.cnt) =
        some 0 ∧
      (s'.items[(NewMapEx 100 : MamoMapEx Nat Nat).items.length]?).map (fun i => i.state) =
        some .iesUninitialized ∧
      ∀ fuel' createValue',
        s'.calls.length + 1 ≤ (MamoMapEx.AcquireOrStore fuel' 1 createValue' s').2.calls.length :=
  ⟨rfl, rfl,
   (C14_errored_create_releases_the_reference 0 1 (fun _ => .error 9) 9
      (NewMapEx 100 : MamoMapEx Nat Nat) rfl rfl).2 rfl⟩

/-! ## C16: `MamoMapEx.Acquire` on an item that is not constructed -/

theorem loadStateAcquire_of_attempt (ip fuel : Nat) (s : MamoMapEx K V)
    (o : Outcome (Option Nat)) (h : attemptLoadStateAcquire ip s = some o) :
    loadStateAcquire ip fuel s = o := by
  cases fuel <;> simp [loadStateAcquire, h]

/-- The state in which `MamoMapEx.Acquire` calls `release()` when it finds the
item of the key `iesUninitialized`. -/
theorem exAcquire_uninit (fuel : Nat) (key : K) (s : MamoMapEx K V) (p : Nat)
    (e : mamoEntry Nat) (ip : Nat) (item : itemEx V) (hd : s.m.died = false)
    (hu : UninitAt s key p e ip item) :
    MamoMapEx.Acquire fuel key s =
      releaseAndReturn none { s with m := acquired key p e (Loop s.m) } := by
  obtain ⟨hm, he, hf, hv, hi, hs⟩ := hu
  have hin := Acquire_ready fuel key s.m p e ip hd hm he hf hv
  have hat : attemptLoadStateAcquire ip { s with m := acquired key p e (Loop s.m) } =
      some (.ret none) := by
    simp [attemptLoadStateAcquire, hi, hs]
  simp only [MamoMapEx.Acquire, hin, loadStateAcquire_of_attempt ip fuel _ _ hat]
  rfl

theorem wrapped_acquire_panics (S : MamoMapEx Nat Nat) (hd : S.m.died = false)
    (hu : UninitAt S 1 0
      { cnt := -2147483648, ver := 2147483648, flag := mefReady, value := some 0 } 0
      { state := .iesUninitialized, ver := 1, call := none }) :
    (MamoMapEx.Acquire 0 1 S).1 = .panics (.badRefcnt (-2147483648)) := by
  rw [exAcquire_uninit 0 1 _ 0 _ 0 _ hd hu, releaseAndReturn_outcome]
  show (match (callRelease ((acquired 1 0 _ (Loop _)).closures.length - 1)
    (acquired 1 0 _ (Loop _))).1 with
    | .ret _ => _
    | .panics msg => _
    | .blocks => _) = _
  rw [wrapped_release_panics S hd hu.1 hu.2.1]

/-- C16 (counterexample): on the MapEx with ttl 100, after a successful
`AcquireOrStore(1, ...)` whose reference is kept, `Revoke()` of its result and
`Quit()`, key 1 still has its entry and the item is `iesUninitialized`, but
`Acquire(1)` panics with the died diagnostic.  And after 2^31 successful calls
`AcquireOrStore(1, ...)`, none released, and `Revoke()`, the item is
`iesUninitialized` and the entry's `cnt` is -2^31: `Acquire(1)` panics with
`bad refcnt -2147483648` in its `release()`. -/
theorem C16_acquire_panics_on_a_quit_map_or_wrapped_cnt :
    UninitAt
      (MamoMapEx.Quit (MapExResult.Revoke ⟨0, some 0⟩
        (MamoMapEx.AcquireOrStore 0 1 (fun _ => .value 7)
          (NewMapEx 100 : MamoMapEx Nat Nat)).2)).2 1 0
      { cnt := 1, ver := 1, flag := mefReady, value := some 0 } 0
      { state := .iesUninitialized, ver := 1, call := none } ∧
    (MamoMapEx.Acquire 0 1
      (MamoMapEx.Quit (MapExResult.Revoke ⟨0, some 0⟩
        (MamoMapEx.AcquireOrStore 0 1 (fun _ => .value 7)
          (NewMapEx 100 : MamoMapEx Nat Nat)).2)).2).1 = .panics .diedMamoMap ∧
    (MapExResult.Revoke ⟨0, some 0⟩ (afterStores 2147483648)).m.died = false ∧
    UninitAt (MapExResult.Revoke ⟨0, some 0⟩ (afterStores 2147483648)) 1 0
      { cnt := -2147483648, ver := 2147483648, flag := mefReady, value := some 0 } 0
      { state := .iesUninitialized, ver := 1, call := none } ∧
    (MamoMapEx.Acquire 0 1 (MapExResult.Revoke ⟨0, some 0⟩ (afterStores 2147483648))).1 =
      .panics (.badRefcnt (-2147483648)) := by
  have hw := wrapped_revoked _ afterStores_wrapped.1 afterStores_wrapped.2.1
    afterStores_wrapped.2.2.1 afterStores_wrapped.2.2.2.1 afterStores_wrapped.2.2.2.2
  exact ⟨⟨by decide, by decide, rfl, rfl, by decide, rfl⟩, by decide, hw.1, hw.2.1,
    wrapped_acquire_panics _ hw.1 hw.2.1⟩

/-- C16 (amended): on a MapEx that has not been quit, for every key whose entry
holds an item in state `iesUninitialized` and has a `cnt` that is not negative
(fewer than 2^31 references are outstanding), `MamoMapEx.Acquire(key)` returns
nil, `acquired` false and the no-op release; it invokes no `createValue` (no
call record is added), leaves every item as it was, and leaves the entry's `cnt`
equal to its value before the call. -/
theorem C16_acquire_never_builds (fuel : Nat) (key : K) (s : MamoMapEx K V) (p : Nat)
    (e : mamoEntry Nat) (ip : Nat) (item : itemEx V) (halive : s.m.died = false)
    (hu : UninitAt s key p e ip item) (h0 : 0 ≤ e.cnt) (h1 : e.cnt < 2147483648) :
    ∃ s', MamoMapEx.Acquire fuel key s = (.ret (none, false, none), s') ∧
      s'.calls = s.calls ∧ s'.items = s.items ∧
      (s'.m.heap[p]?).map (fun e' => e'.cnt) = some e.cnt := by
  have heq := exAcquire_uninit fuel key s p e ip item halive hu
  obtain ⟨hm, he, hf, hv, hi, hs⟩ := hu
  have hlt : p < s.m.heap.length := (List.getElem?_eq_some.mp he).1
  have hLf := Loop_frame s.m
  have hra := release_after key p (acquired key p e (Loop s.m))
    { e with cnt := addInt32 e.cnt 1, ver := addUint32 e.ver 1 } (Loop s.m).closures rfl
    (by show (Loop s.m).m key = some p; rw [hLf.1]; exact hm)
    (by show ((Loop s.m).heap.set p _)[p]? = _; rw [hLf.2.1]; simp [List.getElem?_set, hlt])
    hf (by show (Loop s.m).died = false; rw [hLf.2.2.1]; exact halive)
    (Loop_running s.m halive)
  simp only [addInt32_back e.cnt (by omega) h1] at hra
  have hfr := releaseAndReturn_frame (none : Option MapExResult)
    ({ s with m := acquired key p e (Loop s.m) } : MamoMapEx K V)
  have hout := releaseAndReturn_outcome (none : Option MapExResult)
    ({ s with m := acquired key p e (Loop s.m) } : MamoMapEx K V)
  refine ⟨_, ?_, hfr.1, hfr.2.1, ?_⟩
  · rw [heq]
    refine Prod.ext ?_ rfl
    rw [hout]
    show (match (callRelease ((acquired key p e (Loop s.m)).closures.length - 1)
      (acquired key p e (Loop s.m))).1 with
      | .ret _ => _
      | .panics msg => _
      | .blocks => _) = _
    rw [hra.2.1 h0]
  · rw [hfr.2.2]
    exact hra.2.2.2.1


/-- Witness of `C16_acquire_never_builds`: the MapEx with ttl 100 after an
`AcquireOrStore(1, create)` whose `create` returned the error 9. -/
theorem C16_acquire_never_builds_witness :
    (MamoMapEx.AcquireOrStore 0 1 (fun _ => .error 9)
      (NewMapEx 100 : MamoMapEx Nat Nat)).2.m.died = false ∧
    UninitAt (MamoMapEx.AcquireOrStore 0 1 (fun _ => .error 9)
      (NewMapEx 100 : MamoMapEx Nat Nat)).2 1 0
      { cnt := 0, ver := 2, flag := mefReady, value := some 0 } 0
      { state := .iesUninitialized, ver := 0, call := some 0 } ∧
    ∃ s', MamoMapEx.Acquire 0 1 (MamoMapEx.AcquireOrStore 0 1 (fun _ => .error 9)
        (NewMapEx 100 : MamoMapEx Nat Nat)).2 = (.ret (none, false, none), s') ∧
      s'.calls = (MamoMapEx.AcquireOrStore 0 1 (fun _ => .error 9)
        (NewMapEx 100 : MamoMapEx Nat Nat)).2.calls ∧
      s'.items = (MamoMapEx.AcquireOrStore 0 1 (fun _ => .error 9)
        (NewMapEx 100 : MamoMapEx Nat Nat)).2.items ∧
      (s'.m.heap[0]?).map (fun e' => e'.cnt) = some 0 :=
  ⟨by decide, ⟨by decide, by decide, rfl, rfl, by decide, rfl⟩,
   C16_acquire_never_builds 0 1 _ 0 { cnt := 0, ver := 2, flag := mefReady, value := some 0 } 0
     { state := .iesUninitialized, ver := 0, call := some 0 } (by decide)
     ⟨by decide, by decide, rfl, rfl, by decide, rfl⟩ (by decide) (by decide)⟩

/-! ## C15: `Revoke` -/

theorem set_getElem?_self {α : Type} (l : List α) (i : Nat) (a : α) (h : l[i]? = some a) :
    l.set i a = l := by
  apply List.ext_getElem?
  intro j
  rw [List.getElem?_set]
  split
  · rename_i hij
    subst hij
    rw [h]
    simp [(List.getElem?_eq_some.mp h).1]
  · rfl

theorem revoke_stale (item : itemEx V) (ver : Nat) (h : ver ≠ item.ver) :
    item.revoke ver = item := by
  unfold itemEx.revoke
  split
  · rename_i hs
    simp only [h, ne_eq, not_false_eq_true, if_true]
    cases item
    simp_all
  · rfl

theorem revoke_fresh (item : itemEx V) (hs : item.state = .iesReady) :
    item.revoke item.ver =
      { state := .iesUninitialized, ver := addUint32 item.ver 1, call := none } := by
  simp [itemEx.revoke, hs]

theorem addUint32_one_ne (v : Nat) : addUint32 v 1 ≠ v := by
  unfold addUint32
  omega

/-- C15 (amended): for every successful result `r` (no error, item `ip`) that is
not yet revoked (the item is `iesReady` with the version of `r`'s call), the
first `r.Revoke()` moves the item to `iesUninitialized`, sets its `ver` to
`ver + 1` modulo 2^32 and clears its call, so that `r.IsRevoked()`, false before,
is true; no other item, no call and nothing of the inner map (entries and
reference counts) changes.  Every later `r.Revoke()`, made in a state in which
the item's `ver` differs from the version of `r`'s call, leaves the whole state
as it was, also when the item is `iesReady` with a newer call; this is so right
after the first `Revoke()`. -/
theorem C15_revoke_once (s : MamoMapEx K V) (r : MapExResult) (ip : Nat) (c : call V)
    (item : itemEx V) (hr : r.item = some ip) (hc : s.calls[r.call]? = some c)
    (herr : c.err = none) (hi : s.items[ip]? = some item) (hs : item.state = .iesReady)
    (hv : c.ver = item.ver) :
    r.IsRevoked s = false ∧
    (r.Revoke s).items[ip]? =
      some { state := .iesUninitialized, ver := addUint32 item.ver 1, call := none } ∧
    (∀ j, j ≠ ip → (r.Revoke s).items[j]? = s.items[j]?) ∧
    (r.Revoke s).m = s.m ∧ (r.Revoke s).calls = s.calls ∧
    r.IsRevoked (r.Revoke s) = true ∧
    r.Revoke (r.Revoke s) = r.Revoke s ∧
    (∀ (s' : MamoMapEx K V) (item' : itemEx V), s'.calls[r.call]? = some c →
      s'.items[ip]? = some item' → item'.ver ≠ c.ver →
      r.Revoke s' = s' ∧ r.IsRevoked s' = true) := by
  have hlt : ip < s.items.length := (List.getElem?_eq_some.mp hi).1
  have hlater : ∀ (s' : MamoMapEx K V) (item' : itemEx V), s'.calls[r.call]? = some c →
      s'.items[ip]? = some item' → item'.ver ≠ c.ver →
      r.Revoke s' = s' ∧ r.IsRevoked s' = true := by
    intro s' item' hc' hi' hne
    constructor
    · simp only [MapExResult.Revoke, hr, hc', herr, if_true, hi',
        revoke_stale item' c.ver (fun h => hne h.symm), set_getElem?_self _ _ _ hi']
    · have hne' : ¬ c.ver = item'.ver := fun h => hne h.symm
      simp [MapExResult.IsRevoked, hr, hc', hi', hne']
  have hR : r.Revoke s = ⟨s.m, s.items.set ip
      { state := .iesUninitialized, ver := addUint32 item.ver 1, call := none }, s.calls⟩ := by
    simp only [MapExResult.Revoke, hr, hc, herr, if_true, hi, hv, revoke_fresh item hs]
  have hi2 : (r.Revoke s).items[ip]? =
      some { state := .iesUninitialized, ver := addUint32 item.ver 1, call := none } := by
    rw [hR]
    simp [List.getElem?_set, hlt]
  have hc2 : (r.Revoke s).calls[r.call]? = some c := by
    rw [hR]
    exact hc
  have h2 := hlater (r.Revoke s) _ hc2 hi2 (by rw [hv]; exact addUint32_one_ne item.ver)
  refine ⟨?_, hi2, ?_, ?_, ?_, h2.2, h2.1, hlater⟩
  · simp [MapExResult.IsRevoked, hr, hc, hi, hv]
  · intro j hj
    rw [hR]
    simp only [List.getElem?_set]
    rw [if_neg (fun h => hj h.symm)]
  · rw [hR]
  · rw [hR]


/-- The `AcquireOrStore(1, create)` of a state with `RevokedInv`: the result is
the new call, and the item is `iesReady` with it. -/
theorem store_of_revokedInv (n v : Nat) (S : MamoMapEx Nat Nat) (h : RevokedInv n S) :
    ∃ m1, MamoMapEx.AcquireOrStore 0 1 (fun _ => .value v) S =
      (.ret (⟨S.calls.length, some 0⟩, true, some ⟨1, 0⟩),
        ⟨m1, [{ state := .iesReady, ver := n % 4294967296, call := some S.calls.length }],
          S.calls ++ [{ done := true, value := some v, ver := n % 4294967296, err := none }]⟩) ∧
      m1.died = false ∧ m1.m 1 = some 0 ∧
      ∃ cnt ver, m1.heap[0]? =
        some { cnt := cnt, ver := ver, flag := mefReady, value := some 0 } := by
  obtain ⟨hd, hm, ⟨cnt, ver, he⟩, hi, hc⟩ := h
  have hu : UninitAt S 1 0 { cnt := cnt, ver := ver, flag := mefReady, value := some 0 } 0
      { state := .iesUninitialized, ver := n % 4294967296, call := none } :=
    ⟨hm, he, rfl, rfl, by rw [hi]; rfl, rfl⟩
  have hA := exStore_loaded_value 0 1 (fun _ => .value v) v S 0 _ 0 _ hd hu rfl
  have hlt := (List.getElem?_eq_some.mp he).1
  have hLf := Loop_frame S.m
  refine ⟨acquired 1 0 { cnt := cnt, ver := ver, flag := mefReady, value := some 0 } (Loop S.m),
    ?_, ?_, ?_, addInt32 cnt 1, addUint32 ver 1, ?_⟩
  · rw [hA, hi]
    rfl
  · show (Loop S.m).died = false
    rw [hLf.2.2.1]; exact hd
  · show (Loop S.m).m 1 = some 0
    rw [hLf.1]; exact hm
  · show ((Loop S.m).heap.set 0 _)[0]? = _
    rw [hLf.2.1]
    simp only [List.getElem?_set, hlt, if_true]

theorem storeAndRevoke_inv (n : Nat) (S : MamoMapEx Nat Nat) (h : RevokedInv n S) :
    RevokedInv (n + 1) (storeAndRevoke S) := by
  obtain ⟨m1, hA, hd1, hm1, he1⟩ := store_of_revokedInv n 7 S h
  obtain ⟨hd, hm, _, hi, hc⟩ := h
  have hlen : 0 < S.calls.length := (List.getElem?_eq_some.mp hc).1
  have hS : storeAndRevoke S =
      ⟨m1, [{ state := .iesUninitialized, ver := (n + 1) % 4294967296, call := none }],
        S.calls ++ [{ done := true, value := some 7, ver := n % 4294967296, err := none }]⟩ := by
    have hmod : (n % 4294967296 + 1) % 4294967296 = (n + 1) % 4294967296 := by omega
    simp [storeAndRevoke, hA, MapExResult.Revoke, itemEx.revoke, addUint32, hmod]
  rw [hS]
  refine ⟨hd1, hm1, he1, rfl, ?_⟩
  show (S.calls ++ _)[0]? = _
  rw [List.getElem?_append_left hlen]
  exact hc

theorem afterRevokes_succ (n : Nat) : RevokedInv (n + 1) (afterRevokes (n + 1)) := by
  induction n with
  | zero =>
    unfold afterRevokes
    exact ⟨by decide, by decide, ⟨1, 1, by decide⟩, by decide, by decide⟩
  | succ n ih =>
    have hstep : afterRevokes (n + 1 + 1) = storeAndRevoke (afterRevokes (n + 1)) := by
      unfold afterRevokes
      rw [Function.iterate_succ_apply']
    rw [hstep]
    exact storeAndRevoke_inv (n + 1) _ ih

theorem afterRevokes_inv (n : Nat) (hn : 0 < n) : RevokedInv n (afterRevokes n) := by
  cases n with
  | zero => cases hn
  | succ n => exact afterRevokes_succ n

/-- A result whose call has the version 0, in a state in which its item has come
back to `ver` 0 and is `iesReady` with a newer call: the result does not count as
revoked, and its `Revoke()` clears the item. -/
theorem stale_revoke_hits (S : MamoMapEx Nat Nat) (cp : Nat)
    (hi : S.items = [{ state := .iesReady, ver := 0, call := some cp }])
    (hc : S.calls[0]? = some { done := true, value := some 7, ver := 0, err := none }) :
    MapExResult.IsRevoked ⟨0, some 0⟩ S = false ∧
    (MapExResult.Revoke ⟨0, some 0⟩ S).items =
      [{ state := .iesUninitialized, ver := 1, call := none }] := by
  simp [MapExResult.IsRevoked, MapExResult.Revoke, hi, hc, itemEx.revoke, addUint32]

/-- C15 (counterexample): on the MapEx with ttl 100, the first
`AcquireOrStore(1, ...)` returns the result `r` with call 0, which the first
round revokes.  After 2^32 rounds of `AcquireOrStore(1, ...)` and `Revoke()` of
the result, the item's `ver` has wrapped around to 0, the version of `r`'s call.
A further `AcquireOrStore(1, create)` with a `create` that returns 8 makes the
item `iesReady` with a newer call holding 8.  Then `r.IsRevoked()` is false, and
the later `r.Revoke()` moves the item to `iesUninitialized` with `ver` 1 and no
call: the newer value is invalidated. -/
theorem C15_later_revoke_invalidates_a_newer_value :
    (MamoMapEx.AcquireOrStore 0 1 (fun _ => .value 7) (NewMapEx 100 : MamoMapEx Nat Nat)).1 =
      .ret (⟨0, some 0⟩, true, some ⟨1, 0⟩) ∧
    (afterRevokes 4294967296).items =
      [{ state := .iesUninitialized, ver := 0, call := none }] ∧
    (afterRevokes 4294967296).calls[0]? =
      some { done := true, value := some 7, ver := 0, err := none } ∧
    (MamoMapEx.AcquireOrStore 0 1 (fun _ => .value 8) (afterRevokes 4294967296)).2.items =
      [{ state := .iesReady, ver := 0, call := some (afterRevokes 4294967296).calls.length }] ∧
    (MamoMapEx.AcquireOrStore 0 1 (fun _ => .value 8) (afterRevokes 4294967296)).2.calls[
      (afterRevokes 4294967296).calls.length]? =
      some { done := true, value := some 8, ver := 0, err := none } ∧
    MapExResult.IsRevoked ⟨0, some 0⟩
      (MamoMapEx.AcquireOrStore 0 1 (fun _ => .value 8) (afterRevokes 4294967296)).2 = false ∧
    (MapExResult.Revoke ⟨0, some 0⟩
      (MamoMapEx.AcquireOrStore 0 1 (fun _ => .value 8) (afterRevokes 4294967296)).2).items =
      [{ state := .iesUninitialized, ver := 1, call := none }] := by
  have hinv := afterRevokes_inv 4294967296 (by decide)
  obtain ⟨m1, hA, _, _, _⟩ := store_of_revokedInv 4294967296 8 _ hinv
  obtain ⟨_, _, _, hi, hc⟩ := hinv
  have hlen : 0 < (afterRevokes 4294967296).calls.length := (List.getElem?_eq_some.mp hc).1
  have hst := stale_revoke_hits
    (MamoMapEx.AcquireOrStore 0 1 (fun _ => .value 8) (afterRevokes 4294967296)).2
    (afterRevokes 4294967296).calls.length (by rw [hA]) (by
      rw [hA]
      show ((afterRevokes 4294967296).calls ++ _)[0]? = _
      rw [List.getElem?_append_left hlen]
      exact hc)
  refine ⟨by decide, hi, hc, by rw [hA], ?_, hst.1, hst.2⟩
  rw [hA]
  show ((afterRevokes 4294967296).calls ++ _)[(afterRevokes 4294967296).calls.length]? = _
  rw [List.getElem?_append_right (le_refl _), Nat.sub_self]
  rfl

/-- Witness of `C15_revoke_once`: the MapEx with ttl 100 after
`AcquireOrStore(1, create)` with a `create` that returns 7, and the result of
that call. -/
theorem C15_revoke_once_witness :
    (MamoMapEx.AcquireOrStore 0 1 (fun _ => .value 7) (NewMapEx 100 : MamoMapEx Nat Nat)).1 =
      .ret (⟨0, some 0⟩, true, some ⟨1, 0⟩) ∧
    MapExResult.IsRevoked ⟨0, some 0⟩
      (MamoMapEx.AcquireOrStore 0 1 (fun _ => .value 7)
        (NewMapEx 100 : MamoMapEx Nat Nat)).2 = false ∧
    MapExResult.IsRevoked ⟨0, some 0⟩
      (MapExResult.Revoke ⟨0, some 0⟩
        (MamoMapEx.AcquireOrStore 0 1 (fun _ => .value 7)
          (NewMapEx 100 : MamoMapEx Nat Nat)).2) = true :=
  ⟨by decide,
   (C15_revoke_once
      (MamoMapEx.AcquireOrStore 0 1 (fun _ => .value 7) (NewMapEx 100 : MamoMapEx Nat Nat)).2
      ⟨0, some 0⟩ 0 { done := true, value := some 7, ver := 0, err := none }
      { state := .iesReady, ver := 0, call := some 0 } rfl (by decide) rfl (by decide) rfl rfl).1,
   (C15_revoke_once
      (MamoMapEx.AcquireOrStore 0 1 (fun _ => .value 7) (NewMapEx 100 : MamoMapEx Nat Nat)).2
      ⟨0, some 0⟩ 0 { done := true, value := some 7, ver := 0, err := none }
      { state := .iesReady, ver := 0, call := some 0 } rfl (by decide) rfl (by decide) rfl
      rfl).2.2.2.2.2.1⟩

/-! ## C20: two-epoch reaping -/

/-- An entry that is deleted stays as it is under `tryDelete`, and an entry with
`cnt == 0` and version `v` that is `mefReady` is left as it is or deleted. -/
theorem tryDelete_gone (key : K) (p ver q v : Nat) (s : MamoMap K V) (e : mamoEntry V)
    (hc : e.cnt = 0) (hv : e.ver = v)
    (h : s.heap[q]? = some e ∧ e.flag = mefReady ∨
      s.heap[q]? = some { e with flag := mefDeleted, value := none }) :
    ((tryDelete key p ver s).heap[q]? = some e ∧ e.flag = mefReady ∨
      (tryDelete key p ver s).heap[q]? = some { e with flag := mefDeleted, value := none }) ∧
    (p = q → ver = v →
      (tryDelete key p ver s).heap[q]? = some { e with flag := mefDeleted, value := none }) := by
  constructor
  · rcases tryDelete_cases key p ver s with hs | ⟨e', he', hc', hv', hf', hd⟩
    · rw [hs]
      exact h
    · rw [hd]
      by_cases hpq : q = p
      · subst hpq
        have hee : e' = e ∨ e' = { e with flag := mefDeleted, value := none } := by
          rcases h with ⟨he, _⟩ | he
          · rw [he'] at he; exact Or.inl (Option.some.inj he)
          · rw [he'] at he; exact Or.inr (Option.some.inj he)
        rcases hee with hee | hee
        · subst hee
          have := heap_destroy s key q q e' he'
          rw [if_pos rfl] at this
          exact Or.inr this
        · rw [hee] at hf'
          cases hf'
      · rw [heap_destroy s key p q e' he', if_neg hpq]
        exact h
  · intro hpq hver
    subst hpq
    rcases h with ⟨he, hf⟩ | he
    · rw [tryDelete_destroy key p ver s e he hc (hv.trans hver.symm) hf, heap_destroy s key p p e he,
        if_pos rfl]
    · rw [tryDelete_skip key p ver s _ he (fun hcond => by cases hcond.2.2)]
      exact he

theorem tryDeleteAll_gone (ps : List (mamoMapIdleEventPayload K)) (q v : Nat) (e : mamoEntry V)
    (hc : e.cnt = 0) (hv : e.ver = v) :
    ∀ s : MamoMap K V,
      (s.heap[q]? = some e ∧ e.flag = mefReady ∨
        s.heap[q]? = some { e with flag := mefDeleted, value := none }) →
      ((tryDeleteAll ps s).heap[q]? = some e ∧ e.flag = mefReady ∨
        (tryDeleteAll ps s).heap[q]? = some { e with flag := mefDeleted, value := none }) ∧
      ((s.heap[q]? = some { e with flag := mefDeleted, value := none } ∨
          ∃ x ∈ ps, x.entry = q ∧ x.prevVer = v) →
        (tryDeleteAll ps s).heap[q]? = some { e with flag := mefDeleted, value := none }) := by
  induction ps with
  | nil =>
    intro s h
    refine ⟨h, ?_⟩
    rintro (h1 | ⟨x, hx, _⟩)
    · exact h1
    · cases hx
  | cons y ys ih =>
    intro s h
    have h1 := tryDelete_gone y.key y.entry y.prevVer q v s e hc hv h
    have h2 := ih (tryDelete y.key y.entry y.prevVer s) h1.1
    simp only [tryDeleteAll, List.foldl_cons] at h2 ⊢
    refine ⟨h2.1, ?_⟩
    rintro (hdel | ⟨x, hx, hxq, hxv⟩)
    · apply h2.2
      left
      rcases h1.1 with ⟨he, hf⟩ | he
      · rw [hdel] at h
        rcases h with ⟨h', hf'⟩ | _
        · have := Option.some.inj h'
          rw [← this] at hf'
          cases hf'
        · rcases tryDelete_cases y.key y.entry y.prevVer s with hs | ⟨e', he', _, _, hf', hd⟩
          · rw [hs]; exact hdel
          · rw [hd, heap_destroy s y.key y.entry q e' he']
            split
            · rename_i hq
              subst hq
              rw [hdel] at he'
              have := Option.some.inj he'
              rw [← this] at hf'
              cases hf'
            · exact hdel
      · exact he
    · rcases List.mem_cons.mp hx with hxy | hxy
      · subst hxy
        exact h2.2 (Or.inl (h1.2 hxq hxv))
      · exact h2.2 (Or.inr ⟨x, hxy, hxq, hxv⟩)


/-- The Tick that finds the payload `p` in `toCheck`. -/
theorem Tick_first (s : MamoMap K V) (p : mamoMapIdleEventPayload K)
    (hrun : s.loopRunning = true) (harm : s.timer.inner = true) (hp : p ∈ s.toCheck) :
    (Tick s).heap = (tryDeleteAll s.toDelete s).heap ∧
    (Tick s).m = (tryDeleteAll s.toDelete s).m ∧
    (Tick s).deleted = (tryDeleteAll s.toDelete s).deleted ∧
    (Tick s).toCheck = [] ∧
    (p ∈ (Tick s).toDelete ↔ payloadUntouched (tryDeleteAll s.toDelete s) p = true) ∧
    (Tick s).timer = { inner := true, duration := s.timer.duration } := by
  have hne : ¬ (s.toDelete.length = 0 ∧ s.toCheck.length = 0) := by
    intro h
    have := List.length_pos_of_mem hp
    omega
  have hT : Tick s = loopTick s := by simp [Tick, hrun, harm]
  have hf := tryDeleteAll_frame s.toDelete s
  rw [hT]
  unfold loopTick
  rw [if_neg hne]
  refine ⟨rfl, rfl, rfl, rfl, ?_, ?_⟩
  · show p ∈ List.filter _ (tryDeleteAll s.toDelete s).toCheck ↔ _
    rw [List.mem_filter, hf.1]
    exact ⟨fun h => h.2, fun h => ⟨hp, h⟩⟩
  · show (tryDeleteAll s.toDelete s).timer.stop.start = _
    rw [hf.2.2.2.2.2.1]
    simp [timer.start, timer.stop, harm]

/-- The Tick that finds the payload `p` in `toDelete`, its entry untouched. -/
theorem Tick_second (s : MamoMap K V) (p : mamoMapIdleEventPayload K) (e : mamoEntry V)
    (hrun : s.loopRunning = true) (harm : s.timer.inner = true) (hp : p ∈ s.toDelete)
    (he : s.heap[p.entry]? = some e) (hc : e.cnt = 0) (hv : e.ver = p.prevVer)
    (hf : e.flag = mefReady) :
    (Tick s).heap[p.entry]? = some { e with flag := mefDeleted, value := none } ∧
    (Tick s).timer = { inner := true, duration := s.timer.duration } := by
  have hne : ¬ (s.toDelete.length = 0 ∧ s.toCheck.length = 0) := by
    intro h
    have := List.length_pos_of_mem hp
    omega
  have hT : Tick s = loopTick s := by simp [Tick, hrun, harm]
  have hfr := tryDeleteAll_frame s.toDelete s
  rw [hT]
  unfold loopTick
  rw [if_neg hne]
  constructor
  · exact (tryDeleteAll_gone s.toDelete p.entry p.prevVer e hc hv s (Or.inl ⟨he, hf⟩)).2
      (Or.inr ⟨p, hp, rfl, rfl⟩)
  · show (tryDeleteAll s.toDelete s).timer.stop.start = _
    rw [hfr.2.2.2.2.2.1]
    simp [timer.start, timer.stop, harm]

theorem clockInv_new (ttl : Int) (fin : Bool) : ClockInv (Clocked.new ttl fin : Clocked K V) := by
  refine ⟨le_refl _, ?_, ?_, ?_⟩ <;> intro a ha <;> cases ha

theorem clockInv_tick (c : Clocked K V) (now : Int) (h : ClockInv c) (hge : c.now ≤ now)
    (hfire : c.armedAt + c.map.timer.duration ≤ now) : ClockInv (c.tick now) := by
  unfold Clocked.tick
  split
  · exact ⟨le_trans h.armed hge, fun a ha => le_trans (h.check a ha) hge, h.delete, h.reaped⟩
  · refine ⟨le_refl _, ?_, ?_, ?_⟩
    · intro a ha
      cases ha
    · intro a ha
      obtain ⟨x, hx, rfl⟩ := List.mem_map.mp ha
      have hx' := (List.of_mem_zip (List.mem_filter.mp hx).1).2
      exact le_trans (h.check _ hx') hge
    · intro r hr
      rcases List.mem_append.mp hr with hr | hr
      · exact h.reaped r hr
      · obtain ⟨x, hx, rfl⟩ := List.mem_map.mp hr
        have hx' := h.delete _ (List.of_mem_zip hx).2
        show x.2 + c.map.timer.duration ≤ now
        omega

theorem clockInv_step (fuel : Nat) (delay : Nat) (op : Op K V) (c : Clocked K V)
    (h : ClockInv c) : ClockInv (c.step fuel delay op) := by
  have hge : c.now ≤ c.now + delay := by omega
  have hother : ∀ m1 : MamoMap K V, ∀ k : Nat, ClockInv
      ({ c with
        map := m1
        now := c.now + delay
        armedAt := if c.map.timer.inner then c.armedAt else c.now + delay
        checkAt := c.checkAt ++ List.replicate k (c.now + delay) } : Clocked K V) := by
    intro m1 k
    have harm : (if c.map.timer.inner then c.armedAt else c.now + delay) ≤ c.now + delay := by
      split
      · exact le_trans h.armed hge
      · exact le_refl _
    have hle : c.armedAt ≤ (if c.map.timer.inner then c.armedAt else c.now + delay) := by
      split
      · exact le_refl _
      · exact le_trans h.armed hge
    refine ⟨harm, ?_, ?_, h.reaped⟩
    · intro a ha
      rcases List.mem_append.mp ha with ha | ha
      · exact le_trans (h.check a ha) hge
      · rw [(List.mem_replicate.mp ha).2]
    · intro a ha
      exact le_trans (h.delete a ha) hle
  cases op with
  | tick =>
    unfold Clocked.step
    simp only
    split
    · rename_i hc
      simp only [Bool.and_eq_true, decide_eq_true_eq] at hc
      exact clockInv_tick c _ h hge hc.2
    · exact ⟨le_trans h.armed hge, fun a ha => le_trans (h.check a ha) hge, h.delete, h.reaped⟩
  | acquireOrStore key value => exact hother _ _
  | acquire key => exact hother _ _
  | callRelease i => exact hother _ _
  | release key => exact hother _ _
  | quit => exact hother _ _

theorem clockInv_run (fuel : Nat) (events : List (Nat × Op K V)) (c : Clocked K V)
    (h : ClockInv c) : ClockInv (c.run fuel events) := by
  induction events generalizing c with
  | nil => exact h
  | cons ev evs ih => exact ih _ (clockInv_step fuel ev.1 ev.2 c h)

theorem tryDelete_lists (key : K) (p ver : Nat) (s s0 : MamoMap K V)
    (h1 : s.toDelete = s0.toDelete) (h2 : s.toCheck = s0.toCheck) :
    (tryDelete key p ver s).toDelete = s0.toDelete ∧
    s0.toCheck.length ≤ (tryDelete key p ver s).toCheck.length := by
  have h := tryDelete_frame key p ver s
  rw [h.1, h.2.1, h1, h2]
  exact ⟨rfl, le_refl _⟩

theorem releaseEntry_lists (key : K) (p : Nat) (s : MamoMap K V) :
    (releaseEntry key p s).2.toDelete = s.toDelete ∧
    s.toCheck.length ≤ (releaseEntry key p s).2.toCheck.length := by
  unfold releaseEntry
  split
  · exact ⟨rfl, le_refl _⟩
  · dsimp only
    split
    · exact ⟨rfl, le_refl _⟩
    · split
      · split
        · exact tryDelete_lists _ _ _ _ s rfl rfl
        · split
          · exact tryDelete_lists _ _ _ _ s rfl rfl
          · split
            · refine ⟨rfl, ?_⟩
              show s.toCheck.length ≤ (s.toCheck ++ [_]).length
              simp
            · exact ⟨rfl, le_refl _⟩
      · exact ⟨rfl, le_refl _⟩

theorem loopQuit_lists (s : MamoMap K V) :
    (loopQuit s).toDelete = s.toDelete ∧ (loopQuit s).toCheck = s.toCheck := by
  have h1 := tryDeleteAll_frame s.toDelete ({ s with died := true } : MamoMap K V)
  have h2 := tryDeleteAll_frame
    (tryDeleteAll s.toDelete ({ s with died := true } : MamoMap K V)).toCheck
    (tryDeleteAll s.toDelete ({ s with died := true } : MamoMap K V))
  exact ⟨h2.2.1.trans h1.2.1, h2.1.trans h1.1⟩

/-- No operation other than a Tick touches `toDelete`, and none shortens `toCheck`. -/
theorem lists_step {s : MamoMap K V} (h : WF s) (fuel : Nat) (op : Op K V) (hop : op ≠ .tick) :
    (step fuel op s).toDelete = s.toDelete ∧
    s.toCheck.length ≤ (step fuel op s).toCheck.length := by
  have hL := Loop_frame s
  have hLl : (Loop s).toDelete = s.toDelete ∧ s.toCheck.length ≤ (Loop s).toCheck.length :=
    ⟨hL.2.2.2.2.2.2.2.2.2.2.1, Nat.le_of_eq (congrArg List.length hL.2.2.2.2.2.2.2.2.2.1).symm⟩
  cases op with
  | acquireOrStore key value =>
    show (AcquireOrStore fuel key ⟨[], value⟩ s).2.toDelete = _ ∧
      _ ≤ (AcquireOrStore fuel key ⟨[], value⟩ s).2.toCheck.length
    cases hd : s.died with
    | true => rw [AcquireOrStore_died fuel key _ s hd]; exact hLl
    | false =>
      cases hm : s.m key with
      | none => rw [AcquireOrStore_stored fuel key value s hd hm]; exact hLl
      | some p =>
        obtain ⟨e, he, hf⟩ := h.map_ready key p hm
        obtain ⟨w, hv'⟩ := wf_value h he hf
        rw [AcquireOrStore_loaded fuel key _ s p e w hd hm he hf hv']
        exact hLl
  | acquire key =>
    show (Acquire fuel key s).2.toDelete = _ ∧ _ ≤ (Acquire fuel key s).2.toCheck.length
    cases hd : s.died with
    | true => rw [Acquire_died fuel key s hd]; exact hLl
    | false =>
      cases hm : s.m key with
      | none => rw [Acquire_missing fuel key s hd hm]; exact hLl
      | some p =>
        obtain ⟨e, he, hf⟩ := h.map_ready key p hm
        obtain ⟨w, hv'⟩ := wf_value h he hf
        rw [Acquire_ready fuel key s p e w hd hm he hf hv']
        exact hLl
  | callRelease i =>
    show (callRelease i s).2.toDelete = _ ∧ _ ≤ (callRelease i s).2.toCheck.length
    unfold callRelease
    split
    · exact ⟨rfl, le_refl _⟩
    · exact releaseEntry_lists _ _ _
  | release key =>
    show (Release key s).2.toDelete = _ ∧ _ ≤ (Release key s).2.toCheck.length
    unfold Release
    split
    · exact ⟨rfl, le_refl _⟩
    · exact releaseEntry_lists _ _ _
  | tick => exact absurd rfl hop
  | quit =>
    show (Quit s).2.toDelete = _ ∧ _ ≤ (Quit s).2.toCheck.length
    unfold Quit
    split
    · split
      · exact ⟨rfl, le_refl _⟩
      · exact ⟨rfl, le_refl _⟩
    · show (if (Loop s).died = true then
        ((Outcome.ret (), Loop s) : Outcome Unit × MamoMap K V)
        else (Outcome.ret (), loopQuit (Loop s))).2.toDelete = _ ∧ _ ≤ (if (Loop s).died = true then
        ((Outcome.ret (), Loop s) : Outcome Unit × MamoMap K V)
        else (Outcome.ret (), loopQuit (Loop s))).2.toCheck.length
      split
      · exact hLl
      · have hq := loopQuit_lists (Loop s)
        exact ⟨hq.1.trans hLl.1, le_trans hLl.2 (Nat.le_of_eq (congrArg List.length hq.2).symm)⟩

theorem zip_filter_length {α β : Type} (P : α → Bool) (l : List α) :
    ∀ t : List β, t.length = l.length →
      (((l.zip t).filter fun x => P x.1).map Prod.snd).length = (l.filter P).length := by
  induction l with
  | nil => intro t _; simp
  | cons a l ih =>
    intro t ht
    cases t with
    | nil => simp at ht
    | cons b t =>
      have := ih t (by simpa using ht)
      simp only [List.zip_cons_cons, List.filter_cons]
      split <;> simp_all

theorem aligned_tick (c : Clocked K V) (now : Int) (h : Aligned c) : Aligned (c.tick now) := by
  unfold Clocked.tick
  split
  · rename_i he
    unfold Aligned loopTick
    rw [if_pos he]
    exact h
  · rename_i he
    unfold Aligned loopTick
    rw [if_neg he]
    refine ⟨rfl, ?_⟩
    have hf := tryDeleteAll_frame c.map.toDelete c.map
    show (List.map Prod.snd _).length = (List.filter _ (tryDeleteAll c.map.toDelete c.map).toCheck).length
    rw [hf.1]
    exact zip_filter_length _ c.map.toCheck c.checkAt h.1

theorem aligned_step (fuel : Nat) (delay : Nat) (op : Op K V) (c : Clocked K V)
    (hwf : WF c.map) (h : Aligned c) :
    WF (c.step fuel delay op).map ∧ Aligned (c.step fuel delay op) := by
  have hother : ∀ op : Op K V, op ≠ .tick →
      WF (mamo.step fuel op c.map) ∧ Aligned
      ({ c with
        map := mamo.step fuel op c.map
        now := c.now + delay
        armedAt := if c.map.timer.inner then c.armedAt else c.now + delay
        checkAt := c.checkAt ++
          List.replicate ((mamo.step fuel op c.map).toCheck.length - c.map.toCheck.length)
            (c.now + delay) } : Clocked K V) := by
    intro op hop
    have hl := lists_step hwf fuel op hop
    refine ⟨wf_step hwf fuel op, ?_, ?_⟩
    · show (c.checkAt ++ List.replicate _ _).length = (mamo.step fuel op c.map).toCheck.length
      rw [List.length_append, List.length_replicate, h.1]
      omega
    · show c.deleteAt.length = (mamo.step fuel op c.map).toDelete.length
      rw [hl.1, h.2]
  cases op with
  | tick =>
    unfold Clocked.step
    simp only
    split
    · refine ⟨?_, aligned_tick c _ h⟩
      have : (c.tick (c.now + delay)).map = loopTick c.map := by
        unfold Clocked.tick
        split <;> rfl
      rw [this]
      exact wf_loopTick hwf
    · exact ⟨hwf, h⟩
  | acquireOrStore key value => exact hother (.acquireOrStore key value) (by simp)
  | acquire key => exact hother (.acquire key) (by simp)
  | callRelease i => exact hother (.callRelease i) (by simp)
  | release key => exact hother (.release key) (by simp)
  | quit => exact hother .quit (by simp)

theorem aligned_run (fuel : Nat) (events : List (Nat × Op K V)) (c : Clocked K V)
    (hwf : WF c.map) (h : Aligned c) : Aligned (c.run fuel events) := by
  induction events generalizing c with
  | nil => exact h
  | cons ev evs ih =>
    have h1 := aligned_step fuel ev.1 ev.2 c hwf h
    exact ih _ h1.1 h1.2

theorem Loop_started (s : MamoMap K V) (ho : s.once = true) : Loop s = s := by
  unfold Loop
  split
  · rfl
  · rfl

theorem pairsInv_step (n : Nat) (c : Clocked Nat Nat) (h : PairsInv n c) :
    PairsInv (n + 1) ((c.step 0 0 (.acquire 1)).step 0 0 (.release 1)) := by
  obtain ⟨hd, ho, hfast, hm, hh, htd, htm, hnow, harm, hda, hre, ⟨l, htc⟩, ⟨l', hca⟩⟩ := h
  have he : c.map.heap[0]? =
      some { cnt := 0, ver := (4 + 2 * n) % 4294967296, flag := mefReady, value := some 7 } := by
    rw [hh]; rfl
  have hA := Acquire_ready 0 1 c.map 0 _ 7 hd hm he rfl rfl
  rw [Loop_started c.map ho] at hA
  have hv : addUint32 (addUint32 ((4 + 2 * n) % 4294967296) 1) 1 =
      (4 + 2 * (n + 1)) % 4294967296 := by
    unfold addUint32
    omega
  have hc1 : addInt32 (addInt32 0 1) (-1) = 0 := by decide
  have hmap : ((c.step 0 0 (.acquire 1)).step 0 0 (.release 1)).map =
      loopIdle ⟨1, 0, (4 + 2 * (n + 1)) % 4294967296⟩
        { c.map with
          heap := [{ cnt := 0, ver := (4 + 2 * (n + 1)) % 4294967296, flag := mefReady,
                     value := some 7 }]
          closures := c.map.closures ++ [(⟨1, 0⟩, 0)] } := by
    show (Release 1 (Acquire 0 1 c.map).2).2 = _
    rw [hA]
    simp [Release, acquired, hm, releaseEntry, hh, hv, hc1, MamoMap.setEntry, hfast, hd,
      MamoMap.loopRunning, ho]
  have htc1 : (c.step 0 0 (.acquire 1)).map.toCheck = c.map.toCheck := by
    show (Acquire 0 1 c.map).2.toCheck = _
    rw [hA]
    rfl
  have htm1 : (c.step 0 0 (.acquire 1)).map.timer = c.map.timer := by
    show (Acquire 0 1 c.map).2.timer = _
    rw [hA]
    rfl
  have hca1 : (c.step 0 0 (.acquire 1)).checkAt = c.checkAt := by
    show c.checkAt ++ List.replicate ((Acquire 0 1 c.map).2.toCheck.length - _) _ = _
    rw [hA]
    show c.checkAt ++ List.replicate (c.map.toCheck.length - c.map.toCheck.length) _ = _
    rw [Nat.sub_self]
    simp
  refine ⟨?_, ?_, ?_, ?_, ?_, ?_, ?_, ?_, ?_, ?_, ?_, ?_, ?_⟩
  · rw [hmap]; exact hd
  · rw [hmap]; exact ho
  · rw [hmap]; exact hfast
  · rw [hmap]; exact hm
  · rw [hmap]; rfl
  · rw [hmap]; exact htd
  · rw [hmap]
    show c.map.timer.start = _
    rw [htm]
    rfl
  · show c.now + ((0 : Nat) : Int) + ((0 : Nat) : Int) = 199
    rw [hnow]
    rfl
  · show (if (c.step 0 0 (.acquire 1)).map.timer.inner = true then
        (if c.map.timer.inner = true then c.armedAt else _) else _) = 100
    rw [htm1, htm, if_pos rfl, if_pos rfl]
    exact harm
  · exact hda
  · exact hre
  · refine ⟨c.map.toCheck, ?_⟩
    rw [hmap]
    rfl
  · refine ⟨c.checkAt, ?_⟩
    show (c.step 0 0 (.acquire 1)).checkAt ++ List.replicate
      (((c.step 0 0 (.acquire 1)).step 0 0 (.release 1)).map.toCheck.length -
        (c.step 0 0 (.acquire 1)).map.toCheck.length) _ = _
    rw [hmap, hca1, htc1]
    show c.checkAt ++ List.replicate ((c.map.toCheck ++ [_]).length - c.map.toCheck.length) _ = _
    have hnow1 : (c.step 0 0 (.acquire 1)).now = 199 := by
      show c.now + ((0 : Nat) : Int) = 199
      rw [hnow]
      rfl
    rw [List.length_append]
    simp [hnow1]


theorem afterPairs_inv (n : Nat) : PairsInv n (afterPairs n) := by
  induction n with
  | zero =>
    unfold afterPairs
    exact ⟨by decide, by decide, by decide, by decide, by decide, by decide, by decide,
      by decide, by decide, by decide, by decide, ⟨[], by decide⟩, ⟨[], by decide⟩⟩
  | succ n ih =>
    have hstep : afterPairs (n + 1) =
        ((afterPairs n).step 0 0 (.acquire 1)).step 0 0 (.release 1) := by
      unfold afterPairs
      rw [Function.iterate_succ_apply']
    rw [hstep]
    exact pairsInv_step n _ ih

/-- The Tick at time 200 in a state with `PairsInv` in which the entry's `ver`
is 2, the version the payload in `toDelete` has observed: the entry is deleted. -/
theorem pairsInv_tick (n : Nat) (c : Clocked Nat Nat) (h : PairsInv n c)
    (hn : (4 + 2 * n) % 4294967296 = 2) :
    (c.step 0 1 .tick).now = 200 ∧
    (c.step 0 1 .tick).map.heap =
      [{ cnt := 0, ver := 2, flag := mefDeleted, value := none }] ∧
    (c.step 0 1 .tick).reaped =
      [{ time := 200, payload := { key := 1, entry := 0, prevVer := 2 }, arrived := 0,
         interval := 100 }] := by
  obtain ⟨hd, ho, hfast, hm, hh, htd, htm, hnow, harm, hda, hre, ⟨l, htc⟩, ⟨l', hca⟩⟩ := h
  rw [hn] at hh
  have he : c.map.heap[0]? =
      some { cnt := 0, ver := 2, flag := mefReady, value := some 7 } := by
    rw [hh]; rfl
  have hS : c.step 0 1 .tick = c.tick 200 := by
    simp [Clocked.step, MamoMap.loopRunning, hfast, ho, hd, htm, harm, hnow]
  have hne : ¬ (c.map.toDelete.length = 0 ∧ c.map.toCheck.length = 0) := by
    rw [htd]
    simp
  have hT : (tryDeleteAll c.map.toDelete c.map).heap =
      [{ cnt := 0, ver := 2, flag := mefDeleted, value := none }] := by
    rw [htd]
    show (tryDelete 1 0 2 c.map).heap = _
    rw [tryDelete_destroy 1 0 2 c.map _ he rfl rfl rfl]
    show c.map.heap.set 0 _ = _
    rw [hh]
    rfl
  rw [hS]
  unfold Clocked.tick
  rw [if_neg hne]
  refine ⟨rfl, ?_, ?_⟩
  · show (loopTick c.map).heap = _
    unfold loopTick
    rw [if_neg hne]
    exact hT
  · show c.reaped ++ List.map _ (c.map.toDelete.zip c.deleteAt) = _
    rw [hre, htd, hda, htm]
    rfl

/-- C20 (counterexample): on the Map with ttl 100, `AcquireOrStore(1, ...)` and
`Release(1)` at time 0 bring `cnt` to zero with `ver` 2; the Tick at time 100
moves the payload to `toDelete` and starts the timer again.  After 2^31 rounds of
`Acquire(1)` and `Release(1)`, all at time 199, the `uint32` `ver` is 2 again,
`cnt` is zero and the entry is `mefReady`; the Idle payload of the last release
has been received at time 199.  The Tick at time 200, the first one after that
payload has arrived, calls `tryDelete` with the payload received at time 0,
whose observed version equals the current one, and deletes the entry, one time
unit after the release that brought it to zero, the timer interval being 100. -/
theorem C20_wrapped_ver_deletes_at_the_first_tick :
    (afterPairs 2147483647).now = 199 ∧
    (afterPairs 2147483647).map.timer = { inner := true, duration := 100 } ∧
    (afterPairs 2147483647).map.heap =
      [{ cnt := 0, ver := 2, flag := mefReady, value := some 7 }] ∧
    (afterPairs 2147483647).map.toDelete = [{ key := 1, entry := 0, prevVer := 2 }] ∧
    (∃ l, (afterPairs 2147483647).map.toCheck = l ++ [{ key := 1, entry := 0, prevVer := 2 }]) ∧
    (∃ l, (afterPairs 2147483647).checkAt = l ++ [199]) ∧
    ((afterPairs 2147483647).step 0 1 .tick).now = 200 ∧
    ((afterPairs 2147483647).step 0 1 .tick).map.heap =
      [{ cnt := 0, ver := 2, flag := mefDeleted, value := none }] ∧
    ((afterPairs 2147483647).step 0 1 .tick).reaped =
      [{ time := 200, payload := { key := 1, entry := 0, prevVer := 2 }, arrived := 0,
         interval := 100 }] := by
  have hinv := afterPairs_inv 2147483647
  have hn : (4 + 2 * 2147483647) % 4294967296 = 2 := by decide
  have ht := pairsInv_tick 2147483647 _ hinv hn
  obtain ⟨_, _, _, _, hh, htd, htm, hnow, _, _, _, ⟨l, htc⟩, hca⟩ := hinv
  rw [hn] at hh htc
  exact ⟨hnow, htm, hh, htd, ⟨l, htc⟩, hca, ht.1, ht.2.1, ht.2.2⟩

/-- C20 (amended): two-epoch reaping.  For every payload `p` in `toCheck`, the
Tick the loop handles next calls `tryDelete` on the payloads of `toDelete` only
(heap, map and deletion log are those `tryDeleteAll toDelete` leaves), empties
`toCheck`, and moves `p` to `toDelete` if and only if `p`'s entry then has
`cnt == 0` and `ver` equal to `p`'s observed version; the timer is started again
with its full duration.  For every payload `p` in `toDelete`, the Tick the loop
handles next calls `tryDelete` on `p`: an entry that is `mefReady` with
`cnt == 0` and `ver` equal to `p`'s observed version is deleted by that Tick.
With the ghost clock, along every sequence of timed events on a new Map, every
payload has its time of arrival, and every `tryDelete` call made on a Tick is
made at least one timer interval after the loop received its payload. -/
theorem C20_two_epoch_reaping (fuel : Nat) (ttl : Int) (fin : Bool)
    (events : List (Nat × Op K V)) :
    (∀ (s : MamoMap K V) (p : mamoMapIdleEventPayload K),
      s.loopRunning = true → s.timer.inner = true → p ∈ s.toCheck →
      (Tick s).heap = (tryDeleteAll s.toDelete s).heap ∧
      (Tick s).m = (tryDeleteAll s.toDelete s).m ∧
      (Tick s).deleted = (tryDeleteAll s.toDelete s).deleted ∧
      (Tick s).toCheck = [] ∧
      (p ∈ (Tick s).toDelete ↔ payloadUntouched (tryDeleteAll s.toDelete s) p = true) ∧
      (Tick s).timer = { inner := true, duration := s.timer.duration }) ∧
    (∀ (s : MamoMap K V) (p : mamoMapIdleEventPayload K) (e : mamoEntry V),
      s.loopRunning = true → s.timer.inner = true → p ∈ s.toDelete →
      s.heap[p.entry]? = some e → e.cnt = 0 → e.ver = p.prevVer → e.flag = mefReady →
      (Tick s).heap[p.entry]? = some { e with flag := mefDeleted, value := none } ∧
      (Tick s).timer = { inner := true, duration := s.timer.duration }) ∧
    Aligned (Clocked.run fuel events (Clocked.new ttl fin)) ∧
    ∀ r ∈ (Clocked.run fuel events (Clocked.new ttl fin : Clocked K V)).reaped,
      r.arrived + r.interval ≤ r.time :=
  ⟨fun s p hrun harm hp => Tick_first s p hrun harm hp,
   fun s p e hrun harm hp he hc hv hf => Tick_second s p e hrun harm hp he hc hv hf,
   aligned_run fuel events _ (wf_NewMap ttl fin) ⟨rfl, rfl⟩,
   (clockInv_run fuel events _ (clockInv_new ttl fin)).reaped⟩

/-- Witness of `C20_two_epoch_reaping`: the Map with ttl 100 after
`AcquireOrStore(1, ...)`, the call of the returned closure and one Tick; the
payload is in `toDelete`, the entry is untouched, and the next Tick deletes it. -/
theorem C20_two_epoch_reaping_witness :
    (run 0 [.acquireOrStore 1 7, .callRelease 0, .tick]
      (NewMap 100 false : MamoMap Nat Nat)).loopRunning = true ∧
    (run 0 [.acquireOrStore 1 7, .callRelease 0, .tick]
      (NewMap 100 false : MamoMap Nat Nat)).timer.inner = true ∧
    ({ key := 1, entry := 0, prevVer := 2 } : mamoMapIdleEventPayload Nat) ∈
      (run 0 [.acquireOrStore 1 7, .callRelease 0, .tick]
        (NewMap 100 false : MamoMap Nat Nat)).toDelete ∧
    (Tick (run 0 [.acquireOrStore 1 7, .callRelease 0, .tick]
      (NewMap 100 false : MamoMap Nat Nat))).heap[0]? =
      some { cnt := 0, ver := 2, flag := mefDeleted, value := none } :=
  ⟨by decide, by decide, by decide,
   ((C20_two_epoch_reaping 0 100 false ([] : List (Nat × Op Nat Nat))).2.1
      (run 0 [.acquireOrStore 1 7, .callRelease 0, .tick] (NewMap 100 false : MamoMap Nat Nat))
      { key := 1, entry := 0, prevVer := 2 }
      { cnt := 0, ver := 2, flag := mefReady, value := some 7 }
      (by decide) (by decide) (by decide) (by decide) rfl rfl rfl).1⟩

/-! ## C17: concurrent callers of `MamoMapEx.AcquireOrStore` -/

/-- C17 (divergence of the code): two callers, 0 and 1, of
`MamoMapEx.AcquireOrStore` on a key without entry, with a `createValue` that
returns 7.  Caller 0 stores the inner entry and has `created` true from the
inner `AcquireOrStore`; caller 1 finds the entry (`created` false).  Caller 1
then loads the state first, wins the `CompareAndSwap` of `item.do`, runs
`createValue` and sets `created = true`; caller 0 then finds the item
`iesReady`, takes `item.call` and returns with the `created` of the inner call.
`createValue` has been invoked once and both results hold the call with the
value 7, but both callers have received `created` true. -/
theorem C17_two_callers_receive_created :
    (Flight.run [0, 1] (Flight.new false 7 2)).callers =
      [{ pc := .loadState, created := true }, { pc := .loadState, created := false }] ∧
    (Flight.run [0, 1] (Flight.new false 7 2)).item.state = .iesUninitialized ∧
    (Flight.run [0, 1, 1, 1, 1] (Flight.new false 7 2)).callers =
      [{ pc := .loadState, created := true }, { pc := .waiting 0, created := true }] ∧
    (Flight.run [0, 1, 1, 1, 1] (Flight.new false 7 2)).item =
      { state := .iesReady, ver := 0, call := some 0 } ∧
    Flight.run [0, 1, 1, 1, 1, 0, 0, 1] (Flight.new false 7 2) =
      { stored := true
        item := { state := .iesReady, ver := 0, call := some 0 }
        calls := [{ done := true, value := some 7, ver := 0, err := none }]
        creates := 1
        value := 7
        callers :=
          [{ pc := .returned ⟨0, some 0⟩ true, created := true },
           { pc := .returned ⟨0, some 0⟩ true, created := true }] } := by
  refine ⟨by decide, by decide, by decide, by decide, by decide⟩

theorem countP_set_inc {α : Type} (P : α → Bool) (l : List α) (i : Nat) (a b : α)
    (hi : l[i]? = some a) (ha : P a = false) (hb : P b = true) :
    (l.set i b).countP P = l.countP P + 1 := by
  induction l generalizing i with
  | nil => simp at hi
  | cons x xs ih =>
    cases i with
    | zero =>
      simp at hi
      subst hi
      simp [List.countP_cons, ha, hb]
    | succ j =>
      simp at hi
      have := ih j hi
      simp only [List.set_cons_succ, List.countP_cons]
      omega

theorem countP_zero_of {α : Type} (P : α → Bool) (l : List α) (h : ∀ x ∈ l, P x = false) :
    l.countP P = 0 := by
  rw [List.countP_eq_zero]
  intro x hx
  simp [h x hx]

theorem not_of_countP_zero {α : Type} (P : α → Bool) (l : List α) (h : l.countP P = 0) :
    ∀ x ∈ l, P x = false := by
  rw [List.countP_eq_zero] at h
  intro x hx
  simpa using h x hx

/-- A step of a caller that changes nothing of the shared state and nothing
that the phases count. -/
theorem flightInv_keep (value : V) (s : Flight V) (i : Nat) (t t' : Caller)
    (h : FlightInv value s) (hi : s.callers[i]? = some t) (hok : CallerOk s.item.state t')
    (h1 : (t'.pc == CallerPc.doInit) = (t.pc == CallerPc.doInit))
    (h2 : (t'.pc == CallerPc.creating 0) = (t.pc == CallerPc.creating 0))
    (h3 : t'.created = t.created) :
    FlightInv value { s with callers := s.callers.set i t' } := by
  obtain ⟨hst, hval, hver, hall, hph⟩ := h
  refine ⟨hst, hval, hver, ?_, ?_⟩
  · intro x hx
    rcases List.mem_or_eq_of_mem_set hx with hx | hx
    · exact hall x hx
    · rw [hx]; exact hok
  · rcases hph with hA | ⟨hs, hc, hcr, hcnt⟩ | ⟨hs, hcall, hc, hcr, hcnt⟩ | ⟨hs, hcall, hc, hcr, hcnt⟩
    · exact Or.inl hA
    · refine Or.inr (Or.inl ⟨hs, hc, hcr, ?_⟩)
      show (s.callers.set i t').countP _ = 1
      rw [countP_set_same _ s.callers i t t' hi h1]
      exact hcnt
    · refine Or.inr (Or.inr (Or.inl ⟨hs, hcall, hc, hcr, ?_⟩))
      show (s.callers.set i t').countP _ = 1
      rw [countP_set_same _ s.callers i t t' hi h2]
      exact hcnt
    · refine Or.inr (Or.inr (Or.inr ⟨hs, hcall, hc, hcr, ?_⟩))
      show (s.callers.set i t').countP _ = 1
      rw [countP_set_same _ s.callers i t t' hi h3]
      exact hcnt


theorem flightInv_step (value : V) (s : Flight V) (i : Nat) (h : FlightInv value s) :
    FlightInv value (s.step i) := by
  unfold Flight.step
  cases hi : s.callers[i]? with
  | none => exact h
  | some t =>
    simp only
    have ht : t ∈ s.callers := List.getElem?_mem hi
    have hh := h
    obtain ⟨hst, hval, hver, hall, hph⟩ := h
    have hokt := hall t ht
    obtain ⟨pc, cr⟩ := t
    have hmem : ∀ (t' : Caller) (x : Caller), x ∈ s.callers.set i t' → x = t' ∨ x ∈ s.callers :=
      fun t' x hx => (List.mem_or_eq_of_mem_set hx).symm
    rcases hph with ⟨hs, hc, hcr⟩ | ⟨hs, hc, hcr, hcnt⟩ | ⟨hs, hcall, hc, hcr, hcnt⟩ |
      ⟨hs, hcall, hc, hcr, hcnt⟩
    · -- the item is iesUninitialized
      rw [hs] at hokt
      obtain ⟨hpc, hcr0⟩ := hokt
      simp only at hpc hcr0
      subst hcr0
      rcases hpc with hpc | hpc
      · subst hpc
        have hstep : Caller.step ⟨.enter, false⟩ s = (⟨.loadState, false⟩, s) := by
          simp [Caller.step, hst]
        rw [hstep]
        exact flightInv_keep value s i _ ⟨.loadState, false⟩ hh hi
          (by rw [hs]; exact ⟨Or.inr rfl, rfl⟩) rfl rfl rfl
      · subst hpc
        have hstep : Caller.step ⟨.loadState, false⟩ s =
            (⟨.doInit, false⟩, { s with item := { s.item with state := .iesInitializing } }) := by
          simp [Caller.step, hs]
        rw [hstep]
        have hold : ∀ x ∈ s.callers, (x.pc == CallerPc.doInit) = false := by
          intro x hx
          have := hall x hx
          rw [hs] at this
          rcases this.1 with h1 | h1 <;> rw [h1] <;> rfl
        refine ⟨hst, hval, hver, ?_, Or.inr (Or.inl ⟨rfl, hc, hcr, ?_⟩)⟩
        · intro x hx
          rcases hmem _ x hx with hx | hx
          · rw [hx]; exact ⟨Or.inr (Or.inr rfl), rfl⟩
          · have := hall x hx
            rw [hs] at this
            exact ⟨this.1.elim Or.inl (fun h1 => Or.inr (Or.inl h1)), this.2⟩
        · show (s.callers.set i _).countP _ = 1
          rw [countP_set_inc _ s.callers i _ _ hi rfl rfl, countP_zero_of _ _ hold]
    · -- the item is iesInitializing
      rw [hs] at hokt
      obtain ⟨hpc, hcr0⟩ := hokt
      simp only at hpc hcr0
      subst hcr0
      rcases hpc with hpc | hpc | hpc
      · subst hpc
        have hstep : Caller.step ⟨.enter, false⟩ s = (⟨.loadState, false⟩, s) := by
          simp [Caller.step, hst]
        rw [hstep]
        exact flightInv_keep value s i _ ⟨.loadState, false⟩ hh hi
          (by rw [hs]; exact ⟨Or.inr (Or.inl rfl), rfl⟩) rfl rfl rfl
      · subst hpc
        have hstep : Caller.step ⟨.loadState, false⟩ s = (⟨.loadState, false⟩, s) := by
          simp [Caller.step, hs]
        rw [hstep]
        exact flightInv_keep value s i _ ⟨.loadState, false⟩ hh hi
          (by rw [hs]; exact ⟨Or.inr (Or.inl rfl), rfl⟩) rfl rfl rfl
      · subst hpc
        have hstep : Caller.step ⟨.doInit, false⟩ s =
            (⟨.creating 0, false⟩,
              { s with
                item := { s.item with call := some 0, state := .iesCallReady }
                calls := [{ done := false, value := none, ver := 0, err := none }]
                creates := 1 }) := by
          simp [Caller.step, hc, hcr, hver]
        rw [hstep]
        have hnone : ∀ x ∈ s.callers.set i ⟨.creating 0, false⟩,
            (x.pc == CallerPc.doInit) = false := by
          apply not_of_countP_zero
          have := countP_set_dec (fun t : Caller => t.pc == CallerPc.doInit) s.callers i
            ⟨.doInit, false⟩ ⟨.creating 0, false⟩ hi rfl rfl
          omega
        have hold : ∀ x ∈ s.callers, (x.pc == CallerPc.creating 0) = false := by
          intro x hx
          have := hall x hx
          rw [hs] at this
          rcases this.1 with h1 | h1 | h1 <;> rw [h1] <;> rfl
        refine ⟨hst, hval, hver, ?_, Or.inr (Or.inr (Or.inl ⟨rfl, rfl, rfl, rfl, ?_⟩))⟩
        · intro x hx
          have hnd := hnone x hx
          rcases hmem _ x hx with hx | hx
          · rw [hx]; exact ⟨Or.inr (Or.inr (Or.inl rfl)), rfl⟩
          · have := hall x hx
            rw [hs] at this
            refine ⟨?_, this.2⟩
            rcases this.1 with h1 | h1 | h1
            · exact Or.inl h1
            · exact Or.inr (Or.inl h1)
            · rw [h1] at hnd
              cases hnd
        · show (s.callers.set i _).countP _ = 1
          rw [countP_set_inc _ s.callers i _ _ hi rfl rfl, countP_zero_of _ _ hold]
    · -- the item is iesCallReady
      rw [hs] at hokt
      obtain ⟨hpc, hcr0⟩ := hokt
      simp only at hpc hcr0
      subst hcr0
      rcases hpc with hpc | hpc | hpc | hpc
      · subst hpc
        have hstep : Caller.step ⟨.enter, false⟩ s = (⟨.loadState, false⟩, s) := by
          simp [Caller.step, hst]
        rw [hstep]
        exact flightInv_keep value s i _ ⟨.loadState, false⟩ hh hi
          (by rw [hs]; exact ⟨Or.inr (Or.inl rfl), rfl⟩) rfl rfl rfl
      · subst hpc
        have hstep : Caller.step ⟨.loadState, false⟩ s = (⟨.waiting 0, false⟩, s) := by
          simp [Caller.step, hs, hcall]
        rw [hstep]
        exact flightInv_keep value s i _ ⟨.waiting 0, false⟩ hh hi
          (by rw [hs]; exact ⟨Or.inr (Or.inr (Or.inr rfl)), rfl⟩) rfl rfl rfl
      · subst hpc
        have hstep : Caller.step ⟨.creating 0, false⟩ s =
            (⟨.waiting 0, true⟩,
              { s with
                item := { s.item with state := .iesReady }
                calls := [{ done := true, value := some value, ver := 0, err := none }] }) := by
          simp [Caller.step, hc, hval]
        rw [hstep]
        have hnone : ∀ x ∈ s.callers.set i ⟨.waiting 0, true⟩,
            (x.pc == CallerPc.creating 0) = false := by
          apply not_of_countP_zero
          have := countP_set_dec (fun t : Caller => t.pc == CallerPc.creating 0) s.callers i
            ⟨.creating 0, false⟩ ⟨.waiting 0, true⟩ hi rfl rfl
          omega
        have hold : ∀ x ∈ s.callers, x.created = false := by
          intro x hx
          have := hall x hx
          rw [hs] at this
          exact this.2
        refine ⟨hst, hval, hver, ?_, Or.inr (Or.inr (Or.inr ⟨rfl, hcall, rfl, hcr, ?_⟩))⟩
        · intro x hx
          have hnd := hnone x hx
          rcases hmem _ x hx with hx | hx
          · rw [hx]; exact Or.inr (Or.inr (Or.inl rfl))
          · have := hall x hx
            rw [hs] at this
            rcases this.1 with h1 | h1 | h1 | h1
            · exact Or.inl ⟨h1, this.2⟩
            · exact Or.inr (Or.inl h1)
            · rw [h1] at hnd
              cases hnd
            · exact Or.inr (Or.inr (Or.inl h1))
        · show (s.callers.set i _).countP _ = 1
          rw [countP_set_inc _ s.callers i _ _ hi rfl rfl, countP_zero_of _ _ hold]
      · subst hpc
        have hstep : Caller.step ⟨.waiting 0, false⟩ s = (⟨.waiting 0, false⟩, s) := by
          simp [Caller.step, hc]
        rw [hstep]
        exact flightInv_keep value s i _ ⟨.waiting 0, false⟩ hh hi
          (by rw [hs]; exact ⟨Or.inr (Or.inr (Or.inr rfl)), rfl⟩) rfl rfl rfl
    · -- the item is iesReady
      rw [hs] at hokt
      simp only [CallerOk] at hokt
      rcases hokt with ⟨hpc, hcr0⟩ | hpc | hpc | hpc
      · subst hpc
        subst hcr0
        have hstep : Caller.step ⟨.enter, false⟩ s = (⟨.loadState, false⟩, s) := by
          simp [Caller.step, hst]
        rw [hstep]
        exact flightInv_keep value s i _ ⟨.loadState, false⟩ hh hi
          (by rw [hs]; exact Or.inr (Or.inl rfl)) rfl rfl rfl
      · subst hpc
        have hstep : Caller.step ⟨.loadState, cr⟩ s = (⟨.waiting 0, cr⟩, s) := by
          simp [Caller.step, hs, hcall]
        rw [hstep]
        exact flightInv_keep value s i _ ⟨.waiting 0, cr⟩ hh hi
          (by rw [hs]; exact Or.inr (Or.inr (Or.inl rfl))) rfl rfl rfl
      · subst hpc
        have hstep : Caller.step ⟨.waiting 0, cr⟩ s = (⟨.returned ⟨0, some 0⟩ cr, cr⟩, s) := by
          simp [Caller.step, hc, hver]
        rw [hstep]
        exact flightInv_keep value s i _ ⟨.returned ⟨0, some 0⟩ cr, cr⟩ hh hi
          (by rw [hs]; exact Or.inr (Or.inr (Or.inr rfl))) rfl rfl rfl
      · subst hpc
        have hstep : Caller.step ⟨.returned ⟨0, some 0⟩ cr, cr⟩ s =
            (⟨.returned ⟨0, some 0⟩ cr, cr⟩, s) := by
          simp [Caller.step]
        rw [hstep]
        exact flightInv_keep value s i _ ⟨.returned ⟨0, some 0⟩ cr, cr⟩ hh hi
          (by rw [hs]; exact Or.inr (Or.inr (Or.inr rfl))) rfl rfl rfl


theorem flightInv_new (value : V) (n : Nat) : FlightInv value (Flight.new true value n) := by
  refine ⟨rfl, rfl, rfl, ?_, Or.inl ⟨rfl, rfl, rfl⟩⟩
  intro t ht
  have := List.eq_of_mem_replicate ht
  rw [this]
  exact ⟨Or.inl rfl, rfl⟩

theorem flightInv_run (value : V) (schedule : List Nat) (s : Flight V)
    (h : FlightInv value s) : FlightInv value (Flight.run schedule s) := by
  induction schedule generalizing s with
  | nil => exact h
  | cons i rest ih => exact ih _ (flightInv_step value s i h)

theorem flightInv_creates (value : V) (s : Flight V) (h : FlightInv value s) :
    s.creates ≤ 1 ∧ s.callers.countP (fun t => t.created) ≤ 1 := by
  obtain ⟨_, _, _, hall, hph⟩ := h
  rcases hph with ⟨hs, _, hcr⟩ | ⟨hs, _, hcr, _⟩ | ⟨hs, _, _, hcr, _⟩ | ⟨hs, _, _, hcr, hcnt⟩
  · refine ⟨by omega, ?_⟩
    rw [countP_zero_of]
    · omega
    · intro x hx
      have := hall x hx
      rw [hs] at this
      exact this.2
  · refine ⟨by omega, ?_⟩
    rw [countP_zero_of]
    · omega
    · intro x hx
      have := hall x hx
      rw [hs] at this
      exact this.2
  · refine ⟨by omega, ?_⟩
    rw [countP_zero_of]
    · omega
    · intro x hx
      have := hall x hx
      rw [hs] at this
      exact this.2
  · exact ⟨by omega, by omega⟩

theorem flightInv_returned (value : V) (s : Flight V) (h : FlightInv value s)
    (t : Caller) (ht : t ∈ s.callers) (res : MapExResult) (cr : Bool)
    (hpc : t.pc = .returned res cr) :
    res = ⟨0, some 0⟩ ∧ cr = t.created ∧
      s.calls = [{ done := true, value := some value, ver := 0, err := none }] ∧
      s.creates = 1 ∧ s.callers.countP (fun t => t.created) = 1 := by
  obtain ⟨_, _, _, hall, hph⟩ := h
  have hok := hall t ht
  rcases hph with ⟨hs, _, hcr⟩ | ⟨hs, _, hcr, _⟩ | ⟨hs, _, _, hcr, _⟩ | ⟨hs, _, hc, hcr, hcnt⟩
  · rw [hs] at hok
    rcases hok.1 with h1 | h1 <;> rw [h1] at hpc <;> cases hpc
  · rw [hs] at hok
    rcases hok.1 with h1 | h1 | h1 <;> rw [h1] at hpc <;> cases hpc
  · rw [hs] at hok
    rcases hok.1 with h1 | h1 | h1 | h1 <;> rw [h1] at hpc <;> cases hpc
  · rw [hs] at hok
    rcases hok with ⟨h1, _⟩ | h1 | h1 | h1
    · rw [h1] at hpc; cases hpc
    · rw [h1] at hpc; cases hpc
    · rw [h1] at hpc; cases hpc
    · rw [h1] at hpc
      cases hpc
      exact ⟨rfl, rfl, hc, hcr, hcnt⟩

/-- On a key whose entry already exists (the item is `iesUninitialized`, as after
a revoke or after an errored create), under every schedule of any number of
concurrent `MamoMapEx.AcquireOrStore` callers whose `createValue` succeeds:
`createValue` is invoked at most once and at most one caller holds `created`
true; every caller that has returned has returned call 0 of the item, that call
holds the value, `createValue` has been invoked exactly once and exactly one
caller holds `created` true. -/
theorem flight_on_existing_entry (value : V) (n : Nat) (schedule : List Nat) :
    (Flight.run schedule (Flight.new true value n)).creates ≤ 1 ∧
    (Flight.run schedule (Flight.new true value n)).callers.countP (fun t => t.created) ≤ 1 ∧
    ∀ t ∈ (Flight.run schedule (Flight.new true value n)).callers,
      ∀ (res : MapExResult) (cr : Bool), t.pc = .returned res cr →
        res = ⟨0, some 0⟩ ∧ cr = t.created ∧
        (Flight.run schedule (Flight.new true value n)).calls =
          [{ done := true, value := some value, ver := 0, err := none }] ∧
        (Flight.run schedule (Flight.new true value n)).creates = 1 ∧
        (Flight.run schedule (Flight.new true value n)).callers.countP
          (fun t => t.created) = 1 := by
  have h := flightInv_run value schedule _ (flightInv_new value n)
  exact ⟨(flightInv_creates value _ h).1, (flightInv_creates value _ h).2,
    fun t ht res cr hpc => flightInv_returned value _ h t ht res cr hpc⟩


/-- Two callers on an existing entry, both run to their return: one `createValue`,
`created` true for the caller that ran it and false for the other. -/
theorem flight_on_existing_entry_run :
    (Flight.run [0, 1, 0, 1, 0, 0, 0, 1, 1, 1] (Flight.new true 7 2)).callers =
      [{ pc := .returned ⟨0, some 0⟩ true, created := true },
       { pc := .returned ⟨0, some 0⟩ false, created := false }] ∧
    (Flight.run [0, 1, 0, 1, 0, 0, 0, 1, 1, 1] (Flight.new true 7 2)).creates = 1 := by
  constructor <;> rfl

end mamo
